import Mathlib

/-!
# AcidRain (`public/AcidRain/game.js`): falling-particle simulation and terrain erosion

A shallow embedding of the module-level state of `game.js` and of its event handlers.
The host engine (`PS.*` paint calls, timer, event dispatch) is outside the module; the
handlers are modelled by their effect on the module's global variables.

Conventions.
* Bead coordinates handed over by the host are zero-based, hence `Nat`.
* A value read out of the grid is `Option Char`: `none` stands for JavaScript `undefined`
  (an index past the end of a row, or a hole left by a write past the end of a row).
* A handler that raises a `TypeError` stops where it is; the globals keep the values written
  so far.  The models return that state and, where it matters, a flag telling whether the
  handler ran to completion.
-/

namespace AcidRain

/-! ## Constants and level data (game.js 51-127) -/

/-- Source `const Width = 16` (game.js 51). -/
def Width : Nat := 16

/-- Source `const Height = 16` (game.js 51). -/
def Height : Nat := 16

/-- A grid cell as JavaScript sees it: a one-character string, or `undefined` (`none`). -/
abbrev Cell := Option Char

/-- One row of the grid, a JavaScript array of cells. -/
abbrev Row := List Cell

/-- The grid `levelMap`, an array of rows indexed by `y` first. -/
abbrev Grid := List Row

/-- One entry of `LEGEND` (game.js 54-61): the base name and the optional colour. -/
structure Tile where
  base : String
  color : Option Nat
deriving DecidableEq, Repr

/-- The object `LEGEND` (game.js 54-61), as a key/value list. -/
def LEGEND : List (Char × Tile) :=
  [ ('#', ⟨"wallGray", some 0x777777⟩),
    ('.', ⟨"empty", none⟩),
    ('G', ⟨"wallGreen", some 0x3B6318⟩),
    ('B', ⟨"wallBrown", some 0x7D4B29⟩),
    ('L', ⟨"wallVeryLightGray", some 0xFFFFFF⟩),
    ('Y', ⟨"wallYellow", some 0xE5E827⟩) ]

/-- The array `levels` (game.js 63-118): three levels of sixteen strings each. -/
def levels : List (List String) :=
  [ [ "................",
      "................",
      "................",
      "................",
      "................",
      "................",
      "................",
      "................",
      "................",
      "................",
      "################",
      "################",
      "################",
      "################",
      "################",
      "################" ],
    [ "................",
      "................",
      "................",
      "................",
      "......GGG.......",
      ".....GGGGGG.....",
      "....GGGGGGGG....",
      "....GGGGGGGG....",
      "....GGGBGGGG....",
      ".....GGGBG......",
      "......BBBB......",
      "......BBBB......",
      "......BBBB......",
      "......BBBB......",
      "......BBBB......",
      "......BBBB......" ],
    [ "................",
      "...YY...........",
      "..YYYY..........",
      "..YYYY..........",
      "...YY...........",
      "........LL......",
      ".......LLLL.....",
      "......LLLLLL....",
      ".....#LLL#L#L...",
      "...#L#L##L###L..",
      "..#############.",
      ".##############.",
      "################",
      "################",
      "################",
      "################" ] ]

/-- The call `row.split("")` (game.js 124): the characters of a row string, one cell each. -/
def splitRow (row : String) : Row :=
  row.toList.map some

/-- The array `parsedLevels` (game.js 121-127): every row string split into characters. -/
def parsedLevels : List Grid :=
  levels.map (fun level => level.map splitRow)

/-! ## Module state (game.js 129-130, 183-184) -/

/-- The two values the variable `mode` ever holds. -/
inductive Mode where
  | menu
  | play
deriving DecidableEq, Repr

/-- An element of `drops`: the object `{ x, y }` pushed at game.js 223. -/
structure Drop where
  x : Nat
  y : Nat
deriving DecidableEq, Repr

/-- The mutable globals of the module.  (`levelIndex`, game.js 130, is never assigned: the
parameter of `loadLevel` shadows it; it is left out.) -/
structure State where
  mode : Mode
  raining : Bool
  rainX : Nat
  rainY : Nat
  drops : List Drop
  spawnWait : Int
  levelMap : Grid
deriving DecidableEq, Repr

/-- The globals as initialised at module load (game.js 129, 183-184). -/
def initial : State :=
  { mode := Mode.menu, raining := false, rainX := 0, rainY := 0, drops := [],
    spawnWait := 0, levelMap := [] }

/-! ## Grid access (game.js 186-192) -/

/-- Function `destructible(ch)` (game.js 186-188): `ch !== "."`; `undefined` is not `"."`. -/
def destructible (ch : Cell) : Bool :=
  ch != some '.'

/-- The read `row[x]`: `undefined` past the end of the row or at a hole. -/
def readCell (row : Row) (x : Nat) : Cell :=
  (row[x]?).join

/-- The assignment `row[x] = ch` on a JavaScript array: in place when `x` is inside the row,
otherwise the row grows to length `x + 1` and the skipped indices are holes. -/
def writeCell (row : Row) (x : Nat) (ch : Char) : Row :=
  if x < row.length then row.set x (some ch)
  else row ++ List.replicate (x - row.length) none ++ [some ch]

/-- Function `setTile(x, y, ch)` (game.js 190-192): `levelMap[y][x] = ch`.  `none` when `levelMap[y]`
is `undefined`, where the assignment raises a `TypeError`. -/
def setTile (levelMap : Grid) (x y : Nat) (ch : Char) : Option Grid :=
  match levelMap[y]? with
  | none => none
  | some row => some (levelMap.set y (writeCell row x ch))

/-! ## Menu and level loading (game.js 133-181) -/

/-- Function `loadMenu()` (game.js 133-141); `drawMenu` only paints. -/
def loadMenu (s : State) : State :=
  { s with mode := Mode.menu, raining := false, drops := [], spawnWait := 0 }

/-- Function `loadLevel(levelIndex)` (game.js 167-181).  The grid becomes a fresh copy of
`parsedLevels[levelIndex]`; for an index outside the catalog the read raises after the first
four assignments and `levelMap` keeps its value. -/
def loadLevel (levelIndex : Nat) (s : State) : State :=
  let s1 : State := { s with mode := Mode.play, raining := false, drops := [], spawnWait := 0 }
  match parsedLevels[levelIndex]? with
  | none => s1
  | some level => { s1 with levelMap := level.map (fun row => row) }

/-! ## The simulation step (game.js 215-249) -/

/-- Spawn phase of `tick` (game.js 221-226): when raining, `spawnWait-- <= 0` tests the old
value and always decrements; on success a drop is pushed at the rain origin and `spawnWait`
becomes 2.  When not raining `spawnWait` becomes 0. -/
def spawnPhase (s : State) : State :=
  if s.raining then
    if s.spawnWait ≤ 0 then
      { s with drops := s.drops ++ [{ x := s.rainX, y := s.rainY }], spawnWait := 2 }
    else
      { s with spawnWait := s.spawnWait - 1 }
  else
    { s with spawnWait := 0 }

/-- What the advance loop leaves behind: the particle list, the grid, and whether the loop
ran to its end (`false`: a `TypeError` stopped it). -/
structure LoopResult where
  drops : List Drop
  levelMap : Grid
  completed : Bool
deriving DecidableEq, Repr

/-- The advance loop of `tick` (game.js 228-246), `for (i = drops.length - 1; i >= 0; i -= 1)`.
The first argument is `i + 1`, the number of indices still to visit. -/
def advanceLoop : Nat → List Drop → Grid → LoopResult
  | 0, drops, levelMap => ⟨drops, levelMap, true⟩
  | i + 1, drops, levelMap =>
    match drops[i]? with
    | none => ⟨drops, levelMap, false⟩
    | some p =>
      let nextYPosition := p.y + 1
      if nextYPosition ≥ Height then
        advanceLoop i (drops.eraseIdx i) levelMap
      else
        match levelMap[nextYPosition]? with
        | none => ⟨drops, levelMap, false⟩
        | some row =>
          let belowDrop := readCell row p.x
          if destructible belowDrop then
            match setTile levelMap p.x nextYPosition '.' with
            | none => ⟨drops, levelMap, false⟩
            | some levelMap1 => advanceLoop i (drops.eraseIdx i) levelMap1
          else
            advanceLoop i (drops.set i { p with y := nextYPosition }) levelMap

/-- The advance phase on a state: the loop started at `i = drops.length - 1`. -/
def advancePhase (s : State) : LoopResult :=
  advanceLoop s.drops.length s.drops s.levelMap

/-- Function `tick()` (game.js 215-249): nothing outside play mode; otherwise the spawn phase, then the
advance loop.  `draw` only paints. -/
def tick (s : State) : State :=
  if s.mode ≠ Mode.play then s
  else
    let s1 := spawnPhase s
    let r := advancePhase s1
    { s1 with drops := r.drops, levelMap := r.levelMap }

/-- Whether `tick` creates a drop in state `s`: play mode, raining, and `spawnWait <= 0`. -/
def spawnsOnTick (s : State) : Bool :=
  s.mode == Mode.play && s.raining && decide (s.spawnWait ≤ 0)

/-- The particle list that the advance loop of `tick` starts from: the drops of `s` plus the
one pushed by the spawn phase, if any. -/
def preAdvance (s : State) : List Drop :=
  (spawnPhase s).drops

/-! ## Host callbacks (game.js 255-401) -/

/-- Modelled from the spec: the host constant `PS.KEY_ESCAPE`, which the engine defines and
the repository only uses; the specification names escape as key code 27. -/
def KEY_ESCAPE : Int := 27

/-- Function `PS.init` (game.js 255-269): grid size, timer, then `loadMenu()`. -/
def PS.init (s : State) : State :=
  loadMenu s

/-- Function `PS.touch(x, y)` (game.js 281-293). -/
def PS.touch (x y : Nat) (s : State) : State :=
  if s.mode ≠ Mode.play then s
  else { s with raining := true, rainX := x, rainY := y }

/-- Function `PS.release` (game.js 305-313). -/
def PS.release (s : State) : State :=
  { s with raining := false }

/-- Function `PS.enter(x, y)` (game.js 325-334). -/
def PS.enter (x y : Nat) (s : State) : State :=
  { s with rainX := x, rainY := y }

/-- Function `PS.exitGrid` (game.js 361-369). -/
def PS.exitGrid (s : State) : State :=
  { s with raining := false }

/-- Function `PS.keyDown(key)` (game.js 381-401); `levels.length` is 3. -/
def PS.keyDown (key : Int) (s : State) : State :=
  if key = KEY_ESCAPE ∨ key = 27 then loadMenu s
  else if s.mode ≠ Mode.menu then s
  else if key ≥ 49 ∧ key ≤ 57 then
    let index := key - 49
    if index ≥ 0 ∧ index < (levels.length : Int) then loadLevel index.toNat s
    else s
  else s

/-- The events the host delivers to the module. -/
inductive Event where
  | tick
  | touch (x y : Nat)
  | release
  | enter (x y : Nat)
  | exitGrid
  | keyDown (key : Int)
deriving DecidableEq, Repr

/-- One event handled: the callback the host invokes for it. -/
def step (s : State) : Event → State
  | Event.tick => tick s
  | Event.touch x y => PS.touch x y s
  | Event.release => PS.release s
  | Event.enter x y => PS.enter x y s
  | Event.exitGrid => PS.exitGrid s
  | Event.keyDown key => PS.keyDown key s

/-- A sequence of events handled one after the other. -/
def run (s : State) (events : List Event) : State :=
  events.foldl step s

/-- The state once the module is loaded and `PS.init` has run. -/
def start : State :=
  PS.init initial

/-- The state after `n` consecutive ticks with no event in between. -/
def ticks : Nat → State → State
  | 0, s => s
  | n + 1, s => ticks n (tick s)

/-- The states reachable from `start` by events. -/
inductive Reachable : State → Prop where
  | start : Reachable start
  | step (s : State) (e : Event) : Reachable s → Reachable (step s e)

/-- The cell `levelMap[y][x]` of a state, `none` when the row or the cell is missing. -/
def cellAt (levelMap : Grid) (x y : Nat) : Cell :=
  match levelMap[y]? with
  | none => none
  | some row => readCell row x

/-- Level 0 loaded from the menu (key `1`), then a touch at bead (0, 0). -/
def scenario : State :=
  PS.touch 0 0 (PS.keyDown 49 start)

/-! ## Auxiliary descriptions used by the statements and proofs -/

/-- In menu mode the particle list is empty, rain is off and the countdown is 0. -/
def MenuInert (s : State) : Prop :=
  s.mode = Mode.menu → s.drops = [] ∧ s.raining = false ∧ s.spawnWait = 0

/-- The move `p.y = nextYPosition` (game.js 245): same column, one row down. -/
def fall (p : Drop) : Drop :=
  { p with y := p.y + 1 }

/-- The grid after `setTile(x, y, ".")`; the grid itself when row `y` is missing. -/
def eraseTile (levelMap : Grid) (x y : Nat) : Grid :=
  (setTile levelMap x y '.').getD levelMap

/-- The body of the advance loop (game.js 229-245) for one drop on a grid whose row
`p.y + 1` exists: the drop afterwards (`none` when it is spliced out) and the grid afterwards. -/
def advanceOne (p : Drop) (levelMap : Grid) : Option Drop × Grid :=
  if p.y + 1 ≥ Height then (none, levelMap)
  else if destructible (cellAt levelMap p.x (p.y + 1)) then (none, eraseTile levelMap p.x (p.y + 1))
  else (some (fall p), levelMap)

/-- The loop body applied to a list of drops from its last element to its first, the order of
the reverse index loop: the surviving drops in list order, and the final grid. -/
def sweep : List Drop → Grid → List Drop × Grid
  | [], levelMap => ([], levelMap)
  | p :: ps, levelMap =>
    let r := sweep ps levelMap
    let q := advanceOne p r.2
    (q.1.toList ++ r.1, q.2)

/-- A grid of `Height` rows of `Width` cells each. -/
def IsBoard (levelMap : Grid) : Prop :=
  levelMap.length = Height ∧ ∀ row ∈ levelMap, row.length = Width

/-- The bead positions `(x, y)` of the `Width` by `Height` board. -/
def beads : List (Nat × Nat) :=
  List.product (List.range Width) (List.range Height)

/-- The number of beads at which two grids hold different cells. -/
def changedCells (before after : Grid) : Nat :=
  beads.countP (fun c => cellAt before c.1 c.2 != cellAt after c.1 c.2)

/-- Cell `(x, y)` is struck by a list of drops on a grid: some drop of the list sits at
`(x, y - 1)` with `y < Height`, and the cell is not `'.'` on that grid. -/
def Struck (drops : List Drop) (levelMap : Grid) (x y : Nat) : Prop :=
  (∃ p ∈ drops, p.x = x ∧ p.y + 1 = y ∧ p.y + 1 < Height) ∧ cellAt levelMap x y ≠ some '.'

/-- A play-mode state of the third level with rain off and two drops: one on the bottom row
(y = 15) and one at (3, 5). -/
def bottomRowState : State :=
  { (PS.keyDown 51 start) with drops := [⟨2, 15⟩, ⟨3, 5⟩] }

/-- A play-mode state of the third level with rain off whose two drops are both on the
bottom row. -/
def allBottomState : State :=
  { (PS.keyDown 51 start) with drops := [⟨2, 15⟩, ⟨7, 15⟩] }

/-- The drops of a list that leave by the bottom edge: `y + 1 >= Height` (game.js 232). -/
def offGridCount (drops : List Drop) : Nat :=
  drops.countP (fun p => decide (p.y + 1 ≥ Height))

/-! ## The module with row arrays held by reference

In JavaScript a row of `parsedLevels` or of `levelMap` is an array object, and `setTile`
writes into the object that `levelMap[y]` refers to.  To state that play never touches the
catalog, this second model keeps every row array in a store and lets `parsedLevels` and
`levelMap` hold addresses.  The outer arrays are never written in place (the only indexed
assignment of the module is the one in `setTile`), so they stay lists of addresses. -/

/-- The row arrays allocated so far; the address of a row is its index. -/
abbrev RowStore := List Row

/-- The row array at address `a`. -/
def readStore (store : RowStore) (a : Nat) : Row :=
  (store[a]?).getD []

/-- The store once `parsedLevels` is built (game.js 121-127): one array per `row.split("")`,
allocated level by level, row by row. -/
def initialStore : RowStore :=
  (levels.map (fun level => level.map splitRow)).flatten

/-- The array `parsedLevels` by reference: row `y` of level `i` is the array allocated as
number `16 * i + y`. -/
def parsedLevelsRef : List (List Nat) :=
  (List.range levels.length).map (fun i => List.range' (Height * i) Height)

/-- The module state with `levelMap` by reference, together with the row store. -/
structure RefState where
  mode : Mode
  raining : Bool
  rainX : Nat
  rainY : Nat
  drops : List Drop
  spawnWait : Int
  levelMap : List Nat
  store : RowStore
deriving DecidableEq, Repr

/-- The catalog as the store currently holds it: every row of `parsedLevels` dereferenced. -/
def catalogOf (store : RowStore) : List Grid :=
  parsedLevelsRef.map (fun level => level.map (readStore store))

/-- The grid `levelMap` as the store currently holds it. -/
def gridOf (s : RefState) : Grid :=
  s.levelMap.map (readStore s.store)

/-- The state by value that a state by reference stands for. -/
def RefState.abs (s : RefState) : State :=
  { mode := s.mode, raining := s.raining, rainX := s.rainX, rainY := s.rainY,
    drops := s.drops, spawnWait := s.spawnWait, levelMap := gridOf s }

/-- The globals by reference at module load: `levelMap = []`, the store holds the catalog. -/
def Ref.initial : RefState :=
  { mode := Mode.menu, raining := false, rainX := 0, rainY := 0, drops := [],
    spawnWait := 0, levelMap := [], store := initialStore }

/-- Function `loadMenu()` (game.js 133-141) by reference. -/
def Ref.loadMenu (s : RefState) : RefState :=
  { s with mode := Mode.menu, raining := false, drops := [], spawnWait := 0 }

/-- Function `loadLevel(levelIndex)` (game.js 167-181) by reference: `map` builds a new outer array and
every `row.slice()` allocates a new row array holding the cells of the catalog row. -/
def Ref.loadLevel (levelIndex : Nat) (s : RefState) : RefState :=
  let s1 : RefState :=
    { s with mode := Mode.play, raining := false, drops := [], spawnWait := 0 }
  match parsedLevelsRef[levelIndex]? with
  | none => s1
  | some level =>
    { s1 with levelMap := List.range' s.store.length level.length,
              store := s.store ++ level.map (readStore s.store) }

/-- Function `setTile(x, y, ch)` (game.js 190-192) by reference: the write goes to the row array that
`levelMap[y]` refers to.  `none` when `levelMap[y]` is `undefined`. -/
def Ref.setTile (levelMap : List Nat) (store : RowStore) (x y : Nat) (ch : Char) :
    Option RowStore :=
  match levelMap[y]? with
  | none => none
  | some a => some (store.set a (writeCell (readStore store a) x ch))

/-- What the advance loop by reference leaves behind. -/
structure RefLoopResult where
  drops : List Drop
  store : RowStore
  completed : Bool
deriving DecidableEq, Repr

/-- The advance loop of `tick` (game.js 228-246) by reference; the first argument is `i + 1`. -/
def Ref.advanceLoop (levelMap : List Nat) : Nat → List Drop → RowStore → RefLoopResult
  | 0, drops, store => ⟨drops, store, true⟩
  | i + 1, drops, store =>
    match drops[i]? with
    | none => ⟨drops, store, false⟩
    | some p =>
      let nextYPosition := p.y + 1
      if nextYPosition ≥ Height then
        Ref.advanceLoop levelMap i (drops.eraseIdx i) store
      else
        match levelMap[nextYPosition]? with
        | none => ⟨drops, store, false⟩
        | some a =>
          let belowDrop := readCell (readStore store a) p.x
          if destructible belowDrop then
            match Ref.setTile levelMap store p.x nextYPosition '.' with
            | none => ⟨drops, store, false⟩
            | some store1 => Ref.advanceLoop levelMap i (drops.eraseIdx i) store1
          else
            Ref.advanceLoop levelMap i (drops.set i { p with y := nextYPosition }) store

/-- Spawn phase of `tick` (game.js 221-226) by reference. -/
def Ref.spawnPhase (s : RefState) : RefState :=
  if s.raining then
    if s.spawnWait ≤ 0 then
      { s with drops := s.drops ++ [{ x := s.rainX, y := s.rainY }], spawnWait := 2 }
    else
      { s with spawnWait := s.spawnWait - 1 }
  else
    { s with spawnWait := 0 }

/-- Function `tick()` (game.js 215-249) by reference. -/
def Ref.tick (s : RefState) : RefState :=
  if s.mode ≠ Mode.play then s
  else
    let s1 := Ref.spawnPhase s
    let r := Ref.advanceLoop s1.levelMap s1.drops.length s1.drops s1.store
    { s1 with drops := r.drops, store := r.store }

/-- Function `PS.touch(x, y)` (game.js 281-293) by reference. -/
def Ref.touch (x y : Nat) (s : RefState) : RefState :=
  if s.mode ≠ Mode.play then s
  else { s with raining := true, rainX := x, rainY := y }

/-- Function `PS.release` (game.js 305-313) by reference. -/
def Ref.release (s : RefState) : RefState :=
  { s with raining := false }

/-- Function `PS.enter(x, y)` (game.js 325-334) by reference. -/
def Ref.enter (x y : Nat) (s : RefState) : RefState :=
  { s with rainX := x, rainY := y }

/-- Function `PS.exitGrid` (game.js 361-369) by reference. -/
def Ref.exitGrid (s : RefState) : RefState :=
  { s with raining := false }

/-- Function `PS.keyDown(key)` (game.js 381-401) by reference. -/
def Ref.keyDown (key : Int) (s : RefState) : RefState :=
  if key = KEY_ESCAPE ∨ key = 27 then Ref.loadMenu s
  else if s.mode ≠ Mode.menu then s
  else if key ≥ 49 ∧ key ≤ 57 then
    let index := key - 49
    if index ≥ 0 ∧ index < (levels.length : Int) then Ref.loadLevel index.toNat s
    else s
  else s

/-- One event handled, by reference. -/
def Ref.step (s : RefState) : Event → RefState
  | Event.tick => Ref.tick s
  | Event.touch x y => Ref.touch x y s
  | Event.release => Ref.release s
  | Event.enter x y => Ref.enter x y s
  | Event.exitGrid => Ref.exitGrid s
  | Event.keyDown key => Ref.keyDown key s

/-- A sequence of events handled one after the other, by reference. -/
def Ref.run (s : RefState) (events : List Event) : RefState :=
  events.foldl Ref.step s

/-- The state by reference once the module is loaded and `PS.init` has run. -/
def Ref.start : RefState :=
  Ref.loadMenu Ref.initial

/-- A store and a `levelMap` in the shape every run keeps: the store still begins with the
catalog rows as allocated at load, and `levelMap` refers to distinct allocated rows none of
which is a catalog row. -/
def WellFormed (s : RefState) : Prop :=
  s.store.take initialStore.length = initialStore
    ∧ (∀ a ∈ s.levelMap, initialStore.length ≤ a ∧ a < s.store.length)
    ∧ s.levelMap.Nodup

/-! ## Event classes used by the statements about runs -/

/-- Pointer events: touch, release, enter and exitGrid; neither a tick nor a key. -/
def Event.IsPointer : Event → Prop
  | Event.touch _ _ => True
  | Event.release => True
  | Event.enter _ _ => True
  | Event.exitGrid => True
  | _ => False

/-- Events that leave rain off once it is off and stay in the play session: ticks, release,
enter and exitGrid; neither a touch nor a key. -/
def Event.IsIdle : Event → Prop
  | Event.tick => True
  | Event.release => True
  | Event.enter _ _ => True
  | Event.exitGrid => True
  | _ => False

/-- Pointer moves: enter events only. -/
def Event.IsMove : Event → Prop
  | Event.enter _ _ => True
  | _ => False

/-- Play mode with rain off and the countdown at 0. -/
def IdleReady (s : State) : Prop :=
  s.mode = Mode.play ∧ s.raining = false ∧ s.spawnWait = 0

/-! ## Survivors of a sweep, and the snapshot model of the advance phase -/

/-- Whether the reverse index loop keeps drop `p`, told from the grid before the loop and
from the drops `later` that follow `p` in the list (the loop visits those first): `p` is not
at the bottom edge, and the cell below it is `'.'` before the loop or a later drop shares the
position of `p` and has eroded that cell. -/
def survivesSweep (p : Drop) (later : List Drop) (levelMap : Grid) : Bool :=
  decide (p.y + 1 < Height)
    && (!destructible (cellAt levelMap p.x (p.y + 1)) || decide (p ∈ later))

/-- The drops a sweep keeps, each moved one row down, in list order. -/
def sweepSurvivors : List Drop → Grid → List Drop
  | [], _ => []
  | p :: ps, levelMap =>
    (if survivesSweep p ps levelMap then [fall p] else []) ++ sweepSurvivors ps levelMap

/-- Snapshot model, in the words of the specification: a drop is removed when `y + 1 >= 16`
or when the cell `(x, y + 1)` of the pre-advance grid is not `'.'`. -/
def snapshotRemoves (p : Drop) (levelMap : Grid) : Bool :=
  decide (p.y + 1 ≥ Height) || destructible (cellAt levelMap p.x (p.y + 1))

/-- Snapshot model: the drops that are not removed, each moved to `(x, y + 1)`. -/
def snapshotDrops (drops : List Drop) (levelMap : Grid) : List Drop :=
  (drops.filter (fun p => !snapshotRemoves p levelMap)).map fall

/-- Snapshot model: every cell struck by a removed drop, judged on the pre-advance grid, is
set to `'.'`. -/
def snapshotGrid (drops : List Drop) (levelMap : Grid) : Grid :=
  drops.foldr
    (fun p g =>
      if p.y + 1 < Height ∧ destructible (cellAt levelMap p.x (p.y + 1)) = true then
        eraseTile g p.x (p.y + 1)
      else g)
    levelMap

/-- Level 0 in play with rain held at (0, 6) for three ticks, the origin then moved onto the
falling drop at (0, 9): the next tick spawns a second drop in the same cell, right above the
wall row. -/
def sharedCellState : State :=
  run start [Event.keyDown 49, Event.touch 0 6, Event.tick, Event.tick, Event.tick,
    Event.enter 0 9]

/-- The second level (the tree) freshly loaded, with one drop at (0, 14), a column whose
bottom cell is `'.'`. -/
def treeEdgeState : State :=
  { (PS.keyDown 50 start) with drops := [⟨0, 14⟩] }

/-! ## The per-particle rule applied in an arbitrary order -/

/-- The per-particle advance rule applied to the drops of a list one after the other, first
element first, each on the grid left by the one before: the surviving drops in the order
visited, and the final grid. -/
def applyInOrder : List Drop → Grid → List Drop × Grid
  | [], levelMap => ([], levelMap)
  | p :: ps, levelMap =>
    let q := advanceOne p levelMap
    let r := applyInOrder ps q.2
    (q.1.toList ++ r.1, r.2)

/-- Whether the rule erodes a tile for drop `p` on a grid: `p` is not at the bottom edge and
the cell below it is not `'.'`. -/
def hitsTile (p : Drop) (levelMap : Grid) : Bool :=
  decide (p.y + 1 < Height) && destructible (cellAt levelMap p.x (p.y + 1))

/-! ## Invariants of runs -/

/-- Every drop sits in rows 1..15 on a cell holding `'.'`. -/
def RestsOnEmpty (s : State) : Prop :=
  ∀ p ∈ s.drops, 1 ≤ p.y ∧ p.y ≤ 15 ∧ cellAt s.levelMap p.x p.y = some '.'

/-- Rows of a list of drops spaced by two: the first is at row `b` or below, the next at row
`b + 2` or below, and so on. -/
def Spaced : List Drop → Nat → Prop
  | [], _ => True
  | p :: ps, b => b ≤ p.y ∧ Spaced ps (b + 2)

/-- The drops of a state, newest first, are spaced by two rows, starting at row 1 right
after a spawn (`spawnWait = 2`) and at row 2 otherwise, and all are above the bottom edge. -/
def DropsSpaced (s : State) : Prop :=
  Spaced s.drops.reverse (if s.spawnWait = 2 then 1 else 2) ∧ ∀ p ∈ s.drops, p.y < Height

/-- Level 1 (the tree) with rain toggled at (0, 0) so that a drop is created on every second
tick, fifteen ticks in all. -/
def toggledRainState : State :=
  run start [Event.keyDown 50,
    Event.touch 0 0, Event.tick, Event.release, Event.tick,
    Event.touch 0 0, Event.tick, Event.release, Event.tick,
    Event.touch 0 0, Event.tick, Event.release, Event.tick,
    Event.touch 0 0, Event.tick, Event.release, Event.tick,
    Event.touch 0 0, Event.tick, Event.release, Event.tick,
    Event.touch 0 0, Event.tick, Event.release, Event.tick,
    Event.touch 0 0, Event.tick, Event.release, Event.tick,
    Event.touch 0 0, Event.tick]

/-! ## Rendering (game.js 195-212) and the reach of the lookups -/

/-- The lookup `LEGEND[ch]` (game.js 202): the tile of a key of `LEGEND`; `undefined` for
every other value of `ch`, `undefined` itself included. -/
def legendLookup (ch : Cell) : Option Tile :=
  match ch with
  | none => none
  | some c => List.lookup c LEGEND

/-- One call `PS.color(x, y, color)`. -/
structure Paint where
  x : Nat
  y : Nat
  color : Nat
deriving DecidableEq, Repr

/-- The body of the bead loop of `draw` (game.js 201-205) for bead `(x, y)`: the colour call
it issues, if any; `none` when a lookup raises a `TypeError` (`levelMap[y]` is `undefined`,
or `LEGEND[ch]` is `undefined` and `tile.color` is read). -/
def drawCell (levelMap : Grid) (x y : Nat) : Option (List Paint) :=
  match levelMap[y]? with
  | none => none
  | some row =>
    match legendLookup (readCell row x) with
    | none => none
    | some tile =>
      match tile.color with
      | none => some []
      | some color => some [⟨x, y, color⟩]

/-- Function `draw()` (game.js 195-212): the colour calls issued after the two clearing calls,
rows outermost, then one call per drop; `none` when a lookup raises. -/
def draw (s : State) : Option (List Paint) :=
  let cells := (List.product (List.range Height) (List.range Width)).map
    (fun c => drawCell s.levelMap c.2 c.1)
  if cells.all Option.isSome then
    some ((cells.map (fun o => o.getD [])).flatten
      ++ s.drops.map (fun p => ⟨p.x, p.y, 0x0DDE00⟩))
  else none

/-- The cells that are keys of `LEGEND`. -/
def legendCells : List Cell :=
  LEGEND.map (fun e => some e.1)

/-- A 16x16 grid all of whose cells are keys of `LEGEND`. -/
def GoodGrid (levelMap : Grid) : Prop :=
  IsBoard levelMap ∧ ∀ row ∈ levelMap, ∀ c ∈ row, c ∈ legendCells

/-- The lookup `levelMap[y][x]` stays inside the arrays: row `y` exists and has an index
`x`. -/
def InGrid (levelMap : Grid) (x y : Nat) : Prop :=
  ∃ row, levelMap[y]? = some row ∧ x < row.length

/-- Every lookup `levelMap[nextYPosition][p.x]` of the advance loop on a list of drops stays
inside the arrays and finds a key of `LEGEND`; the grid at the moment drop `p` is visited is
the one left by the sweep of the drops after `p`. -/
def LookupsInRange : List Drop → Grid → Prop
  | [], _ => True
  | p :: ps, levelMap =>
    LookupsInRange ps levelMap
      ∧ (p.y + 1 < Height →
          InGrid (sweep ps levelMap).2 p.x (p.y + 1)
            ∧ cellAt (sweep ps levelMap).2 p.x (p.y + 1) ∈ legendCells)

/-- An event whose coordinates, if it carries any, name a bead of the 16x16 grid. -/
def Event.InRange : Event → Prop
  | Event.touch x y => x < Width ∧ y < Height
  | Event.enter x y => x < Width ∧ y < Height
  | _ => True

/-- The states reachable from `start` by events with in-range coordinates. -/
inductive ReachableInRange : State → Prop where
  | start : ReachableInRange start
  | step (s : State) (e : Event) : ReachableInRange s → e.InRange → ReachableInRange (step s e)

/-- In play mode the grid is a `GoodGrid`; the rain origin and every drop are in range. -/
def Safe (s : State) : Prop :=
  (s.mode = Mode.play → GoodGrid s.levelMap)
    ∧ s.rainX < Width ∧ s.rainY < Height
    ∧ ∀ p ∈ s.drops, p.x < Width ∧ p.y < Height

end AcidRain

namespace AcidRain

/-! ## Basic facts about `tick` -/

theorem tick_of_not_play (s : State) (h : s.mode ≠ Mode.play) : tick s = s := by
  simp [tick, h]

theorem tick_of_play (s : State) (h : s.mode = Mode.play) :
    tick s = { spawnPhase s with drops := (advancePhase (spawnPhase s)).drops,
                                 levelMap := (advancePhase (spawnPhase s)).levelMap } := by
  simp [tick, h]

theorem spawnPhase_mode (s : State) : (spawnPhase s).mode = s.mode := by
  unfold spawnPhase; split_ifs <;> rfl

theorem spawnPhase_raining (s : State) : (spawnPhase s).raining = s.raining := by
  unfold spawnPhase; split_ifs <;> rfl

theorem spawnPhase_rainX (s : State) : (spawnPhase s).rainX = s.rainX := by
  unfold spawnPhase; split_ifs <;> rfl

theorem spawnPhase_rainY (s : State) : (spawnPhase s).rainY = s.rainY := by
  unfold spawnPhase; split_ifs <;> rfl

theorem spawnPhase_levelMap (s : State) : (spawnPhase s).levelMap = s.levelMap := by
  unfold spawnPhase; split_ifs <;> rfl

theorem tick_mode (s : State) : (tick s).mode = s.mode := by
  unfold tick; split_ifs
  · rfl
  · exact spawnPhase_mode s

theorem tick_raining (s : State) : (tick s).raining = s.raining := by
  unfold tick; split_ifs
  · rfl
  · exact spawnPhase_raining s

theorem tick_rainX (s : State) : (tick s).rainX = s.rainX := by
  unfold tick; split_ifs
  · rfl
  · exact spawnPhase_rainX s

theorem tick_rainY (s : State) : (tick s).rainY = s.rainY := by
  unfold tick; split_ifs
  · rfl
  · exact spawnPhase_rainY s

theorem tick_spawnWait_of_play (s : State) (h : s.mode = Mode.play) :
    (tick s).spawnWait = (spawnPhase s).spawnWait := by
  rw [tick_of_play s h]

theorem ticks_succ (n : Nat) (s : State) : ticks (n + 1) s = tick (ticks n s) := by
  induction n generalizing s with
  | zero => rfl
  | succ n ih => exact ih (tick s)

theorem ticks_mode (n : Nat) (s : State) : (ticks n s).mode = s.mode := by
  induction n with
  | zero => rfl
  | succ n ih => rw [ticks_succ, tick_mode, ih]

theorem ticks_raining (n : Nat) (s : State) : (ticks n s).raining = s.raining := by
  induction n with
  | zero => rfl
  | succ n ih => rw [ticks_succ, tick_raining, ih]

theorem ticks_rainX (n : Nat) (s : State) : (ticks n s).rainX = s.rainX := by
  induction n with
  | zero => rfl
  | succ n ih => rw [ticks_succ, tick_rainX, ih]

theorem ticks_rainY (n : Nat) (s : State) : (ticks n s).rainY = s.rainY := by
  induction n with
  | zero => rfl
  | succ n ih => rw [ticks_succ, tick_rainY, ih]

/-! ## C1: the level-0 scenario -/

/-- C1, as stated, fails: in the scenario (level 0 loaded, touch at (0,0), ticks 0, 1, 2, ...)
the claim puts the first particle at y = 9 after tick 9, the second at y = 6 after tick 9,
and has cell (0,10) eroded on tick 10.  On the code, after tick 9 (ten ticks run) three drops
are left, none of them at y = 9 and none at y = 6, and cell (0,10) is already '.'. -/
theorem C1_scenario_as_stated_fails :
    (ticks 10 scenario).drops.length = 3
      ∧ (∀ p ∈ (ticks 10 scenario).drops, p.y ≠ 9)
      ∧ (∀ p ∈ (ticks 10 scenario).drops, p.y ≠ 6)
      ∧ cellAt (ticks 10 scenario).levelMap 0 10 = some '.'
      ∧ ¬ ((⟨0, 9⟩ : Drop) ∈ (ticks 10 scenario).drops
            ∧ cellAt (ticks 10 scenario).levelMap 0 10 ≠ some '.'
            ∧ cellAt (ticks 11 scenario).levelMap 0 10 = some '.'
            ∧ (⟨0, 6⟩ : Drop) ∈ (ticks 10 scenario).drops) := by
  decide

/-- C1, amended: in the scenario a particle is created on tick 0 (and none on ticks 1, 2);
a drop is advanced in the tick that creates it, so the first particle is at y = 9 after
tick 8 and is destroyed on tick 9, which turns cell (0,10) from '#' into '.'; the second
particle is created on tick 3, is at y = 6 after tick 8 and at y = 7 after tick 9. -/
theorem C1_scenario :
    preAdvance scenario = [⟨0, 0⟩]
      ∧ spawnsOnTick scenario = true
      ∧ spawnsOnTick (ticks 1 scenario) = false
      ∧ spawnsOnTick (ticks 2 scenario) = false
      ∧ (ticks 3 scenario).drops = [⟨0, 3⟩]
      ∧ preAdvance (ticks 3 scenario) = [⟨0, 3⟩, ⟨0, 0⟩]
      ∧ (ticks 9 scenario).drops = [⟨0, 9⟩, ⟨0, 6⟩, ⟨0, 3⟩]
      ∧ cellAt (ticks 9 scenario).levelMap 0 10 = some '#'
      ∧ preAdvance (ticks 9 scenario) = [⟨0, 9⟩, ⟨0, 6⟩, ⟨0, 3⟩, ⟨0, 0⟩]
      ∧ (ticks 10 scenario).drops = [⟨0, 7⟩, ⟨0, 4⟩, ⟨0, 1⟩]
      ∧ cellAt (ticks 10 scenario).levelMap 0 10 = some '.' := by
  decide

/-! ## Spawn throttling: the countdown over held ticks (used by C2 and C9) -/

theorem spawnsOnTick_iff (s : State) (hm : s.mode = Mode.play) (hr : s.raining = true) :
    spawnsOnTick s = true ↔ s.spawnWait ≤ 0 := by
  simp [spawnsOnTick, hm, hr]

theorem preAdvance_eq (s : State) (hr : s.raining = true) :
    preAdvance s = s.drops ++ (if s.spawnWait ≤ 0 then [⟨s.rainX, s.rainY⟩] else []) := by
  unfold preAdvance spawnPhase
  split_ifs <;> simp

theorem spawnPhase_spawnWait_raining (s : State) (hr : s.raining = true) :
    (spawnPhase s).spawnWait = if s.spawnWait ≤ 0 then 2 else s.spawnWait - 1 := by
  unfold spawnPhase
  split_ifs <;> rfl

theorem ticks_spawnWait_held (s : State) (hm : s.mode = Mode.play) (hr : s.raining = true)
    (c : Nat) (hc : c < 3) (hw : s.spawnWait = (c : Int)) (k : Nat) :
    (ticks k s).spawnWait = (((c + 2 * k) % 3 : Nat) : Int) := by
  induction k with
  | zero =>
    show s.spawnWait = _
    rw [hw, Nat.mul_zero, Nat.add_zero, Nat.mod_eq_of_lt hc]
  | succ k ih =>
    have hm1 : (ticks k s).mode = Mode.play := by rw [ticks_mode, hm]
    have hr1 : (ticks k s).raining = true := by rw [ticks_raining, hr]
    rw [ticks_succ, tick_spawnWait_of_play _ hm1, spawnPhase_spawnWait_raining _ hr1, ih]
    split_ifs with h <;> omega

theorem spawn_throttling_aux (s : State) (c : Nat) (hm : s.mode = Mode.play)
    (hr : s.raining = true) (hc : c < 3) (hw : s.spawnWait = (c : Int)) (k : Nat) :
    (spawnsOnTick (ticks k s) = true ↔ k % 3 = c)
      ∧ preAdvance (ticks k s)
          = (ticks k s).drops ++ (if k % 3 = c then [⟨s.rainX, s.rainY⟩] else []) := by
  have hm1 : (ticks k s).mode = Mode.play := by rw [ticks_mode, hm]
  have hr1 : (ticks k s).raining = true := by rw [ticks_raining, hr]
  have hsw := ticks_spawnWait_held s hm hr c hc hw k
  have key : (ticks k s).spawnWait ≤ 0 ↔ k % 3 = c := by
    rw [hsw]; omega
  refine ⟨(spawnsOnTick_iff _ hm1 hr1).trans key, ?_⟩
  rw [preAdvance_eq _ hr1, ticks_rainX, ticks_rainY]
  by_cases h : k % 3 = c
  · rw [if_pos h, if_pos (key.mpr h)]
  · rw [if_neg h, if_neg (fun h2 => h (key.mp h2))]

/-! ## Key handling and the menu (C5, C6, C7) -/

theorem keyDown_eq (key : Int) (s : State) :
    PS.keyDown key s =
      if key = 27 then loadMenu s
      else if s.mode = Mode.menu ∧ 49 ≤ key ∧ key ≤ 51 then loadLevel (key - 49).toNat s
      else s := by
  have hl : levels.length = 3 := rfl
  unfold PS.keyDown
  simp only [KEY_ESCAPE, or_self, hl]
  by_cases hk : key = 27
  · simp [hk]
  · by_cases hm : s.mode = Mode.menu
    · by_cases h1 : 49 ≤ key ∧ key ≤ 51
      · have h2 : key ≥ 49 ∧ key ≤ 57 := by omega
        have h3 : key - 49 ≥ 0 ∧ key - 49 < ((3 : Nat) : Int) := by omega
        simp only [if_neg hk, hm, ne_eq, not_true_eq_false, if_false, if_pos h2, if_pos h3,
          true_and, if_pos h1]
      · by_cases h2 : key ≥ 49 ∧ key ≤ 57
        · have h3 : ¬ (key - 49 ≥ 0 ∧ key - 49 < ((3 : Nat) : Int)) := by omega
          simp only [if_neg hk, hm, ne_eq, not_true_eq_false, if_false, if_pos h2, if_neg h3,
            true_and, if_neg h1]
        · simp only [if_neg hk, hm, ne_eq, not_true_eq_false, if_false, if_neg h2,
            true_and, if_neg h1]
    · simp [hk, hm]

theorem keyDown_escape (s : State) : PS.keyDown 27 s = loadMenu s := by
  simp [PS.keyDown]

theorem keyDown_play (key : Int) (s : State) (hk : key ≠ 27) (hm : s.mode = Mode.play) :
    PS.keyDown key s = s := by
  simp [PS.keyDown, KEY_ESCAPE, hk, hm]

theorem keyDown_menu_level (i : Nat) (s : State) (hi : i < 3) (hm : s.mode = Mode.menu) :
    PS.keyDown (49 + (i : Int)) s = loadLevel i s := by
  have h1 : ¬ (49 + (i : Int) = 27) := by omega
  have h2 : s.mode = Mode.menu ∧ 49 ≤ 49 + (i : Int) ∧ 49 + (i : Int) ≤ 51 :=
    ⟨hm, by omega, by omega⟩
  have h4 : (49 + (i : Int) - 49).toNat = i := by omega
  rw [keyDown_eq, if_neg h1, if_pos h2, h4]

theorem keyDown_menu_other (key : Int) (s : State) (hk : key ≠ 27)
    (h1 : key ≠ 49) (h2 : key ≠ 50) (h3 : key ≠ 51) : PS.keyDown key s = s := by
  rw [keyDown_eq, if_neg hk]
  split_ifs with ha
  · exfalso; omega
  · rfl

theorem loadMenu_inert (s : State) : MenuInert (loadMenu s) := by
  intro _; exact ⟨rfl, rfl, rfl⟩

theorem loadLevel_mode (i : Nat) (s : State) : (loadLevel i s).mode = Mode.play := by
  unfold loadLevel; split <;> rfl

theorem keyDown_inert (key : Int) (s : State) (h : MenuInert s) : MenuInert (PS.keyDown key s) := by
  rw [keyDown_eq]
  split_ifs
  · exact loadMenu_inert s
  · intro hm; rw [loadLevel_mode] at hm; cases hm
  · exact h

theorem step_inert (s : State) (e : Event) (h : MenuInert s) : MenuInert (step s e) := by
  cases e with
  | tick =>
    intro hm
    have hm0 : s.mode = Mode.menu := by rw [← tick_mode]; exact hm
    have : tick s = s := tick_of_not_play s (by rw [hm0]; decide)
    show (tick s).drops = [] ∧ (tick s).raining = false ∧ (tick s).spawnWait = 0
    rw [this]; exact h hm0
  | touch x y =>
    intro hm
    show (PS.touch x y s).drops = [] ∧ (PS.touch x y s).raining = false
      ∧ (PS.touch x y s).spawnWait = 0
    by_cases hp : s.mode = Mode.play
    · have : (PS.touch x y s).mode = Mode.play := by simp [PS.touch, hp]
      have hm2 : (PS.touch x y s).mode = Mode.menu := hm
      rw [this] at hm2; cases hm2
    · have : PS.touch x y s = s := by simp [PS.touch, hp]
      rw [this]
      have hm2 : (PS.touch x y s).mode = Mode.menu := hm
      rw [this] at hm2
      exact h hm2
  | release =>
    intro hm
    have hm0 : s.mode = Mode.menu := hm
    exact ⟨(h hm0).1, rfl, (h hm0).2.2⟩
  | enter x y =>
    intro hm
    have hm0 : s.mode = Mode.menu := hm
    exact h hm0
  | exitGrid =>
    intro hm
    have hm0 : s.mode = Mode.menu := hm
    exact ⟨(h hm0).1, rfl, (h hm0).2.2⟩
  | keyDown key => exact keyDown_inert key s h

theorem reachable_inert (s : State) (h : Reachable s) : MenuInert s := by
  induction h with
  | start => exact loadMenu_inert initial
  | step s e _ ih => exact step_inert s e ih

/-- C5: in every state reachable from the start by tick, touch, enter, release, exitGrid and
keyDown events, mode = menu implies that the particle list is empty, raining is false and
spawnWait is 0, and a tick in such a state returns the very same state (mode, grid, particle
list, raining, rain origin and spawnWait unchanged). -/
theorem C5_mode_isolation (s : State) (hr : Reachable s) (hm : s.mode = Mode.menu) :
    s.drops = [] ∧ s.raining = false ∧ s.spawnWait = 0 ∧ tick s = s :=
  ⟨(reachable_inert s hr hm).1, (reachable_inert s hr hm).2.1, (reachable_inert s hr hm).2.2,
    tick_of_not_play s (by rw [hm]; decide)⟩

/-- C5 at a concrete input: the state after playing level 0 with rain for four ticks and
then pressing escape. -/
theorem C5_mode_isolation_witness :
    (run start [Event.keyDown 49, Event.touch 3 2, Event.tick, Event.tick, Event.tick,
        Event.tick, Event.keyDown 27]).drops = []
      ∧ (run start [Event.keyDown 49, Event.touch 3 2, Event.tick, Event.tick, Event.tick,
        Event.tick, Event.keyDown 27]).raining = false
      ∧ (run start [Event.keyDown 49, Event.touch 3 2, Event.tick, Event.tick, Event.tick,
        Event.tick, Event.keyDown 27]).spawnWait = 0
      ∧ tick (run start [Event.keyDown 49, Event.touch 3 2, Event.tick, Event.tick, Event.tick,
        Event.tick, Event.keyDown 27])
        = run start [Event.keyDown 49, Event.touch 3 2, Event.tick, Event.tick, Event.tick,
        Event.tick, Event.keyDown 27] :=
  C5_mode_isolation _
    (Reachable.step _ (Event.keyDown 27) (Reachable.step _ Event.tick (Reachable.step _ Event.tick
      (Reachable.step _ Event.tick (Reachable.step _ Event.tick (Reachable.step _ (Event.touch 3 2)
        (Reachable.step _ (Event.keyDown 49) Reachable.start)))))))
    (by decide)

/-- C6: from every state, keyDown with the escape key (27) gives mode = menu, an empty
particle list, raining = false and spawnWait = 0, and pressing escape a second time changes
nothing more. -/
theorem C6_return_to_menu (s : State) :
    (PS.keyDown 27 s).mode = Mode.menu
      ∧ (PS.keyDown 27 s).drops = []
      ∧ (PS.keyDown 27 s).raining = false
      ∧ (PS.keyDown 27 s).spawnWait = 0
      ∧ PS.keyDown 27 (PS.keyDown 27 s) = PS.keyDown 27 s := by
  rw [keyDown_escape, keyDown_escape]
  exact ⟨rfl, rfl, rfl, rfl, rfl⟩

/-- C7: in menu mode, a key code that is neither escape (27) nor one of 49, 50, 51 leaves the
whole state unchanged; the catalog has 3 levels, so this covers the digit keys 52 to 57. -/
theorem C7_out_of_range_level_ignored (s : State) (key : Int) (hm : s.mode = Mode.menu)
    (hk : key ≠ 27) (h1 : key ≠ 49) (h2 : key ≠ 50) (h3 : key ≠ 51) :
    levels.length = 3 ∧ PS.keyDown key s = s ∧ (PS.keyDown key s).mode = Mode.menu := by
  have h := keyDown_menu_other key s hk h1 h2 h3
  exact ⟨rfl, h, by rw [h]; exact hm⟩

/-- C7 at a concrete input: key '4' (52) in the start menu. -/
theorem C7_out_of_range_level_ignored_witness :
    levels.length = 3 ∧ PS.keyDown 52 start = start ∧ (PS.keyDown 52 start).mode = Mode.menu :=
  C7_out_of_range_level_ignored start 52 (by decide) (by decide) (by decide) (by decide)
    (by decide)

/-! ## The countdown never exceeds its reset value (used by C9 and C19) -/

theorem spawnPhase_spawnWait_range (s : State) (h : 0 ≤ s.spawnWait ∧ s.spawnWait ≤ 2) :
    0 ≤ (spawnPhase s).spawnWait ∧ (spawnPhase s).spawnWait ≤ 2 := by
  unfold spawnPhase
  split_ifs with h1 h2
  · show (0 : Int) ≤ 2 ∧ (2 : Int) ≤ 2
    omega
  · show 0 ≤ s.spawnWait - 1 ∧ s.spawnWait - 1 ≤ 2
    omega
  · show (0 : Int) ≤ 0 ∧ (0 : Int) ≤ 2
    omega

theorem tick_spawnWait_range (s : State) (h : 0 ≤ s.spawnWait ∧ s.spawnWait ≤ 2) :
    0 ≤ (tick s).spawnWait ∧ (tick s).spawnWait ≤ 2 := by
  by_cases hm : s.mode = Mode.play
  · rw [tick_spawnWait_of_play s hm]; exact spawnPhase_spawnWait_range s h
  · rw [tick_of_not_play s hm]; exact h

theorem loadLevel_spawnWait (i : Nat) (s : State) : (loadLevel i s).spawnWait = 0 := by
  unfold loadLevel; split <;> rfl

theorem keyDown_spawnWait_range (key : Int) (s : State)
    (h : 0 ≤ s.spawnWait ∧ s.spawnWait ≤ 2) :
    0 ≤ (PS.keyDown key s).spawnWait ∧ (PS.keyDown key s).spawnWait ≤ 2 := by
  rw [keyDown_eq]
  split_ifs
  · show (0 : Int) ≤ 0 ∧ (0 : Int) ≤ 2
    omega
  · rw [loadLevel_spawnWait]; omega
  · exact h

theorem step_spawnWait_range (s : State) (e : Event) (h : 0 ≤ s.spawnWait ∧ s.spawnWait ≤ 2) :
    0 ≤ (step s e).spawnWait ∧ (step s e).spawnWait ≤ 2 := by
  cases e with
  | tick => exact tick_spawnWait_range s h
  | touch x y =>
    show 0 ≤ (PS.touch x y s).spawnWait ∧ (PS.touch x y s).spawnWait ≤ 2
    unfold PS.touch; split_ifs <;> exact h
  | release => exact h
  | enter x y => exact h
  | exitGrid => exact h
  | keyDown key => exact keyDown_spawnWait_range key s h

theorem reachable_spawnWait_range (s : State) (h : Reachable s) :
    0 ≤ s.spawnWait ∧ s.spawnWait ≤ 2 := by
  induction h with
  | start =>
    show (0 : Int) ≤ 0 ∧ (0 : Int) ≤ 2
    omega
  | step s e _ ih => exact step_spawnWait_range s e ih

/-! ## Grid reads and writes -/

theorem readCell_writeCell (row : Row) (x : Nat) (ch : Char) (x' : Nat) :
    readCell (writeCell row x ch) x' = if x' = x then some ch else readCell row x' := by
  unfold readCell writeCell
  by_cases hx : x < row.length
  · rw [if_pos hx, List.getElem?_set]
    by_cases h : x' = x
    · subst h; simp [hx]
    · have h' : ¬ x = x' := fun e => h e.symm
      simp [h, h']
  · rw [if_neg hx]
    by_cases h : x' = x
    · subst h
      have hlen : (row ++ List.replicate (x' - row.length) none).length = x' := by
        simp; omega
      have := List.getElem?_concat_length (row ++ List.replicate (x' - row.length) none) (some ch)
      rw [hlen] at this
      rw [this, if_pos rfl]
      rfl
    · rw [if_neg h]
      by_cases h1 : x' < row.length
      · rw [List.append_assoc, List.getElem?_append_left h1]
      · have h2 : row[x']? = none := List.getElem?_eq_none (by omega)
        rw [h2]
        by_cases h3 : x' < x
        · have hl : x' < (row ++ List.replicate (x - row.length) none).length := by
            simp; omega
          rw [List.getElem?_append_left hl, List.getElem?_append_right (by omega),
            List.getElem?_replicate]
          have : x' - row.length < x - row.length := by omega
          simp [this]
        · have hl : (row ++ List.replicate (x - row.length) none ++ [some ch]).length ≤ x' := by
            simp; omega
          rw [List.getElem?_eq_none hl]

theorem writeCell_length (row : Row) (x : Nat) (ch : Char) (hx : x < row.length) :
    (writeCell row x ch).length = row.length := by
  unfold writeCell
  rw [if_pos hx, List.length_set]

theorem setTile_eq (levelMap : Grid) (x y : Nat) (ch : Char) (hy : y < levelMap.length) :
    setTile levelMap x y ch = some (levelMap.set y (writeCell (levelMap.get ⟨y, hy⟩) x ch)) := by
  unfold setTile
  rw [List.getElem?_eq_getElem hy]
  rfl

theorem eraseTile_eq (levelMap : Grid) (x y : Nat) (hy : y < levelMap.length) :
    eraseTile levelMap x y = levelMap.set y (writeCell (levelMap.get ⟨y, hy⟩) x '.') := by
  unfold eraseTile
  rw [setTile_eq levelMap x y '.' hy]
  rfl

theorem setTile_eq_eraseTile (levelMap : Grid) (x y : Nat) (hy : y < levelMap.length) :
    setTile levelMap x y '.' = some (eraseTile levelMap x y) := by
  rw [eraseTile_eq levelMap x y hy, setTile_eq levelMap x y '.' hy]

theorem eraseTile_length (levelMap : Grid) (x y : Nat) :
    (eraseTile levelMap x y).length = levelMap.length := by
  by_cases hy : y < levelMap.length
  · rw [eraseTile_eq levelMap x y hy, List.length_set]
  · unfold eraseTile setTile
    rw [List.getElem?_eq_none (by omega)]
    rfl

theorem cellAt_eraseTile (levelMap : Grid) (x y : Nat) (hy : y < levelMap.length) (x' y' : Nat) :
    cellAt (eraseTile levelMap x y) x' y'
      = if x' = x ∧ y' = y then some '.' else cellAt levelMap x' y' := by
  rw [eraseTile_eq levelMap x y hy]
  unfold cellAt
  rw [List.getElem?_set]
  by_cases h : y = y'
  · subst h
    rw [if_pos rfl, if_pos hy]
    simp only [readCell_writeCell, and_true]
    rw [List.getElem?_eq_getElem hy]
    rfl
  · have h' : ¬ (x' = x ∧ y' = y) := fun e => h e.2.symm
    rw [if_neg h, if_neg h']

theorem cellAt_eq_readCell (levelMap : Grid) (x y : Nat) (row : Row)
    (h : levelMap[y]? = some row) : cellAt levelMap x y = readCell row x := by
  unfold cellAt
  rw [h]

theorem eraseTile_isBoard (levelMap : Grid) (x y : Nat) (hb : IsBoard levelMap)
    (hx : x < Width) : IsBoard (eraseTile levelMap x y) := by
  refine ⟨by rw [eraseTile_length]; exact hb.1, ?_⟩
  by_cases hy : y < levelMap.length
  · rw [eraseTile_eq levelMap x y hy]
    intro row hrow
    rcases List.mem_or_eq_of_mem_set hrow with h | h
    · exact hb.2 row h
    · have hlen : (levelMap.get ⟨y, hy⟩).length = Width := hb.2 _ (List.get_mem _ _ _)
      rw [h, writeCell_length _ _ _ (by rw [hlen]; exact hx), hlen]
  · unfold eraseTile setTile
    rw [List.getElem?_eq_none (by omega)]
    exact hb.2

/-! ## The reverse index loop as a sweep from the last drop to the first -/

theorem sweep_cons (p : Drop) (ps : List Drop) (levelMap : Grid) :
    sweep (p :: ps) levelMap
      = ((advanceOne p (sweep ps levelMap).2).1.toList ++ (sweep ps levelMap).1,
          (advanceOne p (sweep ps levelMap).2).2) := rfl

theorem sweep_concat (front : List Drop) (p : Drop) (levelMap : Grid) :
    sweep (front ++ [p]) levelMap
      = ((sweep front (advanceOne p levelMap).2).1 ++ (advanceOne p levelMap).1.toList,
          (sweep front (advanceOne p levelMap).2).2) := by
  induction front with
  | nil => simp [sweep]
  | cons a front ih =>
    rw [List.cons_append, sweep_cons, ih, sweep_cons]
    simp

theorem advanceOne_length (p : Drop) (levelMap : Grid) :
    (advanceOne p levelMap).2.length = levelMap.length := by
  unfold advanceOne
  split_ifs
  · rfl
  · exact eraseTile_length _ _ _
  · rfl

theorem sweep_length (drops : List Drop) (levelMap : Grid) :
    (sweep drops levelMap).2.length = levelMap.length := by
  induction drops with
  | nil => rfl
  | cons p ps ih => rw [sweep_cons]; simp only; rw [advanceOne_length, ih]

theorem getElem?_front_concat (front back : List Drop) (p : Drop) :
    (front ++ [p] ++ back)[front.length]? = some p := by
  rw [List.getElem?_append_left (by simp), List.getElem?_concat_length]

theorem eraseIdx_front_concat (front back : List Drop) (p : Drop) :
    (front ++ [p] ++ back).eraseIdx front.length = front ++ back := by
  rw [List.append_assoc, List.eraseIdx_append_of_length_le (Nat.le_refl _)]
  simp

theorem set_front_concat (front back : List Drop) (p q : Drop) :
    (front ++ [p] ++ back).set front.length q = front ++ (q :: back) := by
  rw [List.append_assoc, List.set_append_right _ _ (Nat.le_refl _)]
  simp

/-- On a grid that has all `Height` rows the index loop started at the end of `front` runs to
completion: it leaves the sweep of `front` followed by the untouched `back`. -/
theorem advanceLoop_eq_sweep (front : List Drop) :
    ∀ (back : List Drop) (levelMap : Grid), Height ≤ levelMap.length →
      advanceLoop front.length (front ++ back) levelMap
        = ⟨(sweep front levelMap).1 ++ back, (sweep front levelMap).2, true⟩ := by
  induction front using List.reverseRecOn with
  | nil => intro back levelMap _; rfl
  | append_singleton front p ih =>
    intro back levelMap hg
    rw [List.length_append, List.length_singleton, advanceLoop, getElem?_front_concat]
    simp only
    rw [sweep_concat]
    by_cases h1 : p.y + 1 ≥ Height
    · rw [if_pos h1, eraseIdx_front_concat, ih back levelMap hg]
      simp [advanceOne, h1]
    · rw [if_neg h1]
      have hy : p.y + 1 < levelMap.length := by omega
      rw [List.getElem?_eq_getElem hy]
      simp only
      have hcell : readCell levelMap[p.y + 1] p.x = cellAt levelMap p.x (p.y + 1) :=
        (cellAt_eq_readCell levelMap p.x (p.y + 1) _ (List.getElem?_eq_getElem hy)).symm
      rw [hcell]
      by_cases h2 : destructible (cellAt levelMap p.x (p.y + 1)) = true
      · rw [if_pos h2, setTile_eq_eraseTile levelMap p.x (p.y + 1) hy]
        simp only
        rw [eraseIdx_front_concat,
          ih back (eraseTile levelMap p.x (p.y + 1)) (by rw [eraseTile_length]; exact hg)]
        simp [advanceOne, h1, h2]
      · rw [if_neg h2, set_front_concat, ih _ levelMap hg]
        simp [advanceOne, h1, h2, fall]

theorem advancePhase_eq_sweep (s : State) (hg : Height ≤ s.levelMap.length) :
    advancePhase s = ⟨(sweep s.drops s.levelMap).1, (sweep s.drops s.levelMap).2, true⟩ := by
  have h := advanceLoop_eq_sweep s.drops [] s.levelMap hg
  rw [List.append_nil, List.append_nil] at h
  exact h

theorem tick_drops_eq_sweep (s : State) (hm : s.mode = Mode.play)
    (hg : Height ≤ s.levelMap.length) :
    (tick s).drops = (sweep (preAdvance s) s.levelMap).1 := by
  rw [tick_of_play s hm]
  show (advancePhase (spawnPhase s)).drops = _
  rw [advancePhase_eq_sweep _ (by rw [spawnPhase_levelMap]; exact hg), spawnPhase_levelMap]
  rfl

theorem tick_levelMap_eq_sweep (s : State) (hm : s.mode = Mode.play)
    (hg : Height ≤ s.levelMap.length) :
    (tick s).levelMap = (sweep (preAdvance s) s.levelMap).2 := by
  rw [tick_of_play s hm]
  show (advancePhase (spawnPhase s)).levelMap = _
  rw [advancePhase_eq_sweep _ (by rw [spawnPhase_levelMap]; exact hg), spawnPhase_levelMap]
  rfl

/-! ## What a sweep does to the drops and to the grid -/

theorem advanceOne_fst (p : Drop) (levelMap : Grid) :
    (advanceOne p levelMap).1 = none
      ∨ ((advanceOne p levelMap).1 = some (fall p) ∧ p.y + 1 < Height
          ∧ cellAt levelMap p.x (p.y + 1) = some '.' ∧ (advanceOne p levelMap).2 = levelMap) := by
  unfold advanceOne
  split_ifs with h1 h2
  · exact Or.inl rfl
  · exact Or.inl rfl
  · refine Or.inr ⟨rfl, by omega, ?_, rfl⟩
    simpa [destructible] using h2

theorem sweep_survivors (drops : List Drop) (levelMap : Grid) :
    ∃ kept : List Drop, kept.Sublist drops ∧ (∀ p ∈ kept, p.y + 1 < Height)
      ∧ (sweep drops levelMap).1 = kept.map fall := by
  induction drops with
  | nil => exact ⟨[], List.Sublist.slnil, by simp, rfl⟩
  | cons p ps ih =>
    obtain ⟨kept, hsub, hy, hk⟩ := ih
    rw [sweep_cons]
    rcases advanceOne_fst p (sweep ps levelMap).2 with h | ⟨h, hp, _, _⟩
    · refine ⟨kept, hsub.cons p, hy, ?_⟩
      simp [h, hk]
    · refine ⟨p :: kept, hsub.cons₂ p, ?_, ?_⟩
      · intro q hq
        rcases List.mem_cons.mp hq with e | e
        · rw [e]; exact hp
        · exact hy q e
      · simp [h, hk]

theorem advanceOne_cell_hit (p : Drop) (levelMap : Grid) (hg : Height ≤ levelMap.length)
    (hp : p.y + 1 < Height) :
    cellAt (advanceOne p levelMap).2 p.x (p.y + 1) = some '.' := by
  unfold advanceOne
  rw [if_neg (by omega)]
  split_ifs with h2
  · show cellAt (eraseTile levelMap p.x (p.y + 1)) p.x (p.y + 1) = some '.'
    rw [cellAt_eraseTile levelMap p.x (p.y + 1) (by omega), if_pos ⟨rfl, rfl⟩]
  · simpa [destructible] using h2

theorem advanceOne_cell_other (p : Drop) (levelMap : Grid) (hg : Height ≤ levelMap.length)
    (x y : Nat) (h : ¬ (p.x = x ∧ p.y + 1 = y ∧ p.y + 1 < Height)) :
    cellAt (advanceOne p levelMap).2 x y = cellAt levelMap x y := by
  unfold advanceOne
  split_ifs with h1 h2
  · rfl
  · show cellAt (eraseTile levelMap p.x (p.y + 1)) x y = cellAt levelMap x y
    rw [cellAt_eraseTile levelMap p.x (p.y + 1) (by omega), if_neg]
    intro e
    exact h ⟨e.1.symm, e.2.symm, by omega⟩
  · rfl

theorem struck_cons_of_not_target (p : Drop) (ps : List Drop) (levelMap : Grid) (x y : Nat)
    (h : ¬ (p.x = x ∧ p.y + 1 = y ∧ p.y + 1 < Height)) :
    Struck (p :: ps) levelMap x y ↔ Struck ps levelMap x y := by
  unfold Struck
  constructor
  · rintro ⟨⟨q, hq, hq2⟩, hc⟩
    rcases List.mem_cons.mp hq with e | e
    · subst e; exact absurd hq2 h
    · exact ⟨⟨q, e, hq2⟩, hc⟩
  · rintro ⟨⟨q, hq, hq2⟩, hc⟩
    exact ⟨⟨q, List.mem_cons_of_mem _ hq, hq2⟩, hc⟩

/-- The grid after a sweep: a struck cell holds `'.'`, every other cell is as before. -/
theorem sweep_cell (drops : List Drop) (levelMap : Grid) (hg : Height ≤ levelMap.length)
    (x y : Nat) :
    (Struck drops levelMap x y → cellAt (sweep drops levelMap).2 x y = some '.')
      ∧ (¬ Struck drops levelMap x y
          → cellAt (sweep drops levelMap).2 x y = cellAt levelMap x y) := by
  induction drops with
  | nil =>
    refine ⟨?_, fun _ => rfl⟩
    rintro ⟨⟨q, hq, _⟩, _⟩
    cases hq
  | cons p ps ih =>
    have hg' : Height ≤ (sweep ps levelMap).2.length := by rw [sweep_length]; exact hg
    rw [sweep_cons]
    simp only
    by_cases ht : p.x = x ∧ p.y + 1 = y ∧ p.y + 1 < Height
    · obtain ⟨hx, hy, hlt⟩ := ht
      subst hx; subst hy
      have hdot := advanceOne_cell_hit p (sweep ps levelMap).2 hg' hlt
      refine ⟨fun _ => hdot, fun hns => ?_⟩
      rw [hdot]
      by_contra hne
      exact hns ⟨⟨p, List.mem_cons_self _ _, rfl, rfl, hlt⟩, fun e => hne e.symm⟩
    · rw [advanceOne_cell_other p (sweep ps levelMap).2 hg' x y ht,
        struck_cons_of_not_target p ps levelMap x y ht]
      exact ih

theorem sweep_cell_same_or_dot (drops : List Drop) (levelMap : Grid)
    (hg : Height ≤ levelMap.length) (x y : Nat) :
    cellAt (sweep drops levelMap).2 x y = cellAt levelMap x y
      ∨ cellAt (sweep drops levelMap).2 x y = some '.' := by
  by_cases h : Struck drops levelMap x y
  · exact Or.inr ((sweep_cell drops levelMap hg x y).1 h)
  · exact Or.inl ((sweep_cell drops levelMap hg x y).2 h)

theorem advanceOne_isBoard (p : Drop) (levelMap : Grid) (hb : IsBoard levelMap)
    (hx : p.x < Width) : IsBoard (advanceOne p levelMap).2 := by
  unfold advanceOne
  split_ifs
  · exact hb
  · exact eraseTile_isBoard levelMap p.x (p.y + 1) hb hx
  · exact hb

theorem sweep_isBoard (drops : List Drop) (levelMap : Grid) (hb : IsBoard levelMap)
    (hx : ∀ p ∈ drops, p.x < Width) : IsBoard (sweep drops levelMap).2 := by
  induction drops with
  | nil => exact hb
  | cons p ps ih =>
    rw [sweep_cons]
    exact advanceOne_isBoard p _ (ih (fun q hq => hx q (List.mem_cons_of_mem _ hq)))
      (hx p (List.mem_cons_self _ _))

/-! ## Counting eroded cells -/

theorem advanceOne_off (p : Drop) (levelMap : Grid) (h : p.y + 1 ≥ Height) :
    advanceOne p levelMap = (none, levelMap) := by
  unfold advanceOne
  rw [if_pos h]

theorem advanceOne_hit (p : Drop) (levelMap : Grid) (h : p.y + 1 < Height)
    (hd : destructible (cellAt levelMap p.x (p.y + 1)) = true) :
    advanceOne p levelMap = (none, eraseTile levelMap p.x (p.y + 1)) := by
  unfold advanceOne
  rw [if_neg (by omega), if_pos hd]

theorem advanceOne_fall (p : Drop) (levelMap : Grid) (h : p.y + 1 < Height)
    (hd : ¬ destructible (cellAt levelMap p.x (p.y + 1)) = true) :
    advanceOne p levelMap = (some (fall p), levelMap) := by
  unfold advanceOne
  rw [if_neg (by omega), if_neg hd]

theorem countP_flip {α : Type} (l : List α) (a : α) (P Q : α → Bool) (hnd : l.Nodup)
    (ha : a ∈ l) (hP : P a = false) (hQ : Q a = true) (h : ∀ b, b ≠ a → Q b = P b) :
    l.countP Q = l.countP P + 1 := by
  induction l with
  | nil => cases ha
  | cons b l ih =>
    have hnd' := List.nodup_cons.mp hnd
    by_cases hba : b = a
    · subst hba
      have hsame : l.countP Q = l.countP P := by
        apply List.countP_congr
        intro c hc
        have hcb : c ≠ b := fun e => hnd'.1 (e ▸ hc)
        rw [h c hcb]
      rw [List.countP_cons_of_pos _ _ hQ, List.countP_cons_of_neg _ _ (by simp [hP]), hsame]
    · have ha' : a ∈ l := by
        rcases List.mem_cons.mp ha with e | e
        · exact absurd e.symm hba
        · exact e
      have hb : Q b = P b := h b hba
      rw [List.countP_cons, List.countP_cons, ih hnd'.2 ha', hb]
      omega

theorem beads_nodup : beads.Nodup :=
  List.Nodup.product (List.nodup_range _) (List.nodup_range _)

theorem mem_beads (x y : Nat) (hx : x < Width) (hy : y < Height) : (x, y) ∈ beads := by
  unfold beads
  exact List.mem_product.mpr ⟨List.mem_range.mpr hx, List.mem_range.mpr hy⟩

theorem changedCells_eraseTile (before levelMap : Grid) (x y : Nat) (hx : x < Width)
    (hy : y < Height) (hg : Height ≤ levelMap.length)
    (hsame : cellAt levelMap x y = cellAt before x y)
    (hsolid : cellAt levelMap x y ≠ some '.') :
    changedCells before (eraseTile levelMap x y) = changedCells before levelMap + 1 := by
  unfold changedCells
  apply countP_flip beads (x, y) _ _ beads_nodup (mem_beads x y hx hy)
  · simp [hsame]
  · show (cellAt before x y != cellAt (eraseTile levelMap x y) x y) = true
    rw [cellAt_eraseTile levelMap x y (by omega), if_pos ⟨rfl, rfl⟩, ← hsame]
    simpa using hsolid
  · intro b hb
    show (cellAt before b.1 b.2 != cellAt (eraseTile levelMap x y) b.1 b.2)
      = (cellAt before b.1 b.2 != cellAt levelMap b.1 b.2)
    rw [cellAt_eraseTile levelMap x y (by omega), if_neg]
    intro e
    exact hb (Prod.ext e.1 e.2)

/-- Every drop swept is accounted for once: it survives, it leaves by the bottom edge, or it
is removed together with exactly one cell that changes. -/
theorem sweep_count (drops : List Drop) (levelMap : Grid) (hg : Height ≤ levelMap.length)
    (hx : ∀ p ∈ drops, p.x < Width) :
    (sweep drops levelMap).1.length + offGridCount drops
        + changedCells levelMap (sweep drops levelMap).2 = drops.length := by
  induction drops with
  | nil =>
    show 0 + 0 + changedCells levelMap levelMap = 0
    simp [changedCells]
  | cons p ps ih =>
    have ih' := ih (fun q hq => hx q (List.mem_cons_of_mem _ hq))
    have hpx := hx p (List.mem_cons_self _ _)
    have hg' : Height ≤ (sweep ps levelMap).2.length := by rw [sweep_length]; exact hg
    rw [sweep_cons]
    by_cases h1 : p.y + 1 ≥ Height
    · rw [advanceOne_off p _ h1]
      have hoff : offGridCount (p :: ps) = offGridCount ps + 1 := by
        unfold offGridCount
        rw [List.countP_cons_of_pos _ _ (by simpa using h1)]
      rw [hoff]
      simp only [Option.toList, List.nil_append, List.length_cons]
      omega
    · have hoff : offGridCount (p :: ps) = offGridCount ps := by
        unfold offGridCount
        rw [List.countP_cons_of_neg _ _ (by simpa using h1)]
      rw [hoff]
      by_cases h2 : destructible (cellAt (sweep ps levelMap).2 p.x (p.y + 1)) = true
      · rw [advanceOne_hit p _ (by omega) h2]
        have hsolid : cellAt (sweep ps levelMap).2 p.x (p.y + 1) ≠ some '.' := by
          simpa [destructible] using h2
        have hsame : cellAt (sweep ps levelMap).2 p.x (p.y + 1)
            = cellAt levelMap p.x (p.y + 1) := by
          rcases sweep_cell_same_or_dot ps levelMap hg p.x (p.y + 1) with e | e
          · exact e
          · exact absurd e hsolid
        simp only [Option.toList, List.nil_append, List.length_cons]
        rw [changedCells_eraseTile levelMap _ p.x (p.y + 1) hpx (by omega) hg' hsame hsolid]
        omega
      · rw [advanceOne_fall p _ (by omega) h2]
        simp only [Option.toList, List.singleton_append, List.length_cons]
        omega

/-! ## C3, C4, C10: one tick on the particles and on the grid -/

/-- C3: for a play-mode tick on a 16x16 grid whose pre-advance drops (the drops before the
tick plus the one spawned by it) are all in range: the grid after the tick is again 16x16 and
differs from the grid before exactly at the struck cells, i.e. the cells (x, y+1) with a
pre-advance drop at (x, y), y+1 < 16, whose cell before the tick is not '.'; each struck cell
becomes '.', every other cell is unchanged; and the pre-advance drops split into survivors,
drops leaving by the bottom edge, and as many collision removals as cells changed. -/
theorem C3_erosion_exactness (s : State) (hm : s.mode = Mode.play) (hb : IsBoard s.levelMap)
    (hp : ∀ p ∈ preAdvance s, p.x < Width ∧ p.y < Height) :
    IsBoard (tick s).levelMap
      ∧ (∀ x y, cellAt (tick s).levelMap x y ≠ cellAt s.levelMap x y
          ↔ Struck (preAdvance s) s.levelMap x y)
      ∧ (∀ x y, Struck (preAdvance s) s.levelMap x y → cellAt (tick s).levelMap x y = some '.')
      ∧ (∀ x y, ¬ Struck (preAdvance s) s.levelMap x y
          → cellAt (tick s).levelMap x y = cellAt s.levelMap x y)
      ∧ (tick s).drops.length + offGridCount (preAdvance s)
          + changedCells s.levelMap (tick s).levelMap = (preAdvance s).length := by
  have hg : Height ≤ s.levelMap.length := by rw [hb.1]
  have hx : ∀ p ∈ preAdvance s, p.x < Width := fun p h => (hp p h).1
  rw [tick_levelMap_eq_sweep s hm hg, tick_drops_eq_sweep s hm hg]
  refine ⟨sweep_isBoard _ _ hb hx, ?_, ?_, ?_, sweep_count _ _ hg hx⟩
  · intro x y
    constructor
    · intro hne
      by_contra hns
      exact hne ((sweep_cell _ _ hg x y).2 hns)
    · intro hst
      rw [(sweep_cell _ _ hg x y).1 hst]
      exact fun e => hst.2 e.symm
  · exact fun x y => (sweep_cell _ _ hg x y).1
  · exact fun x y => (sweep_cell _ _ hg x y).2

/-- C3 at a concrete input: tick 9 of the scenario, where the first drop strikes (0,10). -/
theorem C3_erosion_exactness_witness :
    IsBoard (tick (ticks 9 scenario)).levelMap
      ∧ (∀ x y, cellAt (tick (ticks 9 scenario)).levelMap x y ≠ cellAt (ticks 9 scenario).levelMap x y
          ↔ Struck (preAdvance (ticks 9 scenario)) (ticks 9 scenario).levelMap x y)
      ∧ (∀ x y, Struck (preAdvance (ticks 9 scenario)) (ticks 9 scenario).levelMap x y
          → cellAt (tick (ticks 9 scenario)).levelMap x y = some '.')
      ∧ (∀ x y, ¬ Struck (preAdvance (ticks 9 scenario)) (ticks 9 scenario).levelMap x y
          → cellAt (tick (ticks 9 scenario)).levelMap x y = cellAt (ticks 9 scenario).levelMap x y)
      ∧ (tick (ticks 9 scenario)).drops.length + offGridCount (preAdvance (ticks 9 scenario))
          + changedCells (ticks 9 scenario).levelMap (tick (ticks 9 scenario)).levelMap
            = (preAdvance (ticks 9 scenario)).length :=
  C3_erosion_exactness (ticks 9 scenario) (by decide) (by unfold IsBoard; decide) (by decide)

/-- C4: for a play-mode tick on a grid that has its 16 rows, the advance loop visits every
index once and runs to its end, and the particle list after the tick is a sublist `kept` of
the pre-advance list (elements deleted, order preserved) in which every drop keeps its x and
has y replaced by exactly y + 1. -/
theorem C4_fall_exactly_one_row (s : State) (hm : s.mode = Mode.play)
    (hg : Height ≤ s.levelMap.length) :
    (advancePhase (spawnPhase s)).completed = true
      ∧ ∃ kept : List Drop, kept.Sublist (preAdvance s)
          ∧ (tick s).drops = kept.map (fun p => { x := p.x, y := p.y + 1 }) := by
  refine ⟨?_, ?_⟩
  · rw [advancePhase_eq_sweep _ (by rw [spawnPhase_levelMap]; exact hg)]
  · obtain ⟨kept, hsub, _, hk⟩ := sweep_survivors (preAdvance s) s.levelMap
    exact ⟨kept, hsub, by rw [tick_drops_eq_sweep s hm hg, hk]; rfl⟩

/-- C4 at a concrete input: tick 9 of the scenario. -/
theorem C4_fall_exactly_one_row_witness :
    (advancePhase (spawnPhase (ticks 9 scenario))).completed = true
      ∧ ∃ kept : List Drop, kept.Sublist (preAdvance (ticks 9 scenario))
          ∧ (tick (ticks 9 scenario)).drops = kept.map (fun p => { x := p.x, y := p.y + 1 }) :=
  C4_fall_exactly_one_row (ticks 9 scenario) (by decide) (by decide)

theorem advanceLoop_all_off (front : List Drop) :
    ∀ (back : List Drop) (levelMap : Grid), (∀ p ∈ front, p.y + 1 ≥ Height) →
      advanceLoop front.length (front ++ back) levelMap = ⟨back, levelMap, true⟩ := by
  induction front using List.reverseRecOn with
  | nil => intro back levelMap _; rfl
  | append_singleton front p ih =>
    intro back levelMap hall
    have hp : p.y + 1 ≥ Height := hall p (by simp)
    rw [List.length_append, List.length_singleton, advanceLoop, getElem?_front_concat]
    simp only
    rw [if_pos hp, eraseIdx_front_concat]
    exact ih back levelMap (fun q hq => hall q (by simp [hq]))

theorem sweep_filter_on_grid (drops : List Drop) (levelMap : Grid) :
    sweep (drops.filter (fun p => decide (p.y + 1 < Height))) levelMap = sweep drops levelMap := by
  induction drops with
  | nil => rfl
  | cons p ps ih =>
    by_cases h : p.y + 1 < Height
    · rw [List.filter_cons_of_pos (by simpa using h), sweep_cons, sweep_cons, ih]
    · rw [List.filter_cons_of_neg (by simpa using h), sweep_cons, ih,
        advanceOne_off p _ (by omega)]
      rfl

/-- C10: for a play-mode tick, (1) on a grid that has its 16 rows, the drops after the tick
come from a sublist of the pre-advance list none of whose members has y = 15, and the
particle list and the grid after the tick are those obtained with the y = 15 drops deleted
from the pre-advance list beforehand; (2) if every pre-advance drop has y = 15, the grid after
the tick equals the grid before it and no drop is left. -/
theorem C10_off_grid_removal (s : State) (hm : s.mode = Mode.play) :
    (Height ≤ s.levelMap.length →
        (∃ kept : List Drop, kept.Sublist (preAdvance s) ∧ (∀ p ∈ kept, p.y ≠ Height - 1)
          ∧ (tick s).drops = kept.map fall)
        ∧ (tick s).drops
            = (sweep ((preAdvance s).filter (fun p => decide (p.y + 1 < Height))) s.levelMap).1
        ∧ (tick s).levelMap
            = (sweep ((preAdvance s).filter (fun p => decide (p.y + 1 < Height))) s.levelMap).2)
      ∧ ((∀ p ∈ preAdvance s, p.y = Height - 1) →
          (tick s).levelMap = s.levelMap ∧ (tick s).drops = []) := by
  constructor
  · intro hg
    obtain ⟨kept, hsub, hy, hk⟩ := sweep_survivors (preAdvance s) s.levelMap
    refine ⟨⟨kept, hsub, ?_, by rw [tick_drops_eq_sweep s hm hg, hk]⟩, ?_, ?_⟩
    · intro p hpk e
      have := hy p hpk
      rw [e] at this
      exact absurd this (by decide)
    · rw [tick_drops_eq_sweep s hm hg, sweep_filter_on_grid]
    · rw [tick_levelMap_eq_sweep s hm hg, sweep_filter_on_grid]
  · intro hall
    have hoff : ∀ p ∈ (spawnPhase s).drops, p.y + 1 ≥ Height := by
      intro p hp
      have e : p.y = Height - 1 := hall p hp
      rw [e]
      decide
    have h := advanceLoop_all_off (spawnPhase s).drops [] (spawnPhase s).levelMap hoff
    rw [List.append_nil] at h
    rw [tick_of_play s hm]
    show (advancePhase (spawnPhase s)).levelMap = s.levelMap
      ∧ (advancePhase (spawnPhase s)).drops = []
    unfold advancePhase
    rw [h, spawnPhase_levelMap]
    exact ⟨rfl, rfl⟩

/-- C10 at concrete inputs: `bottomRowState` (a drop at y = 15 next to one at (3, 5)) for
the first part, `allBottomState` (all drops at y = 15) for the second. -/
theorem C10_off_grid_removal_witness :
    ((∃ kept : List Drop, kept.Sublist (preAdvance bottomRowState)
          ∧ (∀ p ∈ kept, p.y ≠ Height - 1) ∧ (tick bottomRowState).drops = kept.map fall)
        ∧ (tick bottomRowState).drops
            = (sweep ((preAdvance bottomRowState).filter (fun p => decide (p.y + 1 < Height)))
                bottomRowState.levelMap).1
        ∧ (tick bottomRowState).levelMap
            = (sweep ((preAdvance bottomRowState).filter (fun p => decide (p.y + 1 < Height)))
                bottomRowState.levelMap).2)
      ∧ ((tick allBottomState).levelMap = allBottomState.levelMap
            ∧ (tick allBottomState).drops = []) :=
  ⟨(C10_off_grid_removal bottomRowState (by decide)).1 (by decide),
    (C10_off_grid_removal allBottomState (by decide)).2 (by decide)⟩

/-! ## Every play-mode state met in a run has its 16 rows -/

theorem loadLevel_rows (i : Nat) (hi : i < 3) (s : State) :
    (loadLevel i s).levelMap.length = Height := by
  have h : i = 0 ∨ i = 1 ∨ i = 2 := by omega
  rcases h with h | h | h <;> subst h <;> rfl

theorem tick_rows (s : State) (h : s.mode = Mode.play → s.levelMap.length = Height) :
    (tick s).levelMap.length = s.levelMap.length := by
  by_cases hm : s.mode = Mode.play
  · rw [tick_levelMap_eq_sweep s hm (by rw [h hm]), sweep_length]
  · rw [tick_of_not_play s hm]

theorem step_rows (s : State) (e : Event) (h : s.mode = Mode.play → s.levelMap.length = Height) :
    (step s e).mode = Mode.play → (step s e).levelMap.length = Height := by
  cases e with
  | tick =>
    intro hm
    have hm0 : s.mode = Mode.play := by rw [← tick_mode]; exact hm
    show (tick s).levelMap.length = Height
    rw [tick_rows s h]; exact h hm0
  | touch x y =>
    show (PS.touch x y s).mode = Mode.play → (PS.touch x y s).levelMap.length = Height
    unfold PS.touch
    split_ifs
    · exact h
    · exact h
  | release => exact h
  | enter x y => exact h
  | exitGrid => exact h
  | keyDown key =>
    show (PS.keyDown key s).mode = Mode.play → (PS.keyDown key s).levelMap.length = Height
    rw [keyDown_eq]
    split_ifs with h1 h2
    · intro hm; cases hm
    · intro _
      exact loadLevel_rows _ (by omega) s
    · exact h

theorem reachable_play_rows (s : State) (hr : Reachable s) (hm : s.mode = Mode.play) :
    s.levelMap.length = Height := by
  induction hr with
  | start => cases hm
  | step s e _ ih => exact step_rows s e ih hm


/-! ## C8: loading a level copies the catalog rows; play never writes to the catalog -/

theorem catalog_initial : catalogOf initialStore = parsedLevels := by decide

theorem parsedLevelsRef_bound :
    ∀ level ∈ parsedLevelsRef, ∀ a ∈ level, a < initialStore.length := by decide

theorem readStore_take (store : RowStore) (n a : Nat) (h : a < n) :
    readStore (store.take n) a = readStore store a := by
  unfold readStore
  rw [List.getElem?_take_of_lt h]

theorem catalogOf_eq (store : RowStore) (h : store.take initialStore.length = initialStore) :
    catalogOf store = parsedLevels := by
  rw [← catalog_initial]
  unfold catalogOf
  apply List.map_congr_left
  intro level hl
  apply List.map_congr_left
  intro a ha
  rw [← h, readStore_take store _ a (parsedLevelsRef_bound level hl a ha)]

theorem take_set_ge (l : RowStore) (n m : Nat) (r : Row) (h : m ≤ n) :
    (l.set n r).take m = l.take m := by
  apply List.ext_getElem?
  intro k
  rw [List.getElem?_take, List.getElem?_take]
  split_ifs with hk
  · rw [List.getElem?_set_ne (by omega)]
  · rfl

theorem store_length_ge (store : RowStore) (h : store.take initialStore.length = initialStore) :
    initialStore.length ≤ store.length := by
  have h2 := congrArg List.length h
  rw [List.length_take] at h2
  omega

theorem readStore_append_right (store copies : RowStore) (k : Nat) :
    readStore (store ++ copies) (store.length + k) = readStore copies k := by
  unfold readStore
  rw [List.getElem?_append_right (by omega)]
  congr 2
  omega

theorem map_readStore_fresh (store copies : RowStore) :
    (List.range' store.length copies.length).map (readStore (store ++ copies)) = copies := by
  apply List.ext_getElem?
  intro k
  rw [List.getElem?_map]
  by_cases hk : k < copies.length
  · rw [List.getElem?_range' _ _ hk]
    show some (readStore (store ++ copies) (store.length + 1 * k)) = copies[k]?
    rw [Nat.one_mul, readStore_append_right, List.getElem?_eq_getElem hk]
    unfold readStore
    rw [List.getElem?_eq_getElem hk]
    rfl
  · rw [List.getElem?_eq_none (by rw [List.length_range']; omega),
      List.getElem?_eq_none (by omega)]
    rfl

theorem ref_loadLevel_mode (i : Nat) (s : RefState) : (Ref.loadLevel i s).mode = Mode.play := by
  unfold Ref.loadLevel; split <;> rfl

theorem ref_loadLevel_fields (i : Nat) (s : RefState) :
    (Ref.loadLevel i s).drops = [] ∧ (Ref.loadLevel i s).raining = false
      ∧ (Ref.loadLevel i s).spawnWait = 0 := by
  unfold Ref.loadLevel; split <;> exact ⟨rfl, rfl, rfl⟩

theorem ref_loadLevel_grid (i : Nat) (s : RefState) (level : List Nat)
    (hl : parsedLevelsRef[i]? = some level) :
    gridOf (Ref.loadLevel i s) = level.map (readStore s.store) := by
  unfold Ref.loadLevel
  rw [hl]
  show (List.range' s.store.length level.length).map
    (readStore (s.store ++ level.map (readStore s.store))) = _
  have h := map_readStore_fresh s.store (level.map (readStore s.store))
  rw [List.length_map] at h
  exact h

theorem ref_loadLevel_grid_catalog (i : Nat) (s : RefState) (hi : i < 3) :
    (catalogOf s.store)[i]? = some (gridOf (Ref.loadLevel i s)) := by
  have hlen : i < parsedLevelsRef.length := hi
  have hl : parsedLevelsRef[i]? = some (parsedLevelsRef.get ⟨i, hlen⟩) :=
    List.getElem?_eq_getElem hlen
  rw [ref_loadLevel_grid i s _ hl]
  unfold catalogOf
  rw [List.getElem?_map, hl]
  rfl

theorem ref_loadLevel_wellFormed (i : Nat) (s : RefState) (hw : WellFormed s) :
    WellFormed (Ref.loadLevel i s) := by
  unfold Ref.loadLevel
  split
  · exact hw
  · rename_i level _
    have hge := store_length_ge s.store hw.1
    refine ⟨?_, ?_, ?_⟩
    · show (s.store ++ level.map (readStore s.store)).take initialStore.length = initialStore
      rw [List.take_append_of_le_length hge]
      exact hw.1
    · intro a ha
      have ha' : a ∈ List.range' s.store.length level.length := ha
      rw [List.mem_range'_1] at ha'
      show initialStore.length ≤ a ∧ a < (s.store ++ level.map (readStore s.store)).length
      rw [List.length_append, List.length_map]
      omega
    · exact List.nodup_range' _ _

theorem ref_setTile_store (levelMap : List Nat) (store store1 : RowStore) (x y : Nat) (ch : Char)
    (hl : ∀ a ∈ levelMap, initialStore.length ≤ a)
    (h : Ref.setTile levelMap store x y ch = some store1) :
    store1.take initialStore.length = store.take initialStore.length
      ∧ store1.length = store.length := by
  unfold Ref.setTile at h
  split at h
  · cases h
  · rename_i a ha
    have hmem : a ∈ levelMap := List.getElem?_mem ha
    cases h
    exact ⟨take_set_ge store a _ _ (hl a hmem), List.length_set _ _ _⟩

theorem ref_advanceLoop_store (levelMap : List Nat)
    (hl : ∀ a ∈ levelMap, initialStore.length ≤ a) (n : Nat) :
    ∀ (drops : List Drop) (store : RowStore),
      (Ref.advanceLoop levelMap n drops store).store.take initialStore.length
          = store.take initialStore.length
        ∧ (Ref.advanceLoop levelMap n drops store).store.length = store.length := by
  induction n with
  | zero => intro drops store; exact ⟨rfl, rfl⟩
  | succ i ih =>
    intro drops store
    rw [Ref.advanceLoop]
    split
    · exact ⟨rfl, rfl⟩
    · simp only
      split_ifs
      · exact ih _ _
      · split
        · exact ⟨rfl, rfl⟩
        · split_ifs
          · split
            · exact ⟨rfl, rfl⟩
            · rename_i store1 hs
              have h1 := ref_setTile_store levelMap store store1 _ _ _ hl hs
              have h2 := ih (drops.eraseIdx i) store1
              exact ⟨h2.1.trans h1.1, h2.2.trans h1.2⟩
          · exact ih _ _

theorem ref_spawnPhase_levelMap (s : RefState) : (Ref.spawnPhase s).levelMap = s.levelMap := by
  unfold Ref.spawnPhase; split_ifs <;> rfl

theorem ref_spawnPhase_store (s : RefState) : (Ref.spawnPhase s).store = s.store := by
  unfold Ref.spawnPhase; split_ifs <;> rfl

theorem ref_tick_wellFormed (s : RefState) (hw : WellFormed s) : WellFormed (Ref.tick s) := by
  unfold Ref.tick
  split_ifs
  · exact hw
  · have hl : ∀ a ∈ (Ref.spawnPhase s).levelMap, initialStore.length ≤ a := by
      rw [ref_spawnPhase_levelMap]; exact fun a ha => (hw.2.1 a ha).1
    have h := ref_advanceLoop_store (Ref.spawnPhase s).levelMap hl (Ref.spawnPhase s).drops.length
      (Ref.spawnPhase s).drops (Ref.spawnPhase s).store
    have hs := ref_spawnPhase_store s
    refine ⟨h.1.trans (by rw [hs]; exact hw.1), ?_, ?_⟩
    · intro a ha
      have ha' : a ∈ s.levelMap := by rw [← ref_spawnPhase_levelMap]; exact ha
      refine ⟨(hw.2.1 a ha').1, ?_⟩
      show a < (Ref.advanceLoop (Ref.spawnPhase s).levelMap (Ref.spawnPhase s).drops.length
        (Ref.spawnPhase s).drops (Ref.spawnPhase s).store).store.length
      rw [h.2, hs]
      exact (hw.2.1 a ha').2
    · show (Ref.spawnPhase s).levelMap.Nodup
      rw [ref_spawnPhase_levelMap]; exact hw.2.2

theorem ref_keyDown_eq (key : Int) (s : RefState) :
    Ref.keyDown key s =
      if key = 27 then Ref.loadMenu s
      else if s.mode = Mode.menu ∧ 49 ≤ key ∧ key ≤ 51 then Ref.loadLevel (key - 49).toNat s
      else s := by
  have hl : levels.length = 3 := rfl
  unfold Ref.keyDown
  simp only [KEY_ESCAPE, or_self, hl]
  by_cases hk : key = 27
  · simp [hk]
  · by_cases hm : s.mode = Mode.menu
    · by_cases h1 : 49 ≤ key ∧ key ≤ 51
      · have h2 : key ≥ 49 ∧ key ≤ 57 := by omega
        have h3 : key - 49 ≥ 0 ∧ key - 49 < ((3 : Nat) : Int) := by omega
        simp only [if_neg hk, hm, ne_eq, not_true_eq_false, if_false, if_pos h2, if_pos h3,
          true_and, if_pos h1]
      · by_cases h2 : key ≥ 49 ∧ key ≤ 57
        · have h3 : ¬ (key - 49 ≥ 0 ∧ key - 49 < ((3 : Nat) : Int)) := by omega
          simp only [if_neg hk, hm, ne_eq, not_true_eq_false, if_false, if_pos h2, if_neg h3,
            true_and, if_neg h1]
        · simp only [if_neg hk, hm, ne_eq, not_true_eq_false, if_false, if_neg h2,
            true_and, if_neg h1]
    · simp [hk, hm]

theorem ref_keyDown_wellFormed (key : Int) (s : RefState) (hw : WellFormed s) :
    WellFormed (Ref.keyDown key s) := by
  rw [ref_keyDown_eq]
  split_ifs
  · exact hw
  · exact ref_loadLevel_wellFormed _ s hw
  · exact hw

theorem ref_step_wellFormed (s : RefState) (e : Event) (hw : WellFormed s) :
    WellFormed (Ref.step s e) := by
  cases e with
  | tick => exact ref_tick_wellFormed s hw
  | touch x y =>
    show WellFormed (Ref.touch x y s)
    unfold Ref.touch
    split_ifs
    · exact hw
    · exact hw
  | release => exact hw
  | enter x y => exact hw
  | exitGrid => exact hw
  | keyDown key => exact ref_keyDown_wellFormed key s hw

theorem ref_run_wellFormed (events : List Event) :
    ∀ s : RefState, WellFormed s → WellFormed (Ref.run s events) := by
  induction events with
  | nil => intro s hw; exact hw
  | cons e es ih => intro s hw; exact ih (Ref.step s e) (ref_step_wellFormed s e hw)

theorem ref_start_wellFormed : WellFormed Ref.start := by
  refine ⟨?_, ?_, ?_⟩
  · show initialStore.take initialStore.length = initialStore
    exact List.take_length _
  · intro a ha; cases ha
  · exact List.nodup_nil

theorem ref_keyDown_menu_level (i : Nat) (s : RefState) (hi : i < 3) (hm : s.mode = Mode.menu) :
    Ref.keyDown (49 + (i : Int)) s = Ref.loadLevel i s := by
  have h1 : ¬ (49 + (i : Int) = 27) := by omega
  have h2 : s.mode = Mode.menu ∧ 49 ≤ 49 + (i : Int) ∧ 49 + (i : Int) ≤ 51 :=
    ⟨hm, by omega, by omega⟩
  have h4 : (49 + (i : Int) - 49).toNat = i := by omega
  rw [ref_keyDown_eq, if_neg h1, if_pos h2, h4]

theorem ref_keyDown_escape (s : RefState) : Ref.keyDown 27 s = Ref.loadMenu s := by
  rw [ref_keyDown_eq, if_pos rfl]

/-- C8, on the model that keeps row arrays by reference: for i in {0, 1, 2} and a menu-mode
state whose store is in the shape every run keeps, keyDown(49 + i) gives mode = play, no
drops, raining = false, spawnWait = 0 and a grid equal to catalog level i, cell for cell;
after any sequence of events (ticks with erosion included) the catalog held in the store is
still the catalog as written in the source; and returning to the menu and loading level i
again gives a grid identical to the one of the first load. -/
theorem C8_level_load_purity (i : Nat) (s : RefState) (events : List Event) (hi : i < 3)
    (hw : WellFormed s) (hm : s.mode = Mode.menu) :
    (Ref.keyDown (49 + (i : Int)) s).mode = Mode.play
      ∧ (Ref.keyDown (49 + (i : Int)) s).drops = []
      ∧ (Ref.keyDown (49 + (i : Int)) s).raining = false
      ∧ (Ref.keyDown (49 + (i : Int)) s).spawnWait = 0
      ∧ parsedLevels[i]? = some (gridOf (Ref.keyDown (49 + (i : Int)) s))
      ∧ (∀ x y, cellAt (gridOf (Ref.keyDown (49 + (i : Int)) s)) x y
          = cellAt (parsedLevels[i]?.getD []) x y)
      ∧ catalogOf s.store = parsedLevels
      ∧ catalogOf (Ref.run (Ref.keyDown (49 + (i : Int)) s) events).store = parsedLevels
      ∧ gridOf (Ref.keyDown (49 + (i : Int))
            (Ref.keyDown 27 (Ref.run (Ref.keyDown (49 + (i : Int)) s) events)))
          = gridOf (Ref.keyDown (49 + (i : Int)) s) := by
  have hload := ref_keyDown_menu_level i s hi hm
  have hgrid : parsedLevels[i]? = some (gridOf (Ref.loadLevel i s)) := by
    rw [← catalogOf_eq s.store hw.1]
    exact ref_loadLevel_grid_catalog i s hi
  have hw1 : WellFormed (Ref.loadLevel i s) := ref_loadLevel_wellFormed i s hw
  have hw2 : WellFormed (Ref.run (Ref.loadLevel i s) events) :=
    ref_run_wellFormed events _ hw1
  have hw3 : WellFormed (Ref.loadMenu (Ref.run (Ref.loadLevel i s) events)) := hw2
  have hgrid3 : parsedLevels[i]?
      = some (gridOf (Ref.loadLevel i (Ref.loadMenu (Ref.run (Ref.loadLevel i s) events)))) := by
    rw [← catalogOf_eq _ hw3.1]
    exact ref_loadLevel_grid_catalog i _ hi
  rw [hload, ref_keyDown_escape, ref_keyDown_menu_level i _ hi rfl]
  refine ⟨ref_loadLevel_mode i s, (ref_loadLevel_fields i s).1, (ref_loadLevel_fields i s).2.1,
    (ref_loadLevel_fields i s).2.2, hgrid, ?_, catalogOf_eq s.store hw.1,
    catalogOf_eq _ hw2.1, ?_⟩
  · intro x y
    rw [hgrid]
    rfl
  · have h := hgrid3.symm.trans hgrid
    exact Option.some.inj h

/-- C8 at a concrete input: level 0 loaded from the start menu, rain at (0, 0) for ten ticks
(which erodes cell (0, 10) of the grid), then escape and level 0 again. -/
theorem C8_level_load_purity_witness :
    ((Ref.keyDown (49 + ((0 : Nat) : Int)) Ref.start).mode = Mode.play
      ∧ (Ref.keyDown (49 + ((0 : Nat) : Int)) Ref.start).drops = []
      ∧ (Ref.keyDown (49 + ((0 : Nat) : Int)) Ref.start).raining = false
      ∧ (Ref.keyDown (49 + ((0 : Nat) : Int)) Ref.start).spawnWait = 0
      ∧ parsedLevels[0]? = some (gridOf (Ref.keyDown (49 + ((0 : Nat) : Int)) Ref.start))
      ∧ (∀ x y, cellAt (gridOf (Ref.keyDown (49 + ((0 : Nat) : Int)) Ref.start)) x y
          = cellAt (parsedLevels[0]?.getD []) x y)
      ∧ catalogOf Ref.start.store = parsedLevels
      ∧ catalogOf (Ref.run (Ref.keyDown (49 + ((0 : Nat) : Int)) Ref.start)
          [Event.touch 0 0, Event.tick, Event.tick, Event.tick, Event.tick, Event.tick,
            Event.tick, Event.tick, Event.tick, Event.tick, Event.tick]).store = parsedLevels
      ∧ gridOf (Ref.keyDown (49 + ((0 : Nat) : Int))
            (Ref.keyDown 27 (Ref.run (Ref.keyDown (49 + ((0 : Nat) : Int)) Ref.start)
              [Event.touch 0 0, Event.tick, Event.tick, Event.tick, Event.tick, Event.tick,
                Event.tick, Event.tick, Event.tick, Event.tick, Event.tick])))
          = gridOf (Ref.keyDown (49 + ((0 : Nat) : Int)) Ref.start))
      ∧ cellAt (gridOf (Ref.run (Ref.keyDown 49 Ref.start)
          [Event.touch 0 0, Event.tick, Event.tick, Event.tick, Event.tick, Event.tick,
            Event.tick, Event.tick, Event.tick, Event.tick, Event.tick])) 0 10 = some '.'
      ∧ cellAt (gridOf (Ref.keyDown 49 Ref.start)) 0 10 = some '#' :=
  ⟨C8_level_load_purity 0 Ref.start
      [Event.touch 0 0, Event.tick, Event.tick, Event.tick, Event.tick, Event.tick,
        Event.tick, Event.tick, Event.tick, Event.tick, Event.tick]
      (by decide) ref_start_wellFormed (by decide),
    by decide, by decide⟩

/-! ## The model by value is the model by reference with the rows dereferenced -/

theorem readStore_set (store : RowStore) (a b : Nat) (r : Row) (ha : a < store.length) :
    readStore (store.set a r) b = if b = a then r else readStore store b := by
  unfold readStore
  rw [List.getElem?_set]
  by_cases h : a = b
  · subst h
    simp [ha]
  · have h' : ¬ b = a := fun e => h e.symm
    rw [if_neg h, if_neg h']

theorem map_readStore_set (levelMap : List Nat) (store : RowStore) (y a : Nat) (r : Row)
    (hnd : levelMap.Nodup) (hy : levelMap[y]? = some a) (ha : a < store.length) :
    levelMap.map (readStore (store.set a r)) = (levelMap.map (readStore store)).set y r := by
  apply List.ext_getElem?
  intro k
  rw [List.getElem?_map, List.getElem?_set, List.getElem?_map, List.length_map]
  have hylt : y < levelMap.length := by
    by_contra hcon
    rw [List.getElem?_eq_none (by omega)] at hy
    cases hy
  by_cases hk : y = k
  · subst hk
    rw [if_pos rfl, if_pos hylt, hy]
    show some (readStore (store.set a r) a) = some r
    rw [readStore_set store a a r ha, if_pos rfl]
  · rw [if_neg hk]
    cases hb : levelMap[k]? with
    | none => rfl
    | some b =>
      have hne : b ≠ a := by
        intro e
        rw [e] at hb
        exact hk (List.getElem?_inj hylt hnd (hy.trans hb.symm))
      show some (readStore (store.set a r) b) = some (readStore store b)
      rw [readStore_set store a b r ha, if_neg hne]

/-- The advance loop by reference and the advance loop by value leave the same drops, the
same grid and the same completion flag. -/
theorem abs_advanceLoop (levelMap : List Nat) (hnd : levelMap.Nodup) (n : Nat) :
    ∀ (drops : List Drop) (store : RowStore), (∀ a ∈ levelMap, a < store.length) →
      advanceLoop n drops (levelMap.map (readStore store))
        = ⟨(Ref.advanceLoop levelMap n drops store).drops,
            levelMap.map (readStore (Ref.advanceLoop levelMap n drops store).store),
            (Ref.advanceLoop levelMap n drops store).completed⟩ := by
  induction n with
  | zero => intro drops store _; rfl
  | succ i ih =>
    intro drops store hin
    rw [advanceLoop, Ref.advanceLoop]
    cases hd : drops[i]? with
    | none => rfl
    | some p =>
      simp only
      by_cases h1 : p.y + 1 ≥ Height
      · rw [if_pos h1, if_pos h1]
        exact ih _ store hin
      · rw [if_neg h1, if_neg h1, List.getElem?_map]
        cases hrow : levelMap[p.y + 1]? with
        | none => rfl
        | some a =>
          have ha : a < store.length := hin a (List.getElem?_mem hrow)
          simp only [Option.map_some']
          by_cases h2 : destructible (readCell (readStore store a) p.x) = true
          · rw [if_pos h2, if_pos h2]
            have hv : setTile (levelMap.map (readStore store)) p.x (p.y + 1) '.'
                = some (levelMap.map (readStore
                    (store.set a (writeCell (readStore store a) p.x '.')))) := by
              unfold setTile
              rw [List.getElem?_map, hrow]
              simp only [Option.map_some']
              rw [map_readStore_set levelMap store (p.y + 1) a _ hnd hrow ha]
            have hr : Ref.setTile levelMap store p.x (p.y + 1) '.'
                = some (store.set a (writeCell (readStore store a) p.x '.')) := by
              unfold Ref.setTile
              rw [hrow]
            rw [hv, hr]
            simp only
            exact ih _ _ (fun b hb => by rw [List.length_set]; exact hin b hb)
          · rw [if_neg h2, if_neg h2]
            exact ih _ store hin

theorem abs_spawnPhase (s : RefState) : (Ref.spawnPhase s).abs = spawnPhase s.abs := by
  unfold Ref.spawnPhase spawnPhase RefState.abs gridOf
  split_ifs <;> rfl

theorem abs_tick (s : RefState) (hw : WellFormed s) : (Ref.tick s).abs = tick s.abs := by
  unfold Ref.tick tick
  by_cases hm : s.mode = Mode.play
  · have hm' : s.abs.mode = Mode.play := hm
    rw [if_neg (by simp [hm]), if_neg (by simp [hm'])]
    simp only
    have hsp := abs_spawnPhase s
    have hl := ref_spawnPhase_levelMap s
    have hst := ref_spawnPhase_store s
    have hloop := abs_advanceLoop (Ref.spawnPhase s).levelMap (by rw [hl]; exact hw.2.2)
      (Ref.spawnPhase s).drops.length (Ref.spawnPhase s).drops (Ref.spawnPhase s).store
      (by rw [hl, hst]; exact fun a ha => (hw.2.1 a ha).2)
    have hadv : advancePhase (spawnPhase s.abs)
        = advanceLoop (Ref.spawnPhase s).drops.length (Ref.spawnPhase s).drops
            ((Ref.spawnPhase s).levelMap.map (readStore (Ref.spawnPhase s).store)) := by
      rw [← hsp]
      rfl
    rw [hadv, hloop, ← hsp]
    rfl
  · have hm' : ¬ s.abs.mode = Mode.play := hm
    rw [if_pos (by simpa using hm), if_pos (by simpa using hm')]

theorem abs_loadLevel (i : Nat) (s : RefState) (hw : WellFormed s) :
    (Ref.loadLevel i s).abs = loadLevel i s.abs := by
  by_cases hi : i < 3
  · have hg := ref_loadLevel_grid_catalog i s hi
    rw [catalogOf_eq s.store hw.1] at hg
    have hf := ref_loadLevel_fields i s
    have hmd := ref_loadLevel_mode i s
    have hx : (Ref.loadLevel i s).rainX = s.rainX ∧ (Ref.loadLevel i s).rainY = s.rainY := by
      unfold Ref.loadLevel; split <;> exact ⟨rfl, rfl⟩
    unfold loadLevel
    rw [hg]
    simp only [List.map_id']
    unfold RefState.abs
    rw [hmd, hf.1, hf.2.1, hf.2.2, hx.1, hx.2]
  · have h1 : parsedLevelsRef[i]? = none :=
      List.getElem?_eq_none (by show 3 ≤ i; omega)
    have h2 : parsedLevels[i]? = none :=
      List.getElem?_eq_none (by show 3 ≤ i; omega)
    unfold Ref.loadLevel loadLevel
    rw [h1, h2]
    rfl

theorem abs_keyDown (key : Int) (s : RefState) (hw : WellFormed s) :
    (Ref.keyDown key s).abs = PS.keyDown key s.abs := by
  rw [ref_keyDown_eq, keyDown_eq]
  have hm : s.abs.mode = s.mode := rfl
  rw [hm]
  split_ifs
  · rfl
  · exact abs_loadLevel _ s hw
  · rfl

theorem abs_step (s : RefState) (e : Event) (hw : WellFormed s) :
    (Ref.step s e).abs = step s.abs e := by
  cases e with
  | tick => exact abs_tick s hw
  | touch x y =>
    show (Ref.touch x y s).abs = PS.touch x y s.abs
    unfold Ref.touch PS.touch
    have hm : s.abs.mode = s.mode := rfl
    rw [hm]
    split_ifs <;> rfl
  | release => rfl
  | enter x y => rfl
  | exitGrid => rfl
  | keyDown key => exact abs_keyDown key s hw

/-- Every run by reference, dereferenced, is the run by value on the same events. -/
theorem abs_run (events : List Event) :
    ∀ s : RefState, WellFormed s → (Ref.run s events).abs = run s.abs events := by
  induction events with
  | nil => intro s _; rfl
  | cons e es ih =>
    intro s hw
    show (Ref.run (Ref.step s e) es).abs = run (step s.abs e) es
    rw [ih (Ref.step s e) (ref_step_wellFormed s e hw), abs_step s e hw]

theorem abs_start : Ref.start.abs = start := rfl

/-! ## C12, C13: frames of the pointer handlers and of keyDown in play mode -/

/-- C12: touch(x, y) in play mode sets raining = true and the origin to (x, y) and nothing
else, and in menu mode changes nothing; enter(x, y) sets the origin to (x, y) and nothing
else, in any mode; release and exitGrid set raining = false and nothing else, in any mode.
None of the four changes mode, grid, particle list or spawnWait. -/
theorem C12_rain_source_frame (s : State) (x y : Nat) :
    (s.mode = Mode.play → PS.touch x y s = { s with raining := true, rainX := x, rainY := y })
      ∧ (s.mode = Mode.menu → PS.touch x y s = s)
      ∧ PS.enter x y s = { s with rainX := x, rainY := y }
      ∧ PS.release s = { s with raining := false }
      ∧ PS.exitGrid s = { s with raining := false }
      ∧ ((PS.touch x y s).mode = s.mode ∧ (PS.touch x y s).levelMap = s.levelMap
          ∧ (PS.touch x y s).drops = s.drops ∧ (PS.touch x y s).spawnWait = s.spawnWait)
      ∧ ((PS.enter x y s).mode = s.mode ∧ (PS.enter x y s).levelMap = s.levelMap
          ∧ (PS.enter x y s).drops = s.drops ∧ (PS.enter x y s).spawnWait = s.spawnWait
          ∧ (PS.enter x y s).raining = s.raining)
      ∧ ((PS.release s).mode = s.mode ∧ (PS.release s).levelMap = s.levelMap
          ∧ (PS.release s).drops = s.drops ∧ (PS.release s).spawnWait = s.spawnWait
          ∧ (PS.release s).rainX = s.rainX ∧ (PS.release s).rainY = s.rainY)
      ∧ ((PS.exitGrid s).mode = s.mode ∧ (PS.exitGrid s).levelMap = s.levelMap
          ∧ (PS.exitGrid s).drops = s.drops ∧ (PS.exitGrid s).spawnWait = s.spawnWait
          ∧ (PS.exitGrid s).rainX = s.rainX ∧ (PS.exitGrid s).rainY = s.rainY) := by
  refine ⟨?_, ?_, rfl, rfl, rfl, ?_, ⟨rfl, rfl, rfl, rfl, rfl⟩, ⟨rfl, rfl, rfl, rfl, rfl, rfl⟩,
    ⟨rfl, rfl, rfl, rfl, rfl, rfl⟩⟩
  · intro hm
    simp [PS.touch, hm]
  · intro hm
    simp [PS.touch, hm]
  · unfold PS.touch
    split_ifs
    · exact ⟨rfl, rfl, rfl, rfl⟩
    · exact ⟨rfl, rfl, rfl, rfl⟩

/-- C13: in play mode every key code other than escape (27), the digit keys 49..57
included, leaves the entire state unchanged. -/
theorem C13_no_play_to_play (s : State) (key : Int) (hm : s.mode = Mode.play)
    (hk : key ≠ 27) : PS.keyDown key s = s :=
  keyDown_play key s hk hm

/-- C13 at a concrete input: key '2' (50) while level 0 is being played with rain on. -/
theorem C13_no_play_to_play_witness : PS.keyDown 50 (ticks 4 scenario) = ticks 4 scenario :=
  C13_no_play_to_play (ticks 4 scenario) 50 (by decide) (by decide)

/-! ## The countdown under toggling (used by C17 and C19) -/

theorem spawnPhase_idle (s : State) (hr : s.raining = false) :
    spawnPhase s = { s with spawnWait := 0 } := by
  unfold spawnPhase
  rw [if_neg (by simp [hr])]

theorem tick_spawnWait_idle (s : State) (hm : s.mode = Mode.play) (hr : s.raining = false) :
    (tick s).spawnWait = 0 := by
  rw [tick_spawnWait_of_play s hm, spawnPhase_idle s hr]

theorem step_idleReady (s : State) (e : Event) (he : e.IsIdle) (h : IdleReady s) :
    IdleReady (step s e) := by
  obtain ⟨hm, hr, hw⟩ := h
  cases e with
  | tick =>
    exact ⟨by show (tick s).mode = _; rw [tick_mode, hm],
      by show (tick s).raining = _; rw [tick_raining, hr], tick_spawnWait_idle s hm hr⟩
  | touch x y => exact absurd he (by simp [Event.IsIdle])
  | release => exact ⟨hm, rfl, hw⟩
  | enter x y => exact ⟨hm, hr, hw⟩
  | exitGrid => exact ⟨hm, rfl, hw⟩
  | keyDown key => exact absurd he (by simp [Event.IsIdle])

theorem run_idleReady (es : List Event) :
    ∀ s : State, (∀ e ∈ es, e.IsIdle) → IdleReady s → IdleReady (run s es) := by
  induction es with
  | nil => intro s _ h; exact h
  | cons e es ih =>
    intro s hes h
    exact ih (step s e) (fun e' he' => hes e' (List.mem_cons_of_mem _ he'))
      (step_idleReady s e (hes e (List.mem_cons_self _ _)) h)

theorem run_moves (ms : List Event) :
    ∀ s : State, (∀ e ∈ ms, e.IsMove) →
      (run s ms).mode = s.mode ∧ (run s ms).raining = s.raining
        ∧ (run s ms).spawnWait = s.spawnWait ∧ (run s ms).drops = s.drops
        ∧ (run s ms).levelMap = s.levelMap ∧ (ms = [] → run s ms = s) := by
  induction ms with
  | nil => intro s _; exact ⟨rfl, rfl, rfl, rfl, rfl, fun _ => rfl⟩
  | cons e ms ih =>
    intro s hms
    have he := hms e (List.mem_cons_self _ _)
    have h := ih (step s e) (fun e' he' => hms e' (List.mem_cons_of_mem _ he'))
    cases e with
    | enter x y =>
      exact ⟨h.1, h.2.1, h.2.2.1, h.2.2.2.1, h.2.2.2.2.1, fun hnil => by cases hnil⟩
    | tick => exact absurd he (by simp [Event.IsMove])
    | touch x y => exact absurd he (by simp [Event.IsMove])
    | release => exact absurd he (by simp [Event.IsMove])
    | exitGrid => exact absurd he (by simp [Event.IsMove])
    | keyDown key => exact absurd he (by simp [Event.IsMove])

theorem spawn_when_ready (s : State) (hm : s.mode = Mode.play) (hr : s.raining = true)
    (hw : s.spawnWait = 0) :
    spawnsOnTick s = true ∧ preAdvance s = s.drops ++ [⟨s.rainX, s.rainY⟩] := by
  refine ⟨(spawnsOnTick_iff s hm hr).mpr (by rw [hw]), ?_⟩
  rw [preAdvance_eq s hr, if_pos (by rw [hw])]

theorem step_pointer_frame (s : State) (e : Event) (he : e.IsPointer) :
    (step s e).mode = s.mode ∧ (step s e).spawnWait = s.spawnWait
      ∧ (step s e).drops = s.drops ∧ (step s e).levelMap = s.levelMap := by
  cases e with
  | tick => exact absurd he (by simp [Event.IsPointer])
  | touch x y =>
    show (PS.touch x y s).mode = s.mode ∧ (PS.touch x y s).spawnWait = s.spawnWait
      ∧ (PS.touch x y s).drops = s.drops ∧ (PS.touch x y s).levelMap = s.levelMap
    unfold PS.touch
    split_ifs
    · exact ⟨rfl, rfl, rfl, rfl⟩
    · exact ⟨rfl, rfl, rfl, rfl⟩
  | release => exact ⟨rfl, rfl, rfl, rfl⟩
  | enter x y => exact ⟨rfl, rfl, rfl, rfl⟩
  | exitGrid => exact ⟨rfl, rfl, rfl, rfl⟩
  | keyDown key => exact absurd he (by simp [Event.IsPointer])

theorem run_pointer_frame (es : List Event) :
    ∀ s : State, (∀ e ∈ es, e.IsPointer) →
      (run s es).mode = s.mode ∧ (run s es).spawnWait = s.spawnWait
        ∧ (run s es).drops = s.drops ∧ (run s es).levelMap = s.levelMap := by
  induction es with
  | nil => intro s _; exact ⟨rfl, rfl, rfl, rfl⟩
  | cons e es ih =>
    intro s hes
    have h1 := step_pointer_frame s e (hes e (List.mem_cons_self _ _))
    have h2 := ih (step s e) (fun e' he' => hes e' (List.mem_cons_of_mem _ he'))
    exact ⟨h2.1.trans h1.1, h2.2.1.trans h1.2.1, h2.2.2.1.trans h1.2.2.1,
      h2.2.2.2.trans h1.2.2.2⟩

theorem spawnsOnTick_spawnWait (s : State) (h : spawnsOnTick s = true) :
    s.mode = Mode.play ∧ s.raining = true ∧ s.spawnWait ≤ 0 := by
  simpa [spawnsOnTick, and_assoc] using h

theorem tick_spawnWait_of_spawn (s : State) (h : spawnsOnTick s = true) :
    (tick s).spawnWait = 2 := by
  obtain ⟨hm, hr, hw⟩ := spawnsOnTick_spawnWait s h
  rw [tick_spawnWait_of_play s hm, spawnPhase_spawnWait_raining s hr, if_pos hw]

theorem preAdvance_cases (s : State) :
    preAdvance s = s.drops ∨ preAdvance s = s.drops ++ [⟨s.rainX, s.rainY⟩] := by
  unfold preAdvance spawnPhase
  split_ifs
  · exact Or.inr rfl
  · exact Or.inl rfl
  · exact Or.inl rfl

theorem run_reachable (es : List Event) :
    ∀ s : State, Reachable s → Reachable (run s es) := by
  induction es with
  | nil => intro s h; exact h
  | cons e es ih => intro s h; exact ih (step s e) (Reachable.step s e h)

/-- C19: for every reachable state s and every run of pointer events es (touch, release,
enter, exitGrid in any order) between two ticks: spawnWait is within 0..2 in s, after the tick
and after es; the spawn phase of a tick appends nothing or exactly one drop, and the particle
list after a play-mode tick is at most one longer than before; and if the tick in s creates a
drop, the next tick, taken after es, creates none. -/
theorem C19_spawn_spacing (s : State) (es : List Event) (hr : Reachable s)
    (hes : ∀ e ∈ es, e.IsPointer) :
    (0 ≤ s.spawnWait ∧ s.spawnWait ≤ 2)
      ∧ (0 ≤ (tick s).spawnWait ∧ (tick s).spawnWait ≤ 2)
      ∧ (0 ≤ (run (tick s) es).spawnWait ∧ (run (tick s) es).spawnWait ≤ 2)
      ∧ (preAdvance s = s.drops ∨ preAdvance s = s.drops ++ [⟨s.rainX, s.rainY⟩])
      ∧ (tick s).drops.length ≤ s.drops.length + 1
      ∧ (spawnsOnTick s = true → spawnsOnTick (run (tick s) es) = false) := by
  have hr1 : Reachable (tick s) := Reachable.step s Event.tick hr
  have hr2 : Reachable (run (tick s) es) := run_reachable es _ hr1
  refine ⟨reachable_spawnWait_range s hr, reachable_spawnWait_range _ hr1,
    reachable_spawnWait_range _ hr2, preAdvance_cases s, ?_, ?_⟩
  · by_cases hm : s.mode = Mode.play
    · have hg : Height ≤ s.levelMap.length := by rw [reachable_play_rows s hr hm]
      obtain ⟨kept, hsub, _, hk⟩ := sweep_survivors (preAdvance s) s.levelMap
      rw [tick_drops_eq_sweep s hm hg, hk, List.length_map]
      have h1 := hsub.length_le
      rcases preAdvance_cases s with h | h
      · rw [h] at h1; omega
      · rw [h, List.length_append, List.length_singleton] at h1; exact h1
    · rw [tick_of_not_play s hm]; omega
  · intro hsp
    have hw := tick_spawnWait_of_spawn s hsp
    have hf := run_pointer_frame es (tick s) hes
    cases hb : spawnsOnTick (run (tick s) es) with
    | false => rfl
    | true =>
      have h2 := (spawnsOnTick_spawnWait _ hb).2.2
      rw [hf.2.1, hw] at h2
      exact absurd h2 (by decide)

/-- C19 at a concrete input: level 0 with rain just switched on (the tick spawns), then a
release and a new touch before the next tick. -/
theorem C19_spawn_spacing_witness :
    spawnsOnTick scenario = true
      ∧ spawnsOnTick (run (tick scenario) [Event.release, Event.touch 1 1]) = false
      ∧ (tick scenario).drops.length ≤ scenario.drops.length + 1 :=
  have h := C19_spawn_spacing scenario [Event.release, Event.touch 1 1]
    (Reachable.step _ (Event.touch 0 0) (Reachable.step _ (Event.keyDown 49) Reachable.start))
    (by simp [Event.IsPointer])
  ⟨by decide, h.2.2.2.2.2 (by decide), h.2.2.2.2.1⟩

/-! ## The drops a sweep keeps, exactly -/

theorem set_same {α : Type} (l : List α) (n : Nat) (a : α) (h : l[n]? = some a) :
    l.set n a = l := by
  apply List.ext_getElem?
  intro k
  rw [List.getElem?_set]
  by_cases hk : n = k
  · subst hk
    have hn : n < l.length := by
      by_contra hcon
      rw [List.getElem?_eq_none (by omega)] at h
      cases h
    rw [if_pos rfl, if_pos hn, h]
  · rw [if_neg hk]

theorem eraseTile_of_dot (levelMap : Grid) (x y : Nat) (h : cellAt levelMap x y = some '.') :
    eraseTile levelMap x y = levelMap := by
  unfold cellAt at h
  cases hrow : levelMap[y]? with
  | none => rw [hrow] at h; cases h
  | some row =>
    rw [hrow] at h
    have hy : y < levelMap.length := by
      by_contra hcon
      rw [List.getElem?_eq_none (by omega)] at hrow
      cases hrow
    have hget : levelMap.get ⟨y, hy⟩ = row := by
      have := List.getElem?_eq_getElem hy
      rw [hrow] at this
      exact (Option.some.inj this).symm
    have hcell : row[x]? = some (some '.') := by
      replace h : (row[x]?).join = some '.' := h
      cases hc : row[x]? with
      | none => rw [hc] at h; cases h
      | some c =>
        rw [hc] at h
        have : c = some '.' := h
        rw [this]
    have hx : x < row.length := by
      by_contra hcon
      rw [List.getElem?_eq_none (by omega)] at hcell
      cases hcell
    rw [eraseTile_eq levelMap x y hy, hget]
    unfold writeCell
    rw [if_pos hx, set_same row x _ hcell, set_same levelMap y row hrow]

theorem struck_iff_mem (p : Drop) (ps : List Drop) (levelMap : Grid) (hp : p.y + 1 < Height) :
    Struck ps levelMap p.x (p.y + 1)
      ↔ p ∈ ps ∧ cellAt levelMap p.x (p.y + 1) ≠ some '.' := by
  unfold Struck
  constructor
  · rintro ⟨⟨q, hq, hx, hy, _⟩, hc⟩
    have : q = p := by
      cases q; cases p
      simp only [Drop.mk.injEq] at *
      exact ⟨hx, by omega⟩
    exact ⟨this ▸ hq, hc⟩
  · rintro ⟨hmem, hc⟩
    exact ⟨⟨p, hmem, rfl, rfl, hp⟩, hc⟩

theorem advanceOne_fst_eq (p : Drop) (ps : List Drop) (levelMap : Grid)
    (hg : Height ≤ levelMap.length) :
    (advanceOne p (sweep ps levelMap).2).1.toList
      = if survivesSweep p ps levelMap then [fall p] else [] := by
  have hg' : Height ≤ (sweep ps levelMap).2.length := by rw [sweep_length]; exact hg
  by_cases h1 : p.y + 1 ≥ Height
  · rw [advanceOne_off p _ h1]
    have : survivesSweep p ps levelMap = false := by
      unfold survivesSweep
      simp only [Bool.and_eq_false_imp, decide_eq_true_eq]
      intro h; omega
    rw [this]
    rfl
  · have hp : p.y + 1 < Height := by omega
    have hcell := sweep_cell ps levelMap hg p.x (p.y + 1)
    rw [struck_iff_mem p ps levelMap hp] at hcell
    by_cases hdot : cellAt levelMap p.x (p.y + 1) = some '.'
    · have hns : ¬ (p ∈ ps ∧ cellAt levelMap p.x (p.y + 1) ≠ some '.') := fun h => h.2 hdot
      have hc' := hcell.2 hns
      rw [hdot] at hc'
      rw [advanceOne_fall p _ hp (by simp [destructible, hc'])]
      have : survivesSweep p ps levelMap = true := by
        unfold survivesSweep
        simp [hp, destructible, hdot]
      rw [this]
      rfl
    · by_cases hmem : p ∈ ps
      · have hc' := hcell.1 ⟨hmem, hdot⟩
        rw [advanceOne_fall p _ hp (by simp [destructible, hc'])]
        have : survivesSweep p ps levelMap = true := by
          unfold survivesSweep
          simp [hp, hmem]
        rw [this]
        rfl
      · have hc' := hcell.2 (fun h => hmem h.1)
        rw [advanceOne_hit p _ hp (by simpa [destructible, hc'] using hdot)]
        have : survivesSweep p ps levelMap = false := by
          unfold survivesSweep
          simp [hp, hmem, destructible, hdot]
        rw [this]
        rfl

/-- The drops left by a sweep are exactly `sweepSurvivors`. -/
theorem sweep_fst_eq (drops : List Drop) (levelMap : Grid) (hg : Height ≤ levelMap.length) :
    (sweep drops levelMap).1 = sweepSurvivors drops levelMap := by
  induction drops with
  | nil => rfl
  | cons p ps ih =>
    rw [sweep_cons]
    show (advanceOne p (sweep ps levelMap).2).1.toList ++ (sweep ps levelMap).1 = _
    rw [advanceOne_fst_eq p ps levelMap hg, ih]
    rfl

/-- The grid left by a sweep is the grid of the snapshot model. -/
theorem sweep_snd_eq_snapshotGrid (drops : List Drop) (levelMap : Grid)
    (hg : Height ≤ levelMap.length) :
    (sweep drops levelMap).2 = snapshotGrid drops levelMap := by
  induction drops with
  | nil => rfl
  | cons p ps ih =>
    have hstep : snapshotGrid (p :: ps) levelMap
        = if p.y + 1 < Height ∧ destructible (cellAt levelMap p.x (p.y + 1)) = true then
            eraseTile (snapshotGrid ps levelMap) p.x (p.y + 1)
          else snapshotGrid ps levelMap := rfl
    rw [sweep_cons, hstep, ← ih]
    show (advanceOne p (sweep ps levelMap).2).2 = _
    by_cases h1 : p.y + 1 ≥ Height
    · rw [advanceOne_off p _ h1, if_neg (fun h => by omega)]
    · have hp : p.y + 1 < Height := by omega
      by_cases h2 : destructible (cellAt (sweep ps levelMap).2 p.x (p.y + 1)) = true
      · rw [advanceOne_hit p _ hp h2]
        have hsolid : cellAt (sweep ps levelMap).2 p.x (p.y + 1) ≠ some '.' := by
          simpa [destructible] using h2
        have hsame : cellAt (sweep ps levelMap).2 p.x (p.y + 1)
            = cellAt levelMap p.x (p.y + 1) := by
          rcases sweep_cell_same_or_dot ps levelMap hg p.x (p.y + 1) with e | e
          · exact e
          · exact absurd e hsolid
        rw [if_pos ⟨hp, by rw [← hsame]; exact h2⟩]
      · rw [advanceOne_fall p _ hp h2]
        have hdot : cellAt (sweep ps levelMap).2 p.x (p.y + 1) = some '.' := by
          simpa [destructible] using h2
        split_ifs
        · rw [eraseTile_of_dot _ _ _ hdot]
        · rfl

theorem mem_sweepSurvivors (drops : List Drop) (levelMap : Grid) (q : Drop)
    (h : q ∈ sweepSurvivors drops levelMap) :
    ∃ p, fall p = q ∧ p ∈ drops ∧ p.y + 1 < Height
      ∧ (destructible (cellAt levelMap p.x (p.y + 1)) = false ∨ 2 ≤ drops.count p) := by
  induction drops with
  | nil => cases h
  | cons p ps ih =>
    have hstep : sweepSurvivors (p :: ps) levelMap
        = (if survivesSweep p ps levelMap then [fall p] else []) ++ sweepSurvivors ps levelMap :=
      rfl
    rw [hstep] at h
    rcases List.mem_append.mp h with h1 | h1
    · by_cases hs : survivesSweep p ps levelMap = true
      · rw [if_pos hs] at h1
        have hq : q = fall p := List.mem_singleton.mp h1
        unfold survivesSweep at hs
        simp only [Bool.and_eq_true, Bool.or_eq_true, decide_eq_true_eq,
          Bool.not_eq_true'] at hs
        refine ⟨p, hq.symm, List.mem_cons_self _ _, hs.1, ?_⟩
        rcases hs.2 with hd | hmem
        · exact Or.inl hd
        · right
          rw [List.count_cons_self]
          have := List.count_pos_iff.mpr hmem
          omega
      · rw [if_neg hs] at h1
        cases h1
    · obtain ⟨p', hf, hmem, hy, hc⟩ := ih h1
      refine ⟨p', hf, List.mem_cons_of_mem _ hmem, hy, ?_⟩
      rcases hc with hc | hc
      · exact Or.inl hc
      · exact Or.inr (Nat.le_trans hc (List.count_le_count_cons _ _ _))

theorem sweepSurvivors_eq_snapshotDrops (drops : List Drop) (levelMap : Grid)
    (h : ∀ p ∈ drops, p.y + 1 < Height → destructible (cellAt levelMap p.x (p.y + 1)) = true
        → drops.count p ≤ 1) :
    sweepSurvivors drops levelMap = snapshotDrops drops levelMap := by
  induction drops with
  | nil => rfl
  | cons p ps ih =>
    have ih' := ih (fun q hq hy hd =>
      Nat.le_trans (List.count_le_count_cons _ _ _) (h q (List.mem_cons_of_mem _ hq) hy hd))
    have hstep : sweepSurvivors (p :: ps) levelMap
        = (if survivesSweep p ps levelMap then [fall p] else []) ++ sweepSurvivors ps levelMap :=
      rfl
    have hkey : survivesSweep p ps levelMap = !snapshotRemoves p levelMap := by
      unfold survivesSweep snapshotRemoves
      by_cases hy : p.y + 1 < Height
      · by_cases hd : destructible (cellAt levelMap p.x (p.y + 1)) = true
        · have hnot : p ∉ ps := by
            intro hmem
            have h1 := h p (List.mem_cons_self _ _) hy hd
            rw [List.count_cons_self] at h1
            have := List.count_pos_iff.mpr hmem
            omega
          have hge : ¬ p.y + 1 ≥ Height := by omega
          simp [hy, hd, hnot, hge]
        · have hge : ¬ p.y + 1 ≥ Height := by omega
          simp [hy, hd, hge]
      · have hge : p.y + 1 ≥ Height := by omega
        simp [hy, hge]
    rw [hstep, ih', hkey]
    unfold snapshotDrops
    by_cases hr : snapshotRemoves p levelMap = true
    · rw [List.filter_cons_of_neg (by simp [hr])]
      simp [hr]
    · have hr' : snapshotRemoves p levelMap = false := by simpa using hr
      rw [List.filter_cons_of_pos (by simp [hr'])]
      simp [hr']

/-! ## C14: the advance phase against the snapshot model -/

/-- C14, as stated, fails, at a reachable state: in `sharedCellState` the pre-advance list
holds two drops at (0, 9) above the wall cell (0, 10).  The snapshot model removes both; the
code removes the one visited first and moves the other into the cell just emptied. -/
theorem C14_snapshot_as_stated_fails :
    sharedCellState.mode = Mode.play
      ∧ preAdvance sharedCellState = [⟨0, 9⟩, ⟨0, 9⟩]
      ∧ cellAt sharedCellState.levelMap 0 10 = some '#'
      ∧ snapshotDrops (preAdvance sharedCellState) sharedCellState.levelMap = []
      ∧ (tick sharedCellState).drops = [⟨0, 10⟩]
      ∧ (tick sharedCellState).drops
          ≠ snapshotDrops (preAdvance sharedCellState) sharedCellState.levelMap := by
  decide

/-- C14, amended: for a play-mode tick on a grid that has its 16 rows, the advance loop runs
to its end, the grid it leaves is the grid of the snapshot model, and the particle list it
leaves is `sweepSurvivors` of the pre-advance list; that list is the one of the snapshot
model whenever no two pre-advance drops share a position whose cell below is not '.'. -/
theorem C14_snapshot_equivalence (s : State) (hm : s.mode = Mode.play)
    (hg : Height ≤ s.levelMap.length) :
    (advancePhase (spawnPhase s)).completed = true
      ∧ (tick s).levelMap = snapshotGrid (preAdvance s) s.levelMap
      ∧ (tick s).drops = sweepSurvivors (preAdvance s) s.levelMap
      ∧ ((∀ p ∈ preAdvance s, p.y + 1 < Height
            → destructible (cellAt s.levelMap p.x (p.y + 1)) = true
            → (preAdvance s).count p ≤ 1)
          → (tick s).drops = snapshotDrops (preAdvance s) s.levelMap) := by
  refine ⟨?_, ?_, ?_, ?_⟩
  · rw [advancePhase_eq_sweep _ (by rw [spawnPhase_levelMap]; exact hg)]
  · rw [tick_levelMap_eq_sweep s hm hg, sweep_snd_eq_snapshotGrid _ _ hg]
  · rw [tick_drops_eq_sweep s hm hg, sweep_fst_eq _ _ hg]
  · intro h
    rw [tick_drops_eq_sweep s hm hg, sweep_fst_eq _ _ hg,
      sweepSurvivors_eq_snapshotDrops _ _ h]

/-- C14 (amended) at concrete inputs: tick 9 of the scenario, where the four pre-advance
drops are at distinct positions and the first strikes (0, 10). -/
theorem C14_snapshot_equivalence_witness :
    (advancePhase (spawnPhase (ticks 9 scenario))).completed = true
      ∧ (tick (ticks 9 scenario)).levelMap
          = snapshotGrid (preAdvance (ticks 9 scenario)) (ticks 9 scenario).levelMap
      ∧ (tick (ticks 9 scenario)).drops
          = sweepSurvivors (preAdvance (ticks 9 scenario)) (ticks 9 scenario).levelMap
      ∧ (tick (ticks 9 scenario)).drops
          = snapshotDrops (preAdvance (ticks 9 scenario)) (ticks 9 scenario).levelMap :=
  have hshared : ∀ p ∈ preAdvance (ticks 9 scenario), p.y + 1 < Height
      → destructible (cellAt (ticks 9 scenario).levelMap p.x (p.y + 1)) = true
      → (preAdvance (ticks 9 scenario)).count p ≤ 1 := by
    have hpre : preAdvance (ticks 9 scenario) = [⟨0, 9⟩, ⟨0, 6⟩, ⟨0, 3⟩, ⟨0, 0⟩] := by decide
    rw [hpre]
    intro p hp _ _
    simp only [List.mem_cons, List.mem_singleton, List.not_mem_nil, or_false] at hp
    rcases hp with h | h | h | h <;> subst h <;> decide
  have h := C14_snapshot_equivalence (ticks 9 scenario) (by decide) (by decide)
  ⟨h.1, h.2.1, h.2.2.1, h.2.2.2 hshared⟩

/-! ## C11: the floor row of the authored levels -/

theorem floor_cells :
    ∀ i ∈ List.range 3, ∀ x ∈ List.range 16,
      destructible (cellAt (parsedLevels[i]?.getD []) x 15)
        = (decide (i ≠ 1) || (decide (6 ≤ x) && decide (x ≤ 9))) := by
  decide

/-- C11, as stated, fails: in the second level (index 1, the tree) the cell (0, 15) of the
last row is '.', and a drop at (0, 14) in the freshly loaded level moves onto row 15 on the
next tick and leaves the grid as it was.  And over a solid floor cell, of two drops at
(3, 14) in the third level only one is removed; the other moves onto row 15. -/
theorem C11_floor_as_stated_fails :
    cellAt (parsedLevels[1]?.getD []) 0 15 = some '.'
      ∧ destructible (cellAt (parsedLevels[1]?.getD []) 0 15) = false
      ∧ treeEdgeState.mode = Mode.play
      ∧ parsedLevels[1]? = some treeEdgeState.levelMap
      ∧ (tick treeEdgeState).drops = [⟨0, 15⟩]
      ∧ (tick treeEdgeState).levelMap = treeEdgeState.levelMap
      ∧ (tick { bottomRowState with drops := [⟨3, 14⟩, ⟨3, 14⟩] }).drops = [⟨3, 15⟩] := by
  decide

/-- C11, amended: the cell (x, 15) of catalog level i is destructible exactly when i is 0
or 2, or i is 1 and 6 <= x <= 9.  For such i and x, in a play-mode state whose grid is level
i as loaded and whose pre-advance list holds one drop at (x, 14), the tick turns the floor
cell (x, 15) into '.' and leaves no drop at (x, 15): the drop is removed instead of moving
onto row 15. -/
theorem C11_solid_floor (i x : Nat) (s : State) (hi : i < 3) (hx : x < Width)
    (hfloor : i ≠ 1 ∨ (6 ≤ x ∧ x ≤ 9)) (hm : s.mode = Mode.play)
    (hgrid : parsedLevels[i]? = some s.levelMap)
    (hone : (preAdvance s).count ⟨x, 14⟩ = 1) :
    (∀ j ∈ List.range 3, ∀ c ∈ List.range 16,
        destructible (cellAt (parsedLevels[j]?.getD []) c 15)
          = (decide (j ≠ 1) || (decide (6 ≤ c) && decide (c ≤ 9))))
      ∧ destructible (cellAt s.levelMap x 15) = true
      ∧ cellAt (tick s).levelMap x 15 = some '.'
      ∧ (⟨x, 15⟩ : Drop) ∉ (tick s).drops := by
  have hd : destructible (cellAt s.levelMap x 15) = true := by
    have h := floor_cells i (List.mem_range.mpr hi) x (List.mem_range.mpr hx)
    rw [hgrid] at h
    rw [show (some s.levelMap).getD [] = s.levelMap from rfl] at h
    rw [h]
    rcases hfloor with h1 | h1
    · simp [h1]
    · simp [h1.1, h1.2]
  have hg : Height ≤ s.levelMap.length := by
    have hrows : ∀ j ∈ List.range 3, ((parsedLevels[j]?).getD []).length = Height := by decide
    have h := hrows i (List.mem_range.mpr hi)
    rw [hgrid] at h
    rw [show (some s.levelMap).getD [] = s.levelMap from rfl] at h
    rw [h]
  have hsolid : cellAt s.levelMap x 15 ≠ some '.' := by
    simpa [destructible] using hd
  have hmem : (⟨x, 14⟩ : Drop) ∈ preAdvance s :=
    List.count_pos_iff.mp (by rw [hone]; decide)
  refine ⟨floor_cells, hd, ?_, ?_⟩
  · rw [tick_levelMap_eq_sweep s hm hg]
    have h15 : (14 : Nat) + 1 < Height := by decide
    exact (sweep_cell _ _ hg x 15).1 ⟨⟨⟨x, 14⟩, hmem, rfl, rfl, h15⟩, hsolid⟩
  · rw [tick_drops_eq_sweep s hm hg, sweep_fst_eq _ _ hg]
    intro hin
    obtain ⟨p, hf, _, _, hc⟩ := mem_sweepSurvivors _ _ _ hin
    have hp : p = ⟨x, 14⟩ := by
      cases p
      simp only [fall, Drop.mk.injEq] at hf
      simp only [Drop.mk.injEq]
      omega
    rw [hp] at hc
    rcases hc with hc | hc
    · rw [hd] at hc; cases hc
    · rw [hone] at hc; omega

/-- C11 (amended) at a concrete input: the third level (index 2) as loaded, with one drop
at (3, 14). -/
theorem C11_solid_floor_witness :
    (∀ j ∈ List.range 3, ∀ c ∈ List.range 16,
        destructible (cellAt (parsedLevels[j]?.getD []) c 15)
          = (decide (j ≠ 1) || (decide (6 ≤ c) && decide (c ≤ 9))))
      ∧ destructible (cellAt bottomRowState.levelMap 2 15) = true
      ∧ cellAt (tick { bottomRowState with drops := [⟨3, 14⟩] }).levelMap 3 15 = some '.'
      ∧ (⟨3, 15⟩ : Drop) ∉ (tick { bottomRowState with drops := [⟨3, 14⟩] }).drops :=
  have h := C11_solid_floor 2 3 { bottomRowState with drops := [⟨3, 14⟩] } (by decide)
    (by decide) (by decide) (by decide) (by decide) (by decide)
  ⟨h.1, by decide, h.2.2.1, h.2.2.2⟩

/-! ## C15: the order in which the drops are visited -/

theorem board_ext (g1 g2 : Grid) (h1 : IsBoard g1) (h2 : IsBoard g2)
    (h : ∀ x y, cellAt g1 x y = cellAt g2 x y) : g1 = g2 := by
  apply List.ext_getElem?
  intro y
  by_cases hy : y < Height
  · have hy1 : y < g1.length := by rw [h1.1]; exact hy
    have hy2 : y < g2.length := by rw [h2.1]; exact hy
    rw [List.getElem?_eq_getElem hy1, List.getElem?_eq_getElem hy2]
    congr 1
    have hr1 : (g1[y]).length = Width := h1.2 _ (List.getElem_mem hy1)
    have hr2 : (g2[y]).length = Width := h2.2 _ (List.getElem_mem hy2)
    apply List.ext_getElem?
    intro x
    by_cases hx : x < Width
    · have hx1 : x < (g1[y]).length := by rw [hr1]; exact hx
      have hx2 : x < (g2[y]).length := by rw [hr2]; exact hx
      have hc := h x y
      unfold cellAt readCell at hc
      rw [List.getElem?_eq_getElem hy1, List.getElem?_eq_getElem hy2] at hc
      simp only at hc
      rw [List.getElem?_eq_getElem hx1, List.getElem?_eq_getElem hx2] at hc
      rw [List.getElem?_eq_getElem hx1, List.getElem?_eq_getElem hx2]
      congr 1
    · rw [List.getElem?_eq_none (by omega), List.getElem?_eq_none (by omega)]
  · rw [List.getElem?_eq_none (by rw [h1.1]; omega),
      List.getElem?_eq_none (by rw [h2.1]; omega)]

theorem eraseTile_comm (levelMap : Grid) (x1 y1 x2 y2 : Nat) (hb : IsBoard levelMap)
    (hx1 : x1 < Width) (hx2 : x2 < Width) (hy1 : y1 < Height) (hy2 : y2 < Height) :
    eraseTile (eraseTile levelMap x1 y1) x2 y2 = eraseTile (eraseTile levelMap x2 y2) x1 y1 := by
  have hl : levelMap.length = Height := hb.1
  apply board_ext
  · exact eraseTile_isBoard _ _ _ (eraseTile_isBoard _ _ _ hb hx1) hx2
  · exact eraseTile_isBoard _ _ _ (eraseTile_isBoard _ _ _ hb hx2) hx1
  · intro x y
    rw [cellAt_eraseTile _ x2 y2 (by rw [eraseTile_length]; omega),
      cellAt_eraseTile _ x1 y1 (by omega),
      cellAt_eraseTile _ x1 y1 (by rw [eraseTile_length]; omega),
      cellAt_eraseTile _ x2 y2 (by omega)]
    split_ifs <;> rfl

theorem advanceOne_snd (p : Drop) (levelMap : Grid) :
    (advanceOne p levelMap).2
      = if hitsTile p levelMap then eraseTile levelMap p.x (p.y + 1) else levelMap := by
  unfold advanceOne hitsTile
  by_cases h1 : p.y + 1 ≥ Height
  · have : ¬ p.y + 1 < Height := by omega
    simp [h1, this]
  · have : p.y + 1 < Height := by omega
    by_cases h2 : destructible (cellAt levelMap p.x (p.y + 1)) = true
    · simp [h1, this, h2]
    · simp [h1, this, h2]

theorem advanceOne_of_cell_eq (p : Drop) (g g' : Grid)
    (h : cellAt g' p.x (p.y + 1) = cellAt g p.x (p.y + 1)) :
    (advanceOne p g').1 = (advanceOne p g).1
      ∧ (advanceOne p g').2 = if hitsTile p g then eraseTile g' p.x (p.y + 1) else g' := by
  have hh : hitsTile p g' = hitsTile p g := by unfold hitsTile; rw [h]
  refine ⟨?_, by rw [advanceOne_snd, hh]⟩
  unfold advanceOne
  rw [h]
  split_ifs <;> rfl

theorem advanceOne_comm (a b : Drop) (levelMap : Grid) (hb : IsBoard levelMap)
    (hax : a.x < Width) (hbx : b.x < Width) :
    (advanceOne a (advanceOne b levelMap).2).2 = (advanceOne b (advanceOne a levelMap).2).2
      ∧ ((advanceOne a (advanceOne b levelMap).2).1.toList ++ (advanceOne b levelMap).1.toList).Perm
          ((advanceOne b (advanceOne a levelMap).2).1.toList
            ++ (advanceOne a levelMap).1.toList) := by
  by_cases hab : a = b
  · subst hab
    exact ⟨rfl, List.Perm.refl _⟩
  · have hg : Height ≤ levelMap.length := by rw [hb.1]
    have hna : ¬ (b.x = a.x ∧ b.y + 1 = a.y + 1 ∧ b.y + 1 < Height) := by
      intro h
      apply hab
      cases a; cases b
      simp only [Drop.mk.injEq] at *
      omega
    have hnb : ¬ (a.x = b.x ∧ a.y + 1 = b.y + 1 ∧ a.y + 1 < Height) := by
      intro h
      apply hab
      cases a; cases b
      simp only [Drop.mk.injEq] at *
      omega
    have h1 := advanceOne_of_cell_eq a levelMap (advanceOne b levelMap).2
      (advanceOne_cell_other b levelMap hg a.x (a.y + 1) hna)
    have h2 := advanceOne_of_cell_eq b levelMap (advanceOne a levelMap).2
      (advanceOne_cell_other a levelMap hg b.x (b.y + 1) hnb)
    refine ⟨?_, ?_⟩
    · rw [h1.2, h2.2, advanceOne_snd b levelMap, advanceOne_snd a levelMap]
      cases ha : hitsTile a levelMap with
      | false =>
        cases hbt : hitsTile b levelMap with
        | false => simp only [Bool.false_eq_true, if_false]
        | true => simp only [Bool.false_eq_true, if_false, if_true]
      | true =>
        cases hbt : hitsTile b levelMap with
        | false => simp only [Bool.false_eq_true, if_false, if_true]
        | true =>
          simp only [if_true]
          have hay : a.y + 1 < Height := by
            unfold hitsTile at ha
            simp only [Bool.and_eq_true, decide_eq_true_eq] at ha
            exact ha.1
          have hby : b.y + 1 < Height := by
            unfold hitsTile at hbt
            simp only [Bool.and_eq_true, decide_eq_true_eq] at hbt
            exact hbt.1
          exact eraseTile_comm levelMap b.x (b.y + 1) a.x (a.y + 1) hb hbx hax hby hay
    · rw [h1.1, h2.1]
      exact List.perm_append_comm

/-- Sweeps over two arrangements of the same drops leave the same grid and the same drops up
to order. -/
theorem sweep_perm (l1 l2 : List Drop) (hperm : l1.Perm l2) :
    ∀ levelMap : Grid, IsBoard levelMap → (∀ p ∈ l1, p.x < Width) →
      (sweep l1 levelMap).2 = (sweep l2 levelMap).2
        ∧ (sweep l1 levelMap).1.Perm (sweep l2 levelMap).1 := by
  induction hperm with
  | nil => intro levelMap _ _; exact ⟨rfl, List.Perm.refl _⟩
  | cons a _ ih =>
    intro levelMap hb hx
    obtain ⟨hgrid, hdrops⟩ := ih levelMap hb (fun p hp => hx p (List.mem_cons_of_mem _ hp))
    rw [sweep_cons, sweep_cons, hgrid]
    exact ⟨rfl, List.Perm.append_left _ hdrops⟩
  | swap a b l =>
    intro levelMap hb hx
    have hbl : IsBoard (sweep l levelMap).2 :=
      sweep_isBoard l levelMap hb
        (fun p hp => hx p (List.mem_cons_of_mem _ (List.mem_cons_of_mem _ hp)))
    have hbx : a.x < Width := hx a (List.mem_cons_of_mem _ (List.mem_cons_self _ _))
    have hax : b.x < Width := hx b (List.mem_cons_self _ _)
    have hc := advanceOne_comm b a (sweep l levelMap).2 hbl hax hbx
    rw [sweep_cons, sweep_cons, sweep_cons, sweep_cons]
    refine ⟨hc.1, ?_⟩
    show ((advanceOne b (advanceOne a (sweep l levelMap).2).2).1.toList
        ++ ((advanceOne a (sweep l levelMap).2).1.toList ++ (sweep l levelMap).1)).Perm
      ((advanceOne a (advanceOne b (sweep l levelMap).2).2).1.toList
        ++ ((advanceOne b (sweep l levelMap).2).1.toList ++ (sweep l levelMap).1))
    rw [← List.append_assoc, ← List.append_assoc]
    exact List.Perm.append_right _ hc.2
  | trans h12 _ ih1 ih2 =>
    intro levelMap hb hx
    obtain ⟨hg1, hd1⟩ := ih1 levelMap hb hx
    obtain ⟨hg2, hd2⟩ := ih2 levelMap hb (fun p hp => hx p (h12.mem_iff.mpr hp))
    exact ⟨hg1.trans hg2, hd1.trans hd2⟩

theorem toList_reverse (q : Option Drop) : q.toList.reverse = q.toList := by
  cases q <;> rfl

theorem applyInOrder_eq_sweep (drops : List Drop) :
    ∀ levelMap : Grid,
      (applyInOrder drops levelMap).2 = (sweep drops.reverse levelMap).2
        ∧ (applyInOrder drops levelMap).1 = (sweep drops.reverse levelMap).1.reverse := by
  induction drops with
  | nil => intro levelMap; exact ⟨rfl, rfl⟩
  | cons p ps ih =>
    intro levelMap
    obtain ⟨h1, h2⟩ := ih (advanceOne p levelMap).2
    rw [List.reverse_cons, sweep_concat]
    refine ⟨h1, ?_⟩
    show (advanceOne p levelMap).1.toList ++ (applyInOrder ps (advanceOne p levelMap).2).1 = _
    rw [h2, List.reverse_append, toList_reverse]

/-- C15: on a 16x16 grid, for a list of in-range drops and any rearrangement of it, applying
the per-particle rule (remove if y + 1 >= 16; else if the cell (x, y + 1) is not '.', set it
to '.' and remove; else move to y + 1) to the rearranged list, one drop after the other,
leaves the same grid as the reverse index loop of the code on the original list, and the same
surviving drops up to order. -/
theorem C15_order_independence (levelMap : Grid) (drops arranged : List Drop)
    (hb : IsBoard levelMap) (hin : ∀ p ∈ drops, p.x < Width ∧ p.y < Height)
    (hperm : arranged.Perm drops) :
    (applyInOrder arranged levelMap).2 = (advanceLoop drops.length drops levelMap).levelMap
      ∧ (applyInOrder arranged levelMap).1.Perm
          (advanceLoop drops.length drops levelMap).drops := by
  have hg : Height ≤ levelMap.length := by rw [hb.1]
  have hloop := advanceLoop_eq_sweep drops [] levelMap hg
  rw [List.append_nil, List.append_nil] at hloop
  rw [hloop]
  obtain ⟨h1, h2⟩ := applyInOrder_eq_sweep arranged levelMap
  have hp : arranged.reverse.Perm drops := (List.reverse_perm arranged).trans hperm
  have hx : ∀ p ∈ arranged.reverse, p.x < Width :=
    fun p hpm => (hin p (hp.mem_iff.mp hpm)).1
  obtain ⟨hg2, hd2⟩ := sweep_perm arranged.reverse drops hp levelMap hb hx
  refine ⟨h1.trans hg2, ?_⟩
  show (applyInOrder arranged levelMap).1.Perm (sweep drops levelMap).1
  rw [h2]
  exact (List.reverse_perm _).trans hd2

/-- C15 at a concrete input: the two drops of `sharedCellState` that share the cell (0, 9)
together with drops at (3, 9) and (5, 2), on the level-0 grid, visited in list order instead
of the reverse order of the code. -/
theorem C15_order_independence_witness :
    (applyInOrder [⟨5, 2⟩, ⟨0, 9⟩, ⟨3, 9⟩, ⟨0, 9⟩] sharedCellState.levelMap).2
        = (advanceLoop 4 [⟨0, 9⟩, ⟨0, 9⟩, ⟨3, 9⟩, ⟨5, 2⟩] sharedCellState.levelMap).levelMap
      ∧ (applyInOrder [⟨5, 2⟩, ⟨0, 9⟩, ⟨3, 9⟩, ⟨0, 9⟩] sharedCellState.levelMap).1.Perm
          (advanceLoop 4 [⟨0, 9⟩, ⟨0, 9⟩, ⟨3, 9⟩, ⟨5, 2⟩] sharedCellState.levelMap).drops :=
  C15_order_independence sharedCellState.levelMap [⟨0, 9⟩, ⟨0, 9⟩, ⟨3, 9⟩, ⟨5, 2⟩]
    [⟨5, 2⟩, ⟨0, 9⟩, ⟨3, 9⟩, ⟨0, 9⟩] (by unfold IsBoard; decide) (by decide) (by decide)


/-! ## C18: drops rest on empty cells -/

theorem eraseTile_dot_stays (levelMap : Grid) (x y x' y' : Nat)
    (h : cellAt levelMap x' y' = some '.') : cellAt (eraseTile levelMap x y) x' y' = some '.' := by
  by_cases hy : y < levelMap.length
  · rw [cellAt_eraseTile levelMap x y hy]
    split_ifs
    · rfl
    · exact h
  · have : eraseTile levelMap x y = levelMap := by
      unfold eraseTile setTile
      rw [List.getElem?_eq_none (by omega)]
      rfl
    rw [this]; exact h

theorem advanceOne_dot_stays (p : Drop) (levelMap : Grid) (x y : Nat)
    (h : cellAt levelMap x y = some '.') : cellAt (advanceOne p levelMap).2 x y = some '.' := by
  rw [advanceOne_snd]
  split_ifs
  · exact eraseTile_dot_stays levelMap _ _ x y h
  · exact h

theorem sweep_survivor_rests (drops : List Drop) (levelMap : Grid) :
    ∀ q ∈ (sweep drops levelMap).1,
      1 ≤ q.y ∧ q.y < Height ∧ cellAt (sweep drops levelMap).2 q.x q.y = some '.' := by
  induction drops with
  | nil => intro q hq; cases hq
  | cons p ps ih =>
    intro q hq
    rw [sweep_cons] at hq ⊢
    simp only at hq ⊢
    rcases List.mem_append.mp hq with h | h
    · rcases advanceOne_fst p (sweep ps levelMap).2 with h0 | ⟨h1, hy, hc, hsame⟩
      · rw [h0] at h; cases h
      · rw [h1] at h
        have hq' : q = fall p := List.mem_singleton.mp h
        rw [hq', hsame]
        exact ⟨Nat.le_add_left 1 p.y, hy, hc⟩
    · obtain ⟨h1, h2, h3⟩ := ih q h
      exact ⟨h1, h2, advanceOne_dot_stays p _ _ _ h3⟩

theorem tick_restsOnEmpty (s : State) (hm : s.mode = Mode.play)
    (hg : Height ≤ s.levelMap.length) : RestsOnEmpty (tick s) := by
  intro q hq
  rw [tick_drops_eq_sweep s hm hg] at hq
  rw [tick_levelMap_eq_sweep s hm hg]
  obtain ⟨h1, h2, h3⟩ := sweep_survivor_rests _ _ q hq
  have h15 : q.y ≤ 15 := by
    have : q.y < 16 := h2
    omega
  exact ⟨h1, h15, h3⟩

theorem loadLevel_drops (i : Nat) (s : State) : (loadLevel i s).drops = [] := by
  unfold loadLevel; split <;> rfl

theorem step_restsOnEmpty (s : State) (e : Event) (hr : Reachable s) (h : RestsOnEmpty s) :
    RestsOnEmpty (step s e) := by
  cases e with
  | tick =>
    show RestsOnEmpty (tick s)
    by_cases hm : s.mode = Mode.play
    · exact tick_restsOnEmpty s hm (by rw [reachable_play_rows s hr hm])
    · rw [tick_of_not_play s hm]; exact h
  | touch x y =>
    show RestsOnEmpty (PS.touch x y s)
    unfold PS.touch
    split_ifs
    · exact h
    · exact h
  | release => exact h
  | enter x y => exact h
  | exitGrid => exact h
  | keyDown key =>
    show RestsOnEmpty (PS.keyDown key s)
    rw [keyDown_eq]
    split_ifs
    · intro p hp; cases hp
    · intro p hp; rw [loadLevel_drops] at hp; cases hp
    · exact h

theorem reachable_restsOnEmpty (s : State) (hr : Reachable s) : RestsOnEmpty s := by
  induction hr with
  | start => intro p hp; cases hp
  | step s e hr ih => exact step_restsOnEmpty s e hr ih

/-- C18: in every state reachable from the start by any events (in-range coordinates or not),
every drop (x, y) of the particle list has 1 <= y <= 15 and the grid cell (x, y) holds '.';
and after a play-mode tick every drop of the list, the one spawned by that tick included, is
a pre-advance drop moved one row down. -/
theorem C18_rest_on_empty (s : State) (hr : Reachable s) :
    (∀ p ∈ s.drops, 1 ≤ p.y ∧ p.y ≤ 15 ∧ cellAt s.levelMap p.x p.y = some '.')
      ∧ (s.mode = Mode.play →
          ∃ kept : List Drop, kept.Sublist (preAdvance s) ∧ (tick s).drops = kept.map fall) := by
  refine ⟨reachable_restsOnEmpty s hr, ?_⟩
  intro hm
  have hg : Height ≤ s.levelMap.length := by rw [reachable_play_rows s hr hm]
  obtain ⟨kept, hsub, _, hk⟩ := sweep_survivors (preAdvance s) s.levelMap
  exact ⟨kept, hsub, by rw [tick_drops_eq_sweep s hm hg, hk]⟩

/-- C18 at a concrete input: the state after the tick on `sharedCellState`, where a drop has
just fallen into the cell (0, 10) emptied in the same tick. -/
theorem C18_rest_on_empty_witness :
    (∀ p ∈ (tick sharedCellState).drops,
        1 ≤ p.y ∧ p.y ≤ 15 ∧ cellAt (tick sharedCellState).levelMap p.x p.y = some '.')
      ∧ (tick sharedCellState).drops = [⟨0, 10⟩] :=
  ⟨(C18_rest_on_empty (tick sharedCellState)
      (Reachable.step _ Event.tick (run_reachable _ start Reachable.start))).1, by decide⟩

/-! ## C20: the particle list stays short -/

theorem spaced_mono (l : List Drop) : ∀ b b' : Nat, b' ≤ b → Spaced l b → Spaced l b' := by
  induction l with
  | nil => intro _ _ _ _; trivial
  | cons p ps ih =>
    intro b b' hle h
    exact ⟨Nat.le_trans hle h.1, ih (b + 2) (b' + 2) (by omega) h.2⟩

theorem spaced_sublist (l' l : List Drop) (hsub : l'.Sublist l) :
    ∀ b : Nat, Spaced l b → Spaced l' b := by
  induction hsub with
  | slnil => intro _ h; exact h
  | cons a _ ih =>
    intro b h
    exact ih b (spaced_mono _ (b + 2) b (by omega) h.2)
  | cons₂ a _ ih =>
    intro b h
    exact ⟨h.1, ih (b + 2) h.2⟩

theorem spaced_map_fall (l : List Drop) : ∀ b : Nat, Spaced l b → Spaced (l.map fall) (b + 1) := by
  induction l with
  | nil => intro _ _; trivial
  | cons p ps ih =>
    intro b h
    refine ⟨?_, ?_⟩
    · show b + 1 ≤ p.y + 1
      have := h.1
      omega
    · have h2 := ih (b + 2) h.2
      have e : b + 2 + 1 = b + 1 + 2 := by omega
      rw [e] at h2
      exact h2

theorem spaced_length (l : List Drop) :
    ∀ b : Nat, Spaced l b → (∀ p ∈ l, p.y < Height) → l ≠ [] → b + 2 * l.length ≤ 17 := by
  induction l with
  | nil => intro _ _ _ h; exact absurd rfl h
  | cons p ps ih =>
    intro b h hy _
    have hp : p.y < 16 := hy p (List.mem_cons_self _ _)
    by_cases hps : ps = []
    · subst hps
      have := h.1
      simp only [List.length_singleton]
      omega
    · have h2 := ih (b + 2) h.2 (fun q hq => hy q (List.mem_cons_of_mem _ hq)) hps
      simp only [List.length_cons]
      omega

theorem dropsSpaced_length (s : State) (h : DropsSpaced s) : s.drops.length ≤ 8 := by
  by_cases he : s.drops = []
  · rw [he]; exact Nat.zero_le _
  · have hne : s.drops.reverse ≠ [] := by
      intro hrev
      exact he (List.reverse_eq_nil_iff.mp hrev)
    have hb : Spaced s.drops.reverse 1 :=
      spaced_mono _ _ 1 (by split_ifs <;> omega) h.1
    have h2 := spaced_length s.drops.reverse 1 hb
      (fun p hp => h.2 p (List.mem_reverse.mp hp)) hne
    rw [List.length_reverse] at h2
    omega

theorem tick_dropsSpaced (s : State) (hm : s.mode = Mode.play)
    (hg : Height ≤ s.levelMap.length) (hw : 0 ≤ s.spawnWait ∧ s.spawnWait ≤ 2)
    (h : DropsSpaced s) : DropsSpaced (tick s) := by
  obtain ⟨kept, hsub, hy, hk⟩ := sweep_survivors (preAdvance s) s.levelMap
  have hd : (tick s).drops = kept.map fall := by rw [tick_drops_eq_sweep s hm hg, hk]
  have hsw : (tick s).spawnWait = (spawnPhase s).spawnWait := tick_spawnWait_of_play s hm
  have hrev : (kept.map fall).reverse = kept.reverse.map fall := (List.map_reverse _ _).symm
  have hsubr : kept.reverse.Sublist (preAdvance s).reverse := hsub.reverse
  refine ⟨?_, ?_⟩
  · rw [hd, hsw, hrev]
    by_cases hr : s.raining = true
    · rw [spawnPhase_spawnWait_raining s hr]
      by_cases h0 : s.spawnWait ≤ 0
      · rw [if_pos h0, if_pos rfl]
        have hne2 : ¬ s.spawnWait = 2 := by omega
        have hold : Spaced s.drops.reverse 2 := by
          have := h.1
          rw [if_neg hne2] at this
          exact this
        have hpre : (preAdvance s).reverse = ⟨s.rainX, s.rainY⟩ :: s.drops.reverse := by
          rw [preAdvance_eq s hr, if_pos h0, List.reverse_append]
          rfl
        rw [hpre] at hsubr
        have hsp : Spaced (⟨s.rainX, s.rainY⟩ :: s.drops.reverse) 0 := ⟨Nat.zero_le _, hold⟩
        exact spaced_map_fall _ 0 (spaced_sublist _ _ hsubr 0 hsp)
      · rw [if_neg h0]
        have hne2 : ¬ s.spawnWait - 1 = 2 := by omega
        rw [if_neg hne2]
        have hpre : (preAdvance s).reverse = s.drops.reverse := by
          rw [preAdvance_eq s hr, if_neg h0, List.append_nil]
        rw [hpre] at hsubr
        have hold : Spaced s.drops.reverse 1 :=
          spaced_mono _ _ 1 (by split_ifs <;> omega) h.1
        exact spaced_map_fall _ 1 (spaced_sublist _ _ hsubr 1 hold)
    · have hr' : s.raining = false := by simpa using hr
      rw [spawnPhase_idle s hr']
      show Spaced (kept.reverse.map fall) (if (0 : Int) = 2 then 1 else 2)
      rw [if_neg (by decide)]
      have hpre : (preAdvance s).reverse = s.drops.reverse := by
        unfold preAdvance
        rw [spawnPhase_idle s hr']
      rw [hpre] at hsubr
      have hold : Spaced s.drops.reverse 1 :=
        spaced_mono _ _ 1 (by split_ifs <;> omega) h.1
      exact spaced_map_fall _ 1 (spaced_sublist _ _ hsubr 1 hold)
  · intro q hq
    rw [hd] at hq
    obtain ⟨p, hp, hpq⟩ := List.mem_map.mp hq
    rw [← hpq]
    exact hy p hp

theorem step_dropsSpaced (s : State) (e : Event) (hr : Reachable s) (h : DropsSpaced s) :
    DropsSpaced (step s e) := by
  cases e with
  | tick =>
    show DropsSpaced (tick s)
    by_cases hm : s.mode = Mode.play
    · exact tick_dropsSpaced s hm (by rw [reachable_play_rows s hr hm])
        (reachable_spawnWait_range s hr) h
    · rw [tick_of_not_play s hm]; exact h
  | touch x y =>
    show DropsSpaced (PS.touch x y s)
    unfold PS.touch
    split_ifs
    · exact h
    · exact h
  | release => exact h
  | enter x y => exact h
  | exitGrid => exact h
  | keyDown key =>
    show DropsSpaced (PS.keyDown key s)
    rw [keyDown_eq]
    split_ifs
    · exact ⟨trivial, fun p hp => by cases hp⟩
    · unfold DropsSpaced
      rw [loadLevel_drops]
      exact ⟨trivial, fun p hp => by cases hp⟩
    · exact h

theorem reachable_dropsSpaced (s : State) (hr : Reachable s) : DropsSpaced s := by
  induction hr with
  | start => exact ⟨trivial, fun p hp => by cases hp⟩
  | step s e hr ih => exact step_dropsSpaced s e hr ih

/-- C20: in every state reachable from the start by any sequence of events the particle list
holds at most 8 drops. -/
theorem C20_bounded_particles (s : State) (hr : Reachable s) : s.drops.length ≤ 8 :=
  dropsSpaced_length s (reachable_dropsSpaced s hr)

set_option maxRecDepth 100000 in
/-- C20 at a concrete input, where the bound is attained: in `toggledRainState` rain was
toggled so that every second tick spawned, and 8 drops are falling in column 0. -/
theorem C20_bounded_particles_witness :
    toggledRainState.drops.length ≤ 8 ∧ toggledRainState.drops.length = 8 :=
  ⟨C20_bounded_particles toggledRainState (run_reachable _ start Reachable.start), by decide⟩

/-! ## C16: well-formed grids and lookups in range -/

theorem catalog_goodGrid : ∀ level ∈ parsedLevels, GoodGrid level := by
  unfold GoodGrid IsBoard
  decide

theorem legendCells_lookup : ∀ c ∈ legendCells, (legendLookup c).isSome = true := by
  decide

theorem dot_mem_legendCells : (some '.' : Cell) ∈ legendCells := by decide

theorem reachableInRange_reachable (s : State) (h : ReachableInRange s) : Reachable s := by
  induction h with
  | start => exact Reachable.start
  | step s e _ _ ih => exact Reachable.step s e ih

theorem eraseTile_goodGrid (levelMap : Grid) (x y : Nat) (hgood : GoodGrid levelMap)
    (hx : x < Width) : GoodGrid (eraseTile levelMap x y) := by
  refine ⟨eraseTile_isBoard levelMap x y hgood.1 hx, ?_⟩
  by_cases hy : y < levelMap.length
  · rw [eraseTile_eq levelMap x y hy]
    intro row hrow c hc
    rcases List.mem_or_eq_of_mem_set hrow with h | h
    · exact hgood.2 row h c hc
    · have hmem : levelMap.get ⟨y, hy⟩ ∈ levelMap := List.get_mem _ _ _
      have hlen : (levelMap.get ⟨y, hy⟩).length = Width := hgood.1.2 _ hmem
      rw [h] at hc
      unfold writeCell at hc
      rw [if_pos (by rw [hlen]; exact hx)] at hc
      rcases List.mem_or_eq_of_mem_set hc with h2 | h2
      · exact hgood.2 _ hmem c h2
      · rw [h2]; exact dot_mem_legendCells
  · have : eraseTile levelMap x y = levelMap := by
      unfold eraseTile setTile
      rw [List.getElem?_eq_none (by omega)]
      rfl
    rw [this]
    exact hgood.2

theorem advanceOne_goodGrid (p : Drop) (levelMap : Grid) (hgood : GoodGrid levelMap)
    (hx : p.x < Width) : GoodGrid (advanceOne p levelMap).2 := by
  rw [advanceOne_snd]
  split_ifs
  · exact eraseTile_goodGrid levelMap _ _ hgood hx
  · exact hgood

theorem sweep_goodGrid (drops : List Drop) (levelMap : Grid) (hgood : GoodGrid levelMap)
    (hx : ∀ p ∈ drops, p.x < Width) : GoodGrid (sweep drops levelMap).2 := by
  induction drops with
  | nil => exact hgood
  | cons p ps ih =>
    rw [sweep_cons]
    exact advanceOne_goodGrid p _ (ih (fun q hq => hx q (List.mem_cons_of_mem _ hq)))
      (hx p (List.mem_cons_self _ _))

theorem goodGrid_cell (levelMap : Grid) (hgood : GoodGrid levelMap) (x y : Nat)
    (hx : x < Width) (hy : y < Height) :
    InGrid levelMap x y ∧ cellAt levelMap x y ∈ legendCells := by
  have hyl : y < levelMap.length := by rw [hgood.1.1]; exact hy
  have hrow : levelMap[y]? = some levelMap[y] := List.getElem?_eq_getElem hyl
  have hmem : levelMap[y] ∈ levelMap := List.getElem_mem hyl
  have hxl : x < (levelMap[y]).length := by rw [hgood.1.2 _ hmem]; exact hx
  refine ⟨⟨levelMap[y], hrow, hxl⟩, ?_⟩
  rw [cellAt_eq_readCell levelMap x y _ hrow]
  unfold readCell
  rw [List.getElem?_eq_getElem hxl]
  exact hgood.2 _ hmem _ (List.getElem_mem hxl)

theorem sweep_lookupsInRange (drops : List Drop) (levelMap : Grid) (hgood : GoodGrid levelMap)
    (hx : ∀ p ∈ drops, p.x < Width) : LookupsInRange drops levelMap := by
  induction drops with
  | nil => trivial
  | cons p ps ih =>
    have hps : ∀ q ∈ ps, q.x < Width := fun q hq => hx q (List.mem_cons_of_mem _ hq)
    refine ⟨ih hps, fun hy => ?_⟩
    exact goodGrid_cell _ (sweep_goodGrid ps levelMap hgood hps) p.x (p.y + 1)
      (hx p (List.mem_cons_self _ _)) hy

theorem draw_isSome (s : State) (hgood : GoodGrid s.levelMap) : (draw s).isSome = true := by
  have hall : ((List.product (List.range Height) (List.range Width)).map
      (fun c => drawCell s.levelMap c.2 c.1)).all Option.isSome = true := by
    rw [List.all_eq_true]
    intro o ho
    obtain ⟨c, hc, hco⟩ := List.mem_map.mp ho
    have hc' := List.mem_product.mp hc
    have hy : c.1 < Height := List.mem_range.mp hc'.1
    have hx : c.2 < Width := List.mem_range.mp hc'.2
    obtain ⟨⟨row, hrow, _⟩, hcell⟩ := goodGrid_cell s.levelMap hgood c.2 c.1 hx hy
    rw [cellAt_eq_readCell s.levelMap c.2 c.1 row hrow] at hcell
    have hl := legendCells_lookup _ hcell
    rw [← hco]
    unfold drawCell
    rw [hrow]
    simp only
    cases htile : legendLookup (readCell row c.2) with
    | none => rw [htile] at hl; cases hl
    | some tile =>
      simp only
      cases tile.color <;> rfl
  unfold draw
  simp only
  rw [if_pos hall]
  rfl

theorem preAdvance_inRange (s : State) (h : Safe s) :
    ∀ p ∈ preAdvance s, p.x < Width ∧ p.y < Height := by
  intro p hp
  rcases preAdvance_cases s with e | e
  · rw [e] at hp; exact h.2.2.2 p hp
  · rw [e] at hp
    rcases List.mem_append.mp hp with h1 | h1
    · exact h.2.2.2 p h1
    · rw [List.mem_singleton.mp h1]; exact ⟨h.2.1, h.2.2.1⟩

theorem tick_safe (s : State) (h : Safe s) : Safe (tick s) := by
  by_cases hm : s.mode = Mode.play
  · have hgood := h.1 hm
    have hg : Height ≤ s.levelMap.length := by rw [hgood.1.1]
    have hpre := preAdvance_inRange s h
    refine ⟨fun _ => ?_, by rw [tick_rainX]; exact h.2.1, by rw [tick_rainY]; exact h.2.2.1, ?_⟩
    · rw [tick_levelMap_eq_sweep s hm hg]
      exact sweep_goodGrid _ _ hgood (fun p hp => (hpre p hp).1)
    · obtain ⟨kept, hsub, hy, hk⟩ := sweep_survivors (preAdvance s) s.levelMap
      rw [tick_drops_eq_sweep s hm hg, hk]
      intro q hq
      obtain ⟨p, hp, hpq⟩ := List.mem_map.mp hq
      rw [← hpq]
      exact ⟨(hpre p (hsub.subset hp)).1, hy p hp⟩
  · rw [tick_of_not_play s hm]; exact h

theorem loadLevel_safe (i : Nat) (hi : i < 3) (s : State) (h : Safe s) :
    Safe (loadLevel i s) := by
  have hlen : i < parsedLevels.length := hi
  have hlv : parsedLevels[i]? = some parsedLevels[i] := List.getElem?_eq_getElem hlen
  have hgood : GoodGrid parsedLevels[i] := catalog_goodGrid _ (List.getElem_mem hlen)
  unfold loadLevel
  rw [hlv]
  simp only [List.map_id']
  exact ⟨fun _ => hgood, h.2.1, h.2.2.1, fun p hp => by cases hp⟩

theorem step_safe (s : State) (e : Event) (he : e.InRange) (h : Safe s) : Safe (step s e) := by
  cases e with
  | tick => exact tick_safe s h
  | touch x y =>
    show Safe (PS.touch x y s)
    unfold PS.touch
    have he' : x < Width ∧ y < Height := he
    split_ifs
    · exact h
    · exact ⟨h.1, he'.1, he'.2, h.2.2.2⟩
  | release => exact h
  | enter x y =>
    have he' : x < Width ∧ y < Height := he
    exact ⟨h.1, he'.1, he'.2, h.2.2.2⟩
  | exitGrid => exact h
  | keyDown key =>
    show Safe (PS.keyDown key s)
    rw [keyDown_eq]
    split_ifs with h1 h2
    · exact And.intro (fun hm => by cases hm)
        (And.intro h.2.1 (And.intro h.2.2.1 (fun p hp => by cases hp)))
    · exact loadLevel_safe _ (by omega) s h
    · exact h

theorem reachableInRange_safe (s : State) (hr : ReachableInRange s) : Safe s := by
  induction hr with
  | start =>
    exact And.intro (fun hm => by cases hm)
      (And.intro (by decide) (And.intro (by decide) (fun p hp => by cases hp)))
  | step s e _ he ih => exact step_safe s e he ih

/-- C16: every catalog level is 16 rows of 16 cells, each a key of the legend; and in every
play-mode state reachable by events whose touch/enter coordinates are in range, the grid is
still 16x16 with every cell a legend key, every drop (the one spawned by the next tick
included) has x < 16 and y < 16, every lookup `levelMap[y + 1][x]` of the advance loop stays
inside the arrays and finds a legend key, the loop runs to its end, and the lookups of `draw`
succeed, before and after the tick. -/
theorem C16_lookup_safety (s : State) (hr : ReachableInRange s) (hm : s.mode = Mode.play) :
    (∀ level ∈ parsedLevels, GoodGrid level)
      ∧ GoodGrid s.levelMap
      ∧ (∀ p ∈ s.drops, p.x < Width ∧ p.y < Height)
      ∧ (∀ p ∈ preAdvance s, p.x < Width ∧ p.y < Height)
      ∧ LookupsInRange (preAdvance s) s.levelMap
      ∧ (advancePhase (spawnPhase s)).completed = true
      ∧ (draw s).isSome = true
      ∧ (draw (tick s)).isSome = true := by
  have hsafe := reachableInRange_safe s hr
  have hgood := hsafe.1 hm
  have hg : Height ≤ s.levelMap.length := by rw [hgood.1.1]
  have hpre := preAdvance_inRange s hsafe
  have hsafe' := tick_safe s hsafe
  refine ⟨catalog_goodGrid, hgood, hsafe.2.2.2, hpre,
    sweep_lookupsInRange _ _ hgood (fun p hp => (hpre p hp).1), ?_, draw_isSome s hgood,
    draw_isSome _ (hsafe'.1 (by rw [tick_mode, hm]))⟩
  rw [advancePhase_eq_sweep _ (by rw [spawnPhase_levelMap]; exact hg)]

/-- C16 at a concrete input: `sharedCellState`, reached by in-range events. -/
theorem C16_lookup_safety_witness :
    (∀ level ∈ parsedLevels, GoodGrid level)
      ∧ GoodGrid sharedCellState.levelMap
      ∧ (∀ p ∈ sharedCellState.drops, p.x < Width ∧ p.y < Height)
      ∧ (∀ p ∈ preAdvance sharedCellState, p.x < Width ∧ p.y < Height)
      ∧ LookupsInRange (preAdvance sharedCellState) sharedCellState.levelMap
      ∧ (advancePhase (spawnPhase sharedCellState)).completed = true
      ∧ (draw sharedCellState).isSome = true
      ∧ (draw (tick sharedCellState)).isSome = true :=
  C16_lookup_safety sharedCellState
    (ReachableInRange.step _ (Event.enter 0 9)
      (ReachableInRange.step _ Event.tick
        (ReachableInRange.step _ Event.tick
          (ReachableInRange.step _ Event.tick
            (ReachableInRange.step _ (Event.touch 0 6)
              (ReachableInRange.step _ (Event.keyDown 49) ReachableInRange.start trivial)
              (by show 0 < Width ∧ 6 < Height; decide))
            trivial) trivial) trivial)
      (by show 0 < Width ∧ 9 < Height; decide))
    (by decide)

/-! ## What a tick returns when it spawns and when it does not -/

theorem advanceLoop_length_le (n : Nat) :
    ∀ (drops : List Drop) (levelMap : Grid),
      (advanceLoop n drops levelMap).drops.length ≤ drops.length := by
  induction n with
  | zero => intro drops levelMap; exact Nat.le_refl _
  | succ i ih =>
    intro drops levelMap
    rw [advanceLoop]
    split
    · exact Nat.le_refl _
    · simp only
      split_ifs
      · exact Nat.le_trans (ih _ _) (List.length_eraseIdx_le _ _)
      · split
        · exact Nat.le_refl _
        · split_ifs
          · split
            · exact Nat.le_refl _
            · exact Nat.le_trans (ih _ _) (List.length_eraseIdx_le _ _)
          · have h := ih (drops.set i { x := (‹Drop›).x, y := (‹Drop›).y + 1 }) levelMap
            rw [List.length_set] at h
            exact h

/-- The list and the grid a play-mode tick returns are those left by the advance loop run on
the pre-advance list. -/
theorem tick_eq_loop (t : State) (hm : t.mode = Mode.play) :
    (tick t).drops = (advanceLoop (preAdvance t).length (preAdvance t) t.levelMap).drops
      ∧ (tick t).levelMap
          = (advanceLoop (preAdvance t).length (preAdvance t) t.levelMap).levelMap := by
  rw [tick_of_play t hm]
  unfold advancePhase preAdvance
  rw [spawnPhase_levelMap]
  exact ⟨rfl, rfl⟩

/-- A tick that appends drop `p`, on a grid with its 16 rows: `p` is visited first, on the
grid before the tick, and the older drops are swept on the grid it leaves; when the cell below
`p` is `'.'`, the list after the tick ends with `p` one row down. -/
theorem tick_spawn_sweep (t : State) (p : Drop) (hm : t.mode = Mode.play)
    (hg : Height ≤ t.levelMap.length) (hpre : preAdvance t = t.drops ++ [p]) :
    (tick t).drops
        = (sweep t.drops (advanceOne p t.levelMap).2).1 ++ (advanceOne p t.levelMap).1.toList
      ∧ (tick t).levelMap = (sweep t.drops (advanceOne p t.levelMap).2).2
      ∧ (p.y + 1 < Height → cellAt t.levelMap p.x (p.y + 1) = some '.' →
          (tick t).drops = (sweep t.drops t.levelMap).1 ++ [⟨p.x, p.y + 1⟩]
            ∧ (tick t).levelMap = (sweep t.drops t.levelMap).2) := by
  have h1 : (tick t).drops
      = (sweep t.drops (advanceOne p t.levelMap).2).1 ++ (advanceOne p t.levelMap).1.toList := by
    rw [tick_drops_eq_sweep t hm hg, hpre, sweep_concat]
  have h2 : (tick t).levelMap = (sweep t.drops (advanceOne p t.levelMap).2).2 := by
    rw [tick_levelMap_eq_sweep t hm hg, hpre, sweep_concat]
  refine ⟨h1, h2, ?_⟩
  intro hy hc
  have hf : advanceOne p t.levelMap = (some (fall p), t.levelMap) :=
    advanceOne_fall p t.levelMap hy (by simp [destructible, hc])
  rw [h1, h2, hf]
  exact ⟨rfl, rfl⟩

theorem tick_nospawn_sweep (t : State) (hm : t.mode = Mode.play)
    (hg : Height ≤ t.levelMap.length) (hpre : preAdvance t = t.drops) :
    (tick t).drops = (sweep t.drops t.levelMap).1
      ∧ (tick t).levelMap = (sweep t.drops t.levelMap).2 := by
  rw [tick_drops_eq_sweep t hm hg, tick_levelMap_eq_sweep t hm hg, hpre]
  exact ⟨rfl, rfl⟩

theorem tick_rows_ge (s : State) (hg : Height ≤ s.levelMap.length) :
    (tick s).levelMap.length = s.levelMap.length := by
  by_cases hm : s.mode = Mode.play
  · rw [tick_levelMap_eq_sweep s hm hg, sweep_length]
  · rw [tick_of_not_play s hm]

theorem ticks_rows_ge (k : Nat) (s : State) (hg : Height ≤ s.levelMap.length) :
    Height ≤ (ticks k s).levelMap.length := by
  induction k with
  | zero => exact hg
  | succ k ih => rw [ticks_succ, tick_rows_ge _ ih]; exact ih

theorem ticks_reachable (k : Nat) (s : State) (hr : Reachable s) : Reachable (ticks k s) := by
  induction k with
  | zero => exact hr
  | succ k ih => rw [ticks_succ]; exact Reachable.step _ Event.tick ih

theorem step_rows_ge (s : State) (e : Event) (he : e.IsIdle ∨ e.IsPointer)
    (hg : Height ≤ s.levelMap.length) : (step s e).levelMap.length = s.levelMap.length := by
  cases e with
  | tick => exact tick_rows_ge s hg
  | touch x y =>
    show (PS.touch x y s).levelMap.length = s.levelMap.length
    unfold PS.touch
    split_ifs <;> rfl
  | release => rfl
  | enter x y => rfl
  | exitGrid => rfl
  | keyDown key =>
    rcases he with h | h
    · exact absurd h (by simp [Event.IsIdle])
    · exact absurd h (by simp [Event.IsPointer])

theorem run_rows_ge (es : List Event) :
    ∀ s : State, (∀ e ∈ es, e.IsIdle ∨ e.IsPointer) → Height ≤ s.levelMap.length →
      Height ≤ (run s es).levelMap.length := by
  induction es with
  | nil => intro s _ hg; exact hg
  | cons e es ih =>
    intro s hes hg
    refine ih (step s e) (fun e' he' => hes e' (List.mem_cons_of_mem _ he')) ?_
    rw [step_rows_ge s e (hes e (List.mem_cons_self _ _)) hg]
    exact hg

/-! ## C2, C9, C17: the drop a tick creates, in the list the tick returns -/

/-- C2: in a play-mode state with raining = true and spawnWait = c, c one of 0, 1, 2, with
ticks and nothing else: tick k (0-based) creates a drop exactly when k mod 3 = c (at c = 0:
ticks 0, 3, 6, ...).  The list tick k returns is the one the advance loop leaves when run on
the list before the tick with exactly one drop appended at the rain origin if k mod 3 = c,
and with nothing appended otherwise; it is at most one longer than before on a spawning tick
and not longer on any other.  On a grid with its 16 rows: on a spawning tick the new drop is
visited first and the older drops are swept after it, and when the cell below the origin is
'.' the returned list ends with the new drop one row below the origin; on every other tick
the returned list is the sweep of the old list alone. -/
theorem C2_spawn_throttling (s : State) (c : Nat) (hm : s.mode = Mode.play)
    (hr : s.raining = true) (hc : c < 3) (hw : s.spawnWait = (c : Int)) (k : Nat) :
    (spawnsOnTick (ticks k s) = true ↔ k % 3 = c)
      ∧ preAdvance (ticks k s)
          = (ticks k s).drops ++ (if k % 3 = c then [⟨s.rainX, s.rainY⟩] else [])
      ∧ (tick (ticks k s)).drops
          = (advanceLoop
              ((ticks k s).drops
                ++ (if k % 3 = c then [(⟨s.rainX, s.rainY⟩ : Drop)] else [])).length
              ((ticks k s).drops ++ (if k % 3 = c then [⟨s.rainX, s.rainY⟩] else []))
              (ticks k s).levelMap).drops
      ∧ (tick (ticks k s)).drops.length
          ≤ (ticks k s).drops.length + (if k % 3 = c then 1 else 0)
      ∧ (Height ≤ s.levelMap.length →
          (k % 3 = c →
              (tick (ticks k s)).drops
                  = (sweep (ticks k s).drops
                        (advanceOne ⟨s.rainX, s.rainY⟩ (ticks k s).levelMap).2).1
                      ++ (advanceOne ⟨s.rainX, s.rainY⟩ (ticks k s).levelMap).1.toList
                ∧ (s.rainY + 1 < Height
                    → cellAt (ticks k s).levelMap s.rainX (s.rainY + 1) = some '.'
                    → (tick (ticks k s)).drops
                        = (sweep (ticks k s).drops (ticks k s).levelMap).1
                            ++ [⟨s.rainX, s.rainY + 1⟩]))
            ∧ (k % 3 ≠ c →
                (tick (ticks k s)).drops = (sweep (ticks k s).drops (ticks k s).levelMap).1)) := by
  have h := spawn_throttling_aux s c hm hr hc hw k
  have hm1 : (ticks k s).mode = Mode.play := by rw [ticks_mode, hm]
  have hloop := (tick_eq_loop (ticks k s) hm1).1
  rw [h.2] at hloop
  refine ⟨h.1, h.2, hloop, ?_, ?_⟩
  · rw [hloop]
    refine Nat.le_trans (advanceLoop_length_le _ _ _) ?_
    rw [List.length_append]
    split_ifs <;> simp
  · intro hg
    have hgk := ticks_rows_ge k s hg
    refine ⟨fun hk => ?_, fun hk => ?_⟩
    · have hpre : preAdvance (ticks k s) = (ticks k s).drops ++ [⟨s.rainX, s.rainY⟩] := by
        rw [h.2, if_pos hk]
      have hs := tick_spawn_sweep (ticks k s) ⟨s.rainX, s.rainY⟩ hm1 hgk hpre
      exact ⟨hs.1, fun hy hcell => (hs.2.2 hy hcell).1⟩
    · have hpre : preAdvance (ticks k s) = (ticks k s).drops := by
        rw [h.2, if_neg hk, List.append_nil]
      exact (tick_nospawn_sweep (ticks k s) hm1 hgk hpre).1

/-- C2 at concrete inputs: the scenario state (level 0, touch at (0,0), spawnWait = 0) at
tick 6, which spawns, and at tick 7, which does not. -/
theorem C2_spawn_throttling_witness :
    (spawnsOnTick (ticks 6 scenario) = true ↔ 6 % 3 = 0)
      ∧ preAdvance (ticks 6 scenario)
          = (ticks 6 scenario).drops
              ++ (if 6 % 3 = 0 then [⟨scenario.rainX, scenario.rainY⟩] else [])
      ∧ (tick (ticks 6 scenario)).drops
          = (sweep (ticks 6 scenario).drops (ticks 6 scenario).levelMap).1 ++ [⟨0, 1⟩]
      ∧ (tick (ticks 6 scenario)).drops = [⟨0, 7⟩, ⟨0, 4⟩, ⟨0, 1⟩]
      ∧ (tick (ticks 7 scenario)).drops
          = (sweep (ticks 7 scenario).drops (ticks 7 scenario).levelMap).1
      ∧ (tick (ticks 7 scenario)).drops = [⟨0, 8⟩, ⟨0, 5⟩, ⟨0, 2⟩] :=
  have h6 := C2_spawn_throttling scenario 0 (by decide) (by decide) (by decide) (by decide) 6
  have h7 := C2_spawn_throttling scenario 0 (by decide) (by decide) (by decide) (by decide) 7
  ⟨h6.1, h6.2.1,
    ((h6.2.2.2.2 (by decide)).1 (by decide)).2 (by decide) (by decide),
    by decide,
    (h7.2.2.2.2 (by decide)).2 (by decide),
    by decide⟩

/-- C9: from every reachable play-mode state, after a touch at (x, y) followed by ticks
only, one of the first three ticks (k = 0, 1 or 2) creates a drop at (x, y): in the state t
before that tick the spawn guard holds, and the list the tick returns is the one the advance
loop leaves when run on the drops of t with the drop (x, y) appended; the new drop is visited
first and the older drops are swept after it, and when the cell (x, y + 1) is '.' the
returned list ends with the drop (x, y + 1). -/
theorem C9_resume_within_three_ticks (s : State) (x y : Nat) (hr : Reachable s)
    (hm : s.mode = Mode.play) :
    ∃ k, k < 3 ∧ ∃ t, t = ticks k (PS.touch x y s)
      ∧ spawnsOnTick t = true
      ∧ preAdvance t = t.drops ++ [⟨x, y⟩]
      ∧ (tick t).drops
          = (advanceLoop (t.drops ++ [(⟨x, y⟩ : Drop)]).length (t.drops ++ [⟨x, y⟩])
              t.levelMap).drops
      ∧ (tick t).drops
          = (sweep t.drops (advanceOne ⟨x, y⟩ t.levelMap).2).1
              ++ (advanceOne ⟨x, y⟩ t.levelMap).1.toList
      ∧ (y + 1 < Height → cellAt t.levelMap x (y + 1) = some '.'
          → (tick t).drops = (sweep t.drops t.levelMap).1 ++ [⟨x, y + 1⟩]) := by
  have ht : PS.touch x y s = { s with raining := true, rainX := x, rainY := y } := by
    simp [PS.touch, hm]
  have hrange := reachable_spawnWait_range s hr
  have hw : (PS.touch x y s).spawnWait = ((s.spawnWait.toNat : Nat) : Int) := by
    rw [ht]; show s.spawnWait = _; omega
  have hc : s.spawnWait.toNat < 3 := by omega
  have hm1 : (PS.touch x y s).mode = Mode.play := by rw [ht]; exact hm
  have hr1 : (PS.touch x y s).raining = true := by rw [ht]
  have h := spawn_throttling_aux (PS.touch x y s) s.spawnWait.toNat hm1 hr1 hc hw s.spawnWait.toNat
  have hk : s.spawnWait.toNat % 3 = s.spawnWait.toNat := Nat.mod_eq_of_lt hc
  have hpre : preAdvance (ticks s.spawnWait.toNat (PS.touch x y s))
      = (ticks s.spawnWait.toNat (PS.touch x y s)).drops ++ [⟨x, y⟩] := by
    rw [h.2, if_pos hk, ht]
  have hm2 : (ticks s.spawnWait.toNat (PS.touch x y s)).mode = Mode.play := by
    rw [ticks_mode, hm1]
  have hreach : Reachable (ticks s.spawnWait.toNat (PS.touch x y s)) :=
    ticks_reachable _ _ (Reachable.step s (Event.touch x y) hr)
  have hg : Height ≤ (ticks s.spawnWait.toNat (PS.touch x y s)).levelMap.length := by
    rw [reachable_play_rows _ hreach hm2]
  have hloop := (tick_eq_loop _ hm2).1
  rw [hpre] at hloop
  have hs := tick_spawn_sweep _ ⟨x, y⟩ hm2 hg hpre
  exact ⟨s.spawnWait.toNat, hc, _, rfl, h.1.mpr hk, hpre, hloop, hs.1,
    fun hy hcell => (hs.2.2 hy hcell).1⟩

/-- C9 at a concrete input: level 0, rain held for one tick, released, touched again at
(5, 2); the third tick after the touch returns the old drop and the new one at (5, 3). -/
theorem C9_resume_within_three_ticks_witness :
    (∃ k, k < 3 ∧ ∃ t, t = ticks k (PS.touch 5 2
          (run start [Event.keyDown 49, Event.touch 0 0, Event.tick, Event.release]))
      ∧ spawnsOnTick t = true
      ∧ preAdvance t = t.drops ++ [⟨5, 2⟩]
      ∧ (tick t).drops
          = (advanceLoop (t.drops ++ [(⟨5, 2⟩ : Drop)]).length (t.drops ++ [⟨5, 2⟩])
              t.levelMap).drops
      ∧ (tick t).drops
          = (sweep t.drops (advanceOne ⟨5, 2⟩ t.levelMap).2).1
              ++ (advanceOne ⟨5, 2⟩ t.levelMap).1.toList
      ∧ (2 + 1 < Height → cellAt t.levelMap 5 (2 + 1) = some '.'
          → (tick t).drops = (sweep t.drops t.levelMap).1 ++ [⟨5, 2 + 1⟩]))
      ∧ (tick (ticks 2 (PS.touch 5 2
          (run start [Event.keyDown 49, Event.touch 0 0, Event.tick, Event.release])))).drops
          = [⟨0, 4⟩, ⟨5, 3⟩] :=
  ⟨C9_resume_within_three_ticks _ 5 2
    (Reachable.step _ Event.release (Reachable.step _ Event.tick
      (Reachable.step _ (Event.touch 0 0) (Reachable.step _ (Event.keyDown 49) Reachable.start))))
    (by decide), by decide⟩

/-- C17: in play mode a tick taken with raining = false leaves spawnWait = 0, whatever it
was, and creates no drop: the list it returns is the one the advance loop leaves when run on
the old list alone, and is not longer.  Consequently, after such a tick followed by any
events other than touch and key presses (further ticks, release, enter, exitGrid), the first
tick after a touch at (x, y) creates a drop at (x, y), and if enter events move the origin
between the touch and that tick, at the origin then current: in the state t before that tick
the spawn guard holds and the list the tick returns is the one the advance loop leaves when
run on the drops of t with a drop at the origin appended; on a grid with its 16 rows the new
drop is visited first, the older drops are swept after it, and when the cell below the origin
is '.' the returned list ends with the new drop one row below the origin. -/
theorem C17_immediate_resume (s : State) (es ms : List Event) (x y : Nat)
    (hm : s.mode = Mode.play) (hr : s.raining = false)
    (hes : ∀ e ∈ es, e.IsIdle) (hms : ∀ e ∈ ms, e.IsMove) :
    (tick s).spawnWait = 0
      ∧ spawnsOnTick s = false
      ∧ preAdvance s = s.drops
      ∧ (tick s).drops = (advanceLoop s.drops.length s.drops s.levelMap).drops
      ∧ (tick s).drops.length ≤ s.drops.length
      ∧ spawnsOnTick (PS.touch x y (run (tick s) es)) = true
      ∧ preAdvance (PS.touch x y (run (tick s) es)) = (run (tick s) es).drops ++ [⟨x, y⟩]
      ∧ spawnsOnTick (run (PS.touch x y (run (tick s) es)) ms) = true
      ∧ preAdvance (run (PS.touch x y (run (tick s) es)) ms)
          = (run (tick s) es).drops
              ++ [⟨(run (PS.touch x y (run (tick s) es)) ms).rainX,
                    (run (PS.touch x y (run (tick s) es)) ms).rainY⟩]
      ∧ ∃ t, t = run (PS.touch x y (run (tick s) es)) ms
          ∧ t.drops = (run (tick s) es).drops
          ∧ (ms = [] → t.rainX = x ∧ t.rainY = y)
          ∧ (tick t).drops
              = (advanceLoop (t.drops ++ [(⟨t.rainX, t.rainY⟩ : Drop)]).length
                  (t.drops ++ [⟨t.rainX, t.rainY⟩]) t.levelMap).drops
          ∧ (Height ≤ s.levelMap.length →
              (tick t).drops
                  = (sweep t.drops (advanceOne ⟨t.rainX, t.rainY⟩ t.levelMap).2).1
                      ++ (advanceOne ⟨t.rainX, t.rainY⟩ t.levelMap).1.toList
                ∧ (t.rainY + 1 < Height → cellAt t.levelMap t.rainX (t.rainY + 1) = some '.'
                    → (tick t).drops
                        = (sweep t.drops t.levelMap).1 ++ [⟨t.rainX, t.rainY + 1⟩])) := by
  have h0 : IdleReady (tick s) :=
    ⟨by rw [tick_mode, hm], by rw [tick_raining, hr], tick_spawnWait_idle s hm hr⟩
  obtain ⟨hm1, hr1, hw1⟩ := run_idleReady es (tick s) hes h0
  have ht : PS.touch x y (run (tick s) es)
      = { run (tick s) es with raining := true, rainX := x, rainY := y } := by
    simp [PS.touch, hm1]
  have hm2 : (PS.touch x y (run (tick s) es)).mode = Mode.play := by rw [ht]; exact hm1
  have hr2 : (PS.touch x y (run (tick s) es)).raining = true := by rw [ht]
  have hw2 : (PS.touch x y (run (tick s) es)).spawnWait = 0 := by rw [ht]; exact hw1
  have hd2 : (PS.touch x y (run (tick s) es)).drops = (run (tick s) es).drops := by rw [ht]
  have hmv := run_moves ms (PS.touch x y (run (tick s) es)) hms
  have h3 := spawn_when_ready _ hm2 hr2 hw2
  have hm3 : (run (PS.touch x y (run (tick s) es)) ms).mode = Mode.play := by rw [hmv.1, hm2]
  have h4 := spawn_when_ready (run (PS.touch x y (run (tick s) es)) ms)
    hm3 (by rw [hmv.2.1, hr2]) (by rw [hmv.2.2.1, hw2])
  have hpre0 : preAdvance s = s.drops := by
    unfold preAdvance
    rw [spawnPhase_idle s hr]
  have hloop0 := (tick_eq_loop s hm).1
  rw [hpre0] at hloop0
  have hloop := (tick_eq_loop _ hm3).1
  rw [h4.2] at hloop
  refine ⟨tick_spawnWait_idle s hm hr, ?_, hpre0, hloop0, ?_, h3.1, ?_, h4.1, ?_,
    _, rfl, ?_, ?_, hloop, ?_⟩
  · simp [spawnsOnTick, hr]
  · rw [hloop0]; exact advanceLoop_length_le _ _ _
  · rw [h3.2, hd2, ht]
  · rw [h4.2, hmv.2.2.2.1, hd2]
  · rw [hmv.2.2.2.1, hd2]
  · intro hnil
    rw [hmv.2.2.2.2.2 hnil, ht]
    exact ⟨rfl, rfl⟩
  · intro hg
    have hg1 : Height ≤ (tick s).levelMap.length := by rw [tick_rows_ge s hg]; exact hg
    have hg2 : Height ≤ (run (tick s) es).levelMap.length :=
      run_rows_ge es (tick s) (fun e he => Or.inl (hes e he)) hg1
    have hg3 : Height ≤ (PS.touch x y (run (tick s) es)).levelMap.length := by
      rw [ht]; exact hg2
    have hg4 : Height ≤ (run (PS.touch x y (run (tick s) es)) ms).levelMap.length := by
      rw [hmv.2.2.2.2.1]; exact hg3
    have hs := tick_spawn_sweep _ ⟨(run (PS.touch x y (run (tick s) es)) ms).rainX,
      (run (PS.touch x y (run (tick s) es)) ms).rainY⟩ hm3 hg4 h4.2
    exact ⟨hs.1, fun hy hcell => (hs.2.2 hy hcell).1⟩

/-- C17 at a concrete input: level 0 with rain held for two ticks and then released
(spawnWait = 1); an idle tick, an enter and another idle tick follow; then a touch at (5, 2)
and a move to (6, 2); the next tick returns the old drop and a new one at (6, 3). -/
theorem C17_immediate_resume_witness :
    (tick (run start [Event.keyDown 49, Event.touch 0 0, Event.tick, Event.tick,
        Event.release])).spawnWait = 0
      ∧ (tick (run start [Event.keyDown 49, Event.touch 0 0, Event.tick, Event.tick,
        Event.release])).drops = [⟨0, 3⟩]
      ∧ spawnsOnTick (run (PS.touch 5 2 (run (tick (run start [Event.keyDown 49,
          Event.touch 0 0, Event.tick, Event.tick, Event.release]))
            [Event.enter 4 4, Event.tick])) [Event.enter 6 2]) = true
      ∧ (∃ t, t = run (PS.touch 5 2 (run (tick (run start [Event.keyDown 49,
              Event.touch 0 0, Event.tick, Event.tick, Event.release]))
                [Event.enter 4 4, Event.tick])) [Event.enter 6 2]
          ∧ t.drops = (run (tick (run start [Event.keyDown 49, Event.touch 0 0, Event.tick,
              Event.tick, Event.release])) [Event.enter 4 4, Event.tick]).drops
          ∧ (([Event.enter 6 2] : List Event) = [] → t.rainX = 5 ∧ t.rainY = 2)
          ∧ (tick t).drops
              = (advanceLoop (t.drops ++ [(⟨t.rainX, t.rainY⟩ : Drop)]).length
                  (t.drops ++ [⟨t.rainX, t.rainY⟩]) t.levelMap).drops
          ∧ (Height ≤ (run start [Event.keyDown 49, Event.touch 0 0, Event.tick, Event.tick,
                Event.release]).levelMap.length →
              (tick t).drops
                  = (sweep t.drops (advanceOne ⟨t.rainX, t.rainY⟩ t.levelMap).2).1
                      ++ (advanceOne ⟨t.rainX, t.rainY⟩ t.levelMap).1.toList
                ∧ (t.rainY + 1 < Height → cellAt t.levelMap t.rainX (t.rainY + 1) = some '.'
                    → (tick t).drops
                        = (sweep t.drops t.levelMap).1 ++ [⟨t.rainX, t.rainY + 1⟩])))
      ∧ (tick (run (PS.touch 5 2 (run (tick (run start [Event.keyDown 49,
          Event.touch 0 0, Event.tick, Event.tick, Event.release]))
            [Event.enter 4 4, Event.tick])) [Event.enter 6 2])).drops = [⟨0, 5⟩, ⟨6, 3⟩] :=
  have h := C17_immediate_resume
    (run start [Event.keyDown 49, Event.touch 0 0, Event.tick, Event.tick, Event.release])
    [Event.enter 4 4, Event.tick] [Event.enter 6 2] 5 2 (by decide) (by decide)
    (by simp [Event.IsIdle]) (by simp [Event.IsMove])
  ⟨h.1, by decide, h.2.2.2.2.2.2.2.1, h.2.2.2.2.2.2.2.2.2, by decide⟩

end AcidRain
